import Mathlib

/-!
# pointone: the binary protocol layer of `src/pointone.cpp`

A shallow embedding of the bit-field extractor (`getBitsUnsigned`), the frame
encoder (`pointOneFrame`) and the read loop of `connectToStation`, together
with the properties of them that the specification states.

Bytes (`unsigned char`) are natural numbers; a byte buffer is a list of them.
Arithmetic of a fixed width is written with an explicit `% 2 ^ w`.
-/

namespace PointOne

/-- A byte buffer: `std::vector<unsigned char>`, or the memory behind an
`unsigned char*`.  A well-formed buffer holds values below 256. -/
abbrev Buffer := List Nat

/-- Every element of the buffer is a byte value. -/
def isBytes (b : Buffer) : Prop := ∀ x ∈ b, x < 256

instance (b : Buffer) : Decidable (isBytes b) := by
  unfold isBytes; infer_instance

/-! ## `getBitsUnsigned` (lines 26-37) -/

/-- The value `(buff[i/8] >> (7 - i%8)) & 1u` read at bit position `i`.  A
position behind the end of the list (undefined behaviour in the source) reads
as a zero byte. -/
def bitAt (buff : Buffer) (i : Nat) : Nat :=
  (buff.getD (i / 8) 0 >>> (7 - i % 8)) &&& 1

/-- The loop `for (i = pos; i < pos+len; i++) bits = (bits<<1) + bit(i)` with
`n` iterations left, `bits` an `unsigned int` (32 bits). -/
def getBitsLoop (buff : Buffer) : Nat → Nat → Nat → Nat
  | _, 0, bits => bits
  | i, n + 1, bits => getBitsLoop buff (i + 1) n (((bits <<< 1) + bitAt buff i) % 2 ^ 32)

/-- Source `getBitsUnsigned(buff, pos, len)`, for `pos ≥ 0` and `len ≥ 0`.  The
`int` counter `i` is a natural number here: it runs up to `pos + len`, which
the callers keep far below `INT_MAX`. -/
def getBitsUnsigned (buff : Buffer) (pos len : Nat) : Nat :=
  getBitsLoop buff pos len 0

/-- The accumulation as the specification words it (§4.1): shift the result
left and OR each bit in. -/
def specBitsLoop (buff : Buffer) : Nat → Nat → Nat → Nat
  | _, 0, bits => bits
  | i, n + 1, bits => specBitsLoop buff (i + 1) n (((bits <<< 1) ||| bitAt buff i) % 2 ^ 32)

/-- The specification's `extractUnsigned(buffer, bitOffset, bitLength)`. -/
def extractUnsigned (buffer : Buffer) (bitOffset bitLength : Nat) : Nat :=
  specBitsLoop buffer bitOffset bitLength 0

/-- The bit at position `p` in arithmetic: `bitAt` with the shift written as a
division and the mask as a remainder. -/
def bit (buf : Buffer) (p : Nat) : Nat :=
  (buf.getD (p / 8) 0 / 2 ^ (7 - p % 8)) % 2

/-! ## `pointOneFrame` (lines 63-96) -/

/-- The loop of lines 84-87 over the bytes still to visit:
`checkA = checkA + result[i]; checkB = checkB + checkA`, both `unsigned char`. -/
def checksumLoop : Buffer → Nat → Nat → Nat × Nat
  | [], checkA, checkB => (checkA, checkB)
  | x :: rest, checkA, checkB =>
    checksumLoop rest ((checkA + x) % 256) ((checkB + (checkA + x) % 256) % 256)

/-- Source `pointOneFrame(frameType, framePayload, framePayloadSize)`; the
payload list stands for the `framePayloadSize` bytes behind the pointer. -/
def pointOneFrame (frameType : Nat × Nat) (framePayload : Buffer) : Buffer :=
  let result : Buffer := []
  let result := result ++ [0xB5]
  let result := result ++ [0x62]
  let result := result ++ [frameType.1]
  let result := result ++ [frameType.2]
  let result := result ++ [framePayload.length % 256]
  let result := result ++ [0x00]
  let result := result ++ framePayload
  let check := checksumLoop (result.drop 2) 0 0
  let checkA := check.1 &&& 0xFF
  let checkB := check.2 &&& 0xFF
  let result := result ++ [checkA]
  result ++ [checkB]

/-- One step of the specification's checksum (§4.2) at index `i`:
`checkA += buffer[i] (mod 256); checkB += checkA (mod 256)`. -/
def checksumStep (buffer : Buffer) (ab : Nat × Nat) (i : Nat) : Nat × Nat :=
  ((ab.1 + buffer.getD i 0) % 256, (ab.2 + (ab.1 + buffer.getD i 0) % 256) % 256)

/-- The specification's `computeChecksum(buffer, start, end)` (§4.2): iterate
`i` from `start` to `end - 1`, starting from `(0, 0)`. -/
def computeChecksum (buffer : Buffer) (start endIdx : Nat) : Nat × Nat :=
  (List.range' start (endIdx - start)).foldl (checksumStep buffer) (0, 0)

/-- The ASCII bytes of `"secret"`. -/
def secretBytes : Buffer := [0x73, 0x65, 0x63, 0x72, 0x65, 0x74]

/-! ## The socket

The peer's stream is finite: a list of arrivals, after which the peer has
closed the connection and `read` returns 0. -/

/-- What one or more coming calls of `read` find on the socket: an error, or
a run of bytes that is handed out in order, at most `count` of them a call. -/
inductive Arrival where
  | error
  | bytes (data : Buffer)
deriving DecidableEq

/-- The receiving side of the connection. -/
abbrev Conn := List Arrival

/-- The call `read(sockfd, dst, count)`: the value returned, the bytes stored
at `dst`, and the connection afterwards.  A call returns the bytes of one
arrival only, so a read can be short; on `[]` the peer has closed. -/
def read : Conn → Nat → Int × Buffer × Conn
  | [], _ => (0, [], [])
  | Arrival.error :: rest, _ => (-1, [], rest)
  | Arrival.bytes data :: rest, count =>
    (((data.take count).length : Nat), data.take count,
      if data.drop count = [] then rest else Arrival.bytes (data.drop count) :: rest)

/-- A bound on the number of `read` calls that can still return a byte. -/
def connSize : Conn → Nat
  | [] => 0
  | Arrival.error :: rest => 1 + connSize rest
  | Arrival.bytes data :: rest => 1 + data.length + connSize rest

/-- The sending side: what the coming calls of `write` do (`none`: the call
fails with -1; `some k`: it accepts at most `k` bytes; past the end of the
list every call accepts all it is offered) and the bytes accepted so far. -/
structure Sender where
  writes : List (Option Nat)
  sent : Buffer
deriving DecidableEq

/-- The call `write(sockfd, src, |src|)`: the value returned and the sender
afterwards. -/
def write (w : Sender) (src : Buffer) : Int × Sender :=
  match w.writes with
  | [] => ((src.length : Nat), { writes := [], sent := w.sent ++ src })
  | none :: rest => (-1, { writes := rest, sent := w.sent })
  | some k :: rest =>
    (((src.take k).length : Nat), { writes := rest, sent := w.sent ++ src.take k })

/-- How a call ends: it returns, or a failed glog `CHECK` terminates the
process, or the model's fuel ran out. -/
inductive Outcome (α : Type) where
  | returned (a : α)
  | aborted
  | noFuel
deriving DecidableEq

/-! ## `sendBuffer` (lines 39-61) -/

/-- The `do ... while (offset < bufferSize)` loop of `sendBuffer`. -/
def sendLoop (buffer : Buffer) : Nat → Nat → Sender → Outcome (Bool × Sender)
  | 0, _, _ => Outcome.noFuel
  | fuel + 1, offset, w =>
    let r := write w (buffer.drop offset)
    let bytes := r.1
    if ¬ (bytes > 0) then Outcome.aborted
    else if bytes < 0 then Outcome.returned (false, r.2)
    else if bytes = 0 then Outcome.returned (true, r.2)
    else if offset + bytes.toNat < buffer.length then
      sendLoop buffer fuel (offset + bytes.toNat) r.2
    else Outcome.returned (true, r.2)

/-- Source `sendBuffer(sockfd, buffer, bufferSize)`. -/
def sendBuffer (w : Sender) (buffer : Buffer) : Outcome (Bool × Sender) :=
  sendLoop buffer (buffer.length + 1) 0 w

/-! ## The read loop of `connectToStation` (lines 200-258) -/

/-- The handler `std::function<void(const Buffer& message, bool& stop)>`,
with the state it captures made explicit: from its state, the message and the
flag on entry to its new state and the flag on return. -/
abbrev MessageReceived (σ : Type) := σ → Buffer → Bool → σ × Bool

/-- What the loop does to the outside, in order. -/
inductive Event where
  | read (count : Nat) (ret : Int)
  | call (numBytesToRead : Nat) (message : Buffer) (stop : Bool)
deriving DecidableEq

/-- The variables that live across iterations of the loop, the socket and the
record of events. -/
structure LoopState (σ : Type) where
  isOK : Bool
  isStop : Bool
  messageBuffer : Buffer
  conn : Conn
  handlerState : σ
  trace : List Event

/-- Line 201: the size the buffer has at the top of every iteration. -/
def BUFFER_SIZE : Nat := 2048

/-- Line 202: the bound of the length check. -/
def MAX_PAYLOAD_SIZE : Nat := 200 * 1024

/-- The call `v.resize(n)` or `v.resize(n, 0)` of `std::vector`: the first `n`
elements are kept, new elements are zero. -/
def resize (v : Buffer) (n : Nat) : Buffer :=
  v.take n ++ List.replicate (n - v.length) 0

/-- The buffer after `src` was stored at `dst + offset`; the loop only stores
inside the buffer (`offset + |src| ≤ |dst|`). -/
def writeAt (dst : Buffer) (offset : Nat) (src : Buffer) : Buffer :=
  dst.take offset ++ src ++ dst.drop (offset + src.length)

/-- The library call `ntohs` on a little-endian host: the argument is taken as
a `uint16_t` and its two bytes are swapped. -/
def ntohs (x : Nat) : Nat :=
  (x % 256) * 256 + (x / 256) % 256

/-- The cast `(size_t)bytes` of an `ssize_t`, 64 bits wide. -/
def toSizeT (bytes : Int) : Nat :=
  (bytes % 2 ^ 64).toNat

/-- The body of `while (isOK && !isStop)`, lines 208-257; a `break` leaves
`isOK` false, which ends the loop as well. -/
def iteration {σ : Type} (messageReceivedBlock : Option (MessageReceived σ))
    (s : LoopState σ) : LoopState σ :=
  let messageBuffer := resize s.messageBuffer BUFFER_SIZE
  let r1 := read s.conn 1
  let messageBuffer := writeAt messageBuffer 0 r1.2.1
  let headerD3 := getBitsUnsigned (messageBuffer.drop 0) 0 8 % 256
  let trace := s.trace ++ [Event.read 1 r1.1]
  if r1.1 ≠ 1 then
    { s with isOK := false, messageBuffer := messageBuffer, conn := r1.2.2, trace := trace }
  else if headerD3 ≠ 0xd3 then
    { s with isOK := false, messageBuffer := messageBuffer, conn := r1.2.2, trace := trace }
  else
    let r2 := read r1.2.2 2
    let messageBuffer := writeAt messageBuffer 1 r2.2.1
    let numBytesToRead := ntohs (getBitsUnsigned (messageBuffer.drop 1) 8 16)
    let trace := trace ++ [Event.read 2 r2.1]
    if r2.1 ≠ 2 then
      { s with isOK := false, messageBuffer := messageBuffer, conn := r2.2.2, trace := trace }
    else if ¬ (numBytesToRead > 0 ∧ numBytesToRead < MAX_PAYLOAD_SIZE) then
      { s with isOK := false, messageBuffer := messageBuffer, conn := r2.2.2, trace := trace }
    else
      let messageBuffer := resize messageBuffer (3 + numBytesToRead + 3)
      let r3 := read r2.2.2 (messageBuffer.length - 3)
      let trace := trace ++ [Event.read (messageBuffer.length - 3) r3.1]
      let messageBuffer := writeAt messageBuffer 3 r3.2.1
      if ¬ (toSizeT r3.1 < messageBuffer.length) then
        { s with isOK := false, messageBuffer := messageBuffer, conn := r3.2.2, trace := trace }
      else
        match messageReceivedBlock with
        | none =>
          { s with isOK := true, messageBuffer := messageBuffer, conn := r3.2.2, trace := trace }
        | some block =>
          let r := block s.handlerState messageBuffer s.isStop
          { isOK := true, isStop := r.2, messageBuffer := messageBuffer, conn := r3.2.2,
            handlerState := r.1,
            trace := trace ++ [Event.call numBytesToRead messageBuffer r.2] }

/-- The loop `while (isOK && !isStop)` with `fuel` tests of its condition
allowed. -/
def readLoop {σ : Type} (messageReceivedBlock : Option (MessageReceived σ)) :
    Nat → LoopState σ → Option (LoopState σ)
  | 0, _ => none
  | fuel + 1, s =>
    if s.isOK && !s.isStop then readLoop messageReceivedBlock fuel (iteration messageReceivedBlock s)
    else some s

/-! ## `connectToStation` (lines 98-265) -/

/-- The system calls of the session: whether `socket`, `setsockopt`,
`gethostbyname` and `connect` succeed, and both directions of the socket. -/
structure Net where
  socketOK : Bool
  setsockoptOK : Bool
  gethostbynameOK : Bool
  connectOK : Bool
  sender : Sender
  conn : Conn

/-- The bytes of a string literal of the source. -/
def ascii (text : String) : Buffer :=
  text.toList.map Char.toNat

/-- Rounding to the nearest integer, a tie going to the even one. -/
def roundHalfEven (q : ℚ) : Int :=
  if q - ⌊q⌋ < 1 / 2 then ⌊q⌋
  else if 1 / 2 < q - ⌊q⌋ then ⌊q⌋ + 1
  else if ⌊q⌋ % 2 = 0 then ⌊q⌋ else ⌊q⌋ + 1

/-- The `double` (IEEE 754 binary64, round to nearest, ties to even) that an
exact result `x` is rounded to: a multiple of `2 ^ e` with 53 significant bits,
`e` not below the exponent -1074 of the subnormal numbers.  A result of
magnitude `2 ^ 1024` or more, which is an infinity in the source, is not
modelled. -/
def roundToDouble (x : ℚ) : ℚ :=
  if x = 0 then 0
  else
    let e := max (Int.log 2 |x| - 52) (-1074)
    (roundHalfEven (x / 2 ^ e) : ℚ) * 2 ^ e

/-- The product `x * y` of two `double`s, as in `latDeg * 10000000` of line
116: the exact product rounded to a `double`. -/
def mulDouble (x y : ℚ) : ℚ := roundToDouble (x * y)

/-- Source `DEFINE_double(lat, 37.39, ...)` (line 20): the `double` nearest to
37.39, which is `2631087344802857 / 2 ^ 46`. -/
def FLAGS_lat : ℚ := 2631087344802857 / 70368744177664

/-- Source `DEFINE_double(lon, -122.15, ...)` (line 21): the `double` nearest to
-122.15, which is `-4297771050650829 / 2 ^ 45`. -/
def FLAGS_lon : ℚ := -4297771050650829 / 35184372088832

/-- The cast `(int32_t)x` of a `double` `x`: truncation towards zero (a value
outside the `int32_t` range is undefined in the source). -/
def toInt32 (x : ℚ) : Int :=
  Int.tdiv x.num x.den

/-- The four bytes of an `int32_t` in the memory of a little-endian host. -/
def int32Bytes (v : Int) : Buffer :=
  [(v % 2 ^ 32).toNat % 256, (v % 2 ^ 32).toNat / 2 ^ 8 % 256,
   (v % 2 ^ 32).toNat / 2 ^ 16 % 256, (v % 2 ^ 32).toNat / 2 ^ 24 % 256]

/-- The payload of the location frame: the array `v` of lines 115-118 as raw
memory; `latDeg` and `lonDeg` are the values of the two `double` parameters,
and each product is a `double` product. -/
def locationPayload (latDeg lonDeg : ℚ) : Buffer :=
  int32Bytes (toInt32 (mulDouble latDeg 10000000))
    ++ int32Bytes (toInt32 (mulDouble lonDeg 10000000))
    ++ int32Bytes (toInt32 (mulDouble 0 10000000))

/-- The request text of lines 124-130. -/
def getRequest (stationId : Buffer) : Buffer :=
  ascii "GET /" ++ stationId ++ ascii " HTTP/1.0\r\n" ++ ascii "\r\n"
    ++ ascii "User-Agent: NTRIP\r\n" ++ ascii "Content-Type: text/event-stream\r\n"
    ++ ascii "Connection: keep-alive\r\n" ++ ascii "\r\n"

/-- One `if (isOK) { isOK = sendBuffer(...); }` step of lines 178-198. -/
def sendStep (buffer : Buffer) (st : Bool × Sender) : Outcome (Bool × Sender) :=
  if st.1 then sendBuffer st.2 buffer else Outcome.returned st

/-- Lines 105-198 of `connectToStation`: the socket is set up and the request
and the two frames are sent; the result is `isOK` before the read loop, and
the sender. -/
def handshake (net : Net) (stationId stationToken : Buffer) (latDeg lonDeg : ℚ) :
    Outcome (Bool × Sender) :=
  let authBuffer := pointOneFrame (0xE0, 0x01) stationToken
  let positionBuffer := pointOneFrame (0xE0, 0x04) (locationPayload latDeg lonDeg)
  let isOK := net.socketOK
  let isOK := if isOK then net.setsockoptOK else isOK
  let isOK := if isOK then net.gethostbynameOK else isOK
  if isOK && !net.connectOK then Outcome.aborted
  else
    match sendStep (getRequest stationId) (isOK, net.sender) with
    | Outcome.returned st1 =>
      match sendStep authBuffer st1 with
      | Outcome.returned st2 => sendStep positionBuffer st2
      | Outcome.aborted => Outcome.aborted
      | Outcome.noFuel => Outcome.noFuel
    | Outcome.aborted => Outcome.aborted
    | Outcome.noFuel => Outcome.noFuel

/-- What a returned call of `connectToStation` leaves: its result `isOK`, the
bytes sent, whether the socket was closed, and the read loop's last state. -/
structure Session (σ : Type) where
  isOK : Bool
  sent : Buffer
  closed : Bool
  loop : LoopState σ

/-- The loop run to its end on a finite stream: every iteration that leaves
`isOK` true has taken a byte from the stream, so `connSize + 2` tests of the
condition are enough (`runLoop_returns`). -/
def runLoop {σ : Type} (messageReceivedBlock : Option (MessageReceived σ))
    (s : LoopState σ) : Option (LoopState σ) :=
  readLoop messageReceivedBlock (connSize s.conn + 2) s

/-- The state on entry to the loop (lines 200-205): `isOK` as the handshake
left it, a zeroed `messageBuffer` of `BUFFER_SIZE` bytes. -/
def startState {σ : Type} (isOK : Bool) (conn : Conn) (handlerState : σ) : LoopState σ :=
  { isOK := isOK, isStop := false, messageBuffer := List.replicate BUFFER_SIZE 0,
    conn := conn, handlerState := handlerState, trace := [] }

/-- Source `connectToStation(stationId, stationToken, latDeg, lonDeg,
messageReceivedBlock)`, run on the system calls `net`. -/
def connectToStation {σ : Type} (net : Net) (stationId stationToken : Buffer)
    (latDeg lonDeg : ℚ) (messageReceivedBlock : Option (MessageReceived σ))
    (handlerState : σ) : Outcome (Session σ) :=
  match handshake net stationId stationToken latDeg lonDeg with
  | Outcome.aborted => Outcome.aborted
  | Outcome.noFuel => Outcome.noFuel
  | Outcome.returned st =>
    match runLoop messageReceivedBlock (startState st.1 net.conn handlerState) with
    | none => Outcome.noFuel
    | some s =>
      Outcome.returned { isOK := s.isOK, sent := st.2.sent, closed := net.socketOK, loop := s }

/-! ## Vocabulary of the statements -/

/-- The state at the loop's condition after `k` iterations, when the loop
makes that many. -/
def iterationStart {σ : Type} (messageReceivedBlock : Option (MessageReceived σ)) :
    Nat → LoopState σ → Option (LoopState σ)
  | 0, s => some s
  | k + 1, s =>
    if s.isOK && !s.isStop then
      iterationStart messageReceivedBlock k (iteration messageReceivedBlock s)
    else none

/-- Every byte the peer sends is a byte value. -/
def connBytes : Conn → Prop
  | [] => True
  | Arrival.error :: rest => connBytes rest
  | Arrival.bytes data :: rest => isBytes data ∧ connBytes rest

/-- System calls that all succeed, every `write` accepting all it is offered,
with `conn` as the peer's stream. -/
def okNet (conn : Conn) : Net :=
  { socketOK := true, setsockoptOK := true, gethostbynameOK := true, connectOK := true,
    sender := { writes := [], sent := [] }, conn := conn }

/-- A handler without state that leaves the stop flag as it finds it, as
`onMessageReceived` of `main` does. -/
def keepGoing : MessageReceived Unit := fun st _ stop => (st, stop)

/-- A handler without state that sets the stop flag. -/
def stopNow : MessageReceived Unit := fun st _ _ => (st, true)

/-- The length line 230 decodes when the second length byte is `z` and byte 3
of the buffer is what the earlier iterations left there. -/
def decodedLength (messageBuffer : Buffer) (z : Nat) : Nat :=
  z % 256 + 256 * (messageBuffer.getD 3 0 % 256)

/-- The message an iteration hands to the handler: the three header bytes, the
bytes the body read stored, and behind them what the buffer held before. -/
def dispatched (messageBuffer : Buffer) (x y z : Nat) (body : Buffer) : Buffer :=
  x :: y :: z ::
    (body ++ (resize ((resize messageBuffer BUFFER_SIZE).drop 3)
      (decodedLength messageBuffer z + 3)).drop body.length)

/-- The tests of the condition the loop needs from state `s` at most. -/
def fuelFor {σ : Type} (s : LoopState σ) : Nat :=
  if s.isOK && !s.isStop then connSize s.conn + 2 else 1

/-- What a call of `connectToStation` shows when it returns: its result and
the events of its read loop, in order. -/
def summary {σ : Type} : Outcome (Session σ) → Option (Bool × List Event)
  | Outcome.returned r => some (r.isOK, r.loop.trace)
  | Outcome.aborted => none
  | Outcome.noFuel => none

/-- A well-formed event: a handler call has a message of `3 + N + 3` bytes for
its decoded length `N`, with `1 ≤ N < 200 * 1024`, that begins with the
marker. -/
def goodCall : Event → Prop
  | Event.read _ _ => True
  | Event.call numBytesToRead message _ =>
    message.length = 3 + numBytesToRead + 3 ∧ 1 ≤ numBytesToRead
      ∧ numBytesToRead < 200 * 1024 ∧ message.head? = some 0xD3

/-- The event is a handler call that returned with the stop flag set. -/
def isStopCall : Event → Bool
  | Event.read _ _ => false
  | Event.call _ _ stop => stop

/-- The stop flag and the record agree: when the flag is set, `isOK` holds and
the last event is the handler call that set it, the only one to do so; when it
is not set, no handler call has set it. -/
def stopRecorded {σ : Type} (s : LoopState σ) : Prop :=
  (s.isStop = true → s.isOK = true
      ∧ ∃ before last, s.trace = before ++ [last] ∧ isStopCall last = true
          ∧ ∀ e ∈ before, isStopCall e = false)
    ∧ (s.isStop = false → ∀ e ∈ s.trace, isStopCall e = false)

/-- The plain sum of the bytes of `l`. -/
def byteSum (l : Buffer) : Nat := ∑ i in Finset.range l.length, l.getD i 0

/-- The weighted sum of the bytes of `l`: byte `i` of `n` counts `n - i` times. -/
def weightedSum (l : Buffer) : Nat :=
  ∑ i in Finset.range l.length, (l.length - i) * l.getD i 0

/-- The sequence with the bytes at `i` and `j` exchanged. -/
def swapBytes (l : Buffer) (i j : Nat) : Buffer :=
  (l.set i (l.getD j 0)).set j (l.getD i 0)

/-! ## `onMessageReceived` (lines 288-307) -/

/-- One call of `getBitsUnsigned` by the classifier: bit offset, bit length and
the value read. -/
structure FieldRead where
  pos : Nat
  len : Nat
  value : Nat
deriving DecidableEq

/-- Source `onMessageReceived` (lines 288-307 of `main`): the bit fields it
reads from the message, in the order of the log lines.  It leaves `isStop` as
it is, and the counter it captures is never changed. -/
def onMessageReceived (message : Buffer) : List FieldRead :=
  let headerBits := 24
  let messageId := getBitsUnsigned message (headerBits + 0) 12
  if messageId ≥ 1001 ∧ messageId ≤ 1004 then
    [⟨headerBits + 0, 12, messageId⟩,
     ⟨headerBits + 12, 12, getBitsUnsigned message (headerBits + 12) 12⟩,
     ⟨headerBits + 24, 30, getBitsUnsigned message (headerBits + 24) 30⟩]
  else if messageId ≥ 1009 ∧ messageId ≤ 1012 then
    [⟨headerBits + 0, 12, messageId⟩,
     ⟨headerBits + 12, 12, getBitsUnsigned message (headerBits + 12) 12⟩,
     ⟨headerBits + 24, 27, getBitsUnsigned message (headerBits + 24) 27⟩]
  else
    [⟨headerBits + 0, 12, messageId⟩,
     ⟨headerBits + 12, 12, getBitsUnsigned message (headerBits + 12) 12⟩]

/-- The handler `main` passes to `connectToStation`: its state is the list of
the fields read so far. -/
def mainHandler : MessageReceived (List FieldRead) :=
  fun log message isStop => (log ++ onMessageReceived message, isStop)

/-- The 32-bit value with the four bytes of `u` in reverse order. -/
def byteSwap32 (u : Nat) : Nat :=
  u % 256 * 2 ^ 24 + u / 2 ^ 8 % 256 * 2 ^ 16 + u / 2 ^ 16 % 256 * 2 ^ 8 + u / 2 ^ 24 % 256

/-- The signed 32-bit integer that four bytes hold in little-endian order
(two's complement). -/
def int32OfBytes (b : Buffer) : Int :=
  if b.getD 0 0 + 2 ^ 8 * b.getD 1 0 + 2 ^ 16 * b.getD 2 0 + 2 ^ 24 * b.getD 3 0 < 2 ^ 31 then
    ((b.getD 0 0 + 2 ^ 8 * b.getD 1 0 + 2 ^ 16 * b.getD 2 0 + 2 ^ 24 * b.getD 3 0 : Nat) : Int)
  else
    ((b.getD 0 0 + 2 ^ 8 * b.getD 1 0 + 2 ^ 16 * b.getD 2 0 + 2 ^ 24 * b.getD 3 0 : Nat) : Int)
      - 2 ^ 32

/-- Every coming `write` accepts at least one byte. -/
def writesAccept (w : Sender) : Prop :=
  ∀ x ∈ w.writes, ∃ k, x = some k ∧ 1 ≤ k

/-- The two buffers hold the same bytes at every index outside `p`, `p + 1`
and `p + 2`. -/
def agreeOutside (p : Nat) (a b : Buffer) : Prop :=
  ∀ i, (i < p ∨ p + 3 ≤ i) → a.getD i 0 = b.getD i 0

/-- The two events are the same decision of the loop: the same read with the
same result, or a handler call with the same decoded length and the same stop
flag, on messages of the same length that agree outside `p`, `p + 1`, `p + 2`. -/
def sameDecision (p : Nat) : Event → Event → Prop
  | Event.read c r, Event.read c' r' => c = c' ∧ r = r'
  | Event.call n m s, Event.call n' m' s' =>
    n = n' ∧ s = s' ∧ m.length = m'.length ∧ agreeOutside p m m'
  | _, _ => False

/-- The two states of the loop stand at the same point: same flags, records
that show the same decisions, and, while the loop goes on, the same rest of
the stream, buffers that agree outside `p`, `p + 1`, `p + 2`, and related
handler states. -/
def sameRun {σ : Type} (p : Nat) (rel : σ → σ → Prop) (s1 s2 : LoopState σ) : Prop :=
  s1.isOK = s2.isOK ∧ s1.isStop = s2.isStop
    ∧ List.Forall₂ (sameDecision p) s1.trace s2.trace
    ∧ (s1.isOK = true → s1.conn = s2.conn
        ∧ agreeOutside p s1.messageBuffer s2.messageBuffer
        ∧ rel s1.handlerState s2.handlerState)

/-- The handler's flag does not depend on the bytes at `p`, `p + 1`, `p + 2`
of its message, and its states stay related. -/
def handlerIgnores {σ : Type} (p : Nat) (rel : σ → σ → Prop) (block : MessageReceived σ) :
    Prop :=
  ∀ st st' m m' b, rel st st' → m.length = m'.length → agreeOutside p m m' →
    rel (block st m b).1 (block st' m' b).1 ∧ (block st m b).2 = (block st' m' b).2

/-! ## Lemmas on `getBitsUnsigned` -/

theorem bitAt_eq_bit (buff : Buffer) (i : Nat) : bitAt buff i = bit buff i := by
  unfold bitAt bit
  rw [Nat.and_one_is_mod, Nat.shiftRight_eq_div_pow]

theorem bit_lt_two (buff : Buffer) (i : Nat) : bit buff i < 2 := by
  unfold bit; omega

theorem shl_or_bit (bits b : Nat) (hb : b < 2) : (bits <<< 1) ||| b = (bits <<< 1) + b := by
  have h := Nat.mul_add_lt_is_or (i := 1) (b := b) (by simpa using hb) bits
  rw [Nat.shiftLeft_eq, Nat.mul_comm]
  exact h.symm

/-- The loop, started with `bits < 2 ^ j` and `j + n ≤ 32`, never wraps. -/
theorem getBitsLoop_eq (buff : Buffer) (n : Nat) :
    ∀ (i j bits : Nat), bits < 2 ^ j → j + n ≤ 32 →
      getBitsLoop buff i n bits
        = bits * 2 ^ n + ∑ k in Finset.range n, bit buff (i + k) * 2 ^ (n - 1 - k)
      ∧ getBitsLoop buff i n bits < 2 ^ (j + n) := by
  induction n with
  | zero =>
    intro i j bits hb _
    simp [getBitsLoop, hb]
  | succ n ih =>
    intro i j bits hb hj
    have hbit := bit_lt_two buff i
    have hnext : bits * 2 + bit buff i < 2 ^ (j + 1) := by
      rw [pow_succ]; omega
    have hle : 2 ^ (j + 1) ≤ 2 ^ 32 := Nat.pow_le_pow_right (by norm_num) (by omega)
    have hmod : ((bits <<< 1) + bitAt buff i) % 2 ^ 32 = bits * 2 + bit buff i := by
      rw [bitAt_eq_bit, Nat.shiftLeft_eq, pow_one]
      exact Nat.mod_eq_of_lt (lt_of_lt_of_le hnext hle)
    obtain ⟨h1, h2⟩ := ih (i + 1) (j + 1) (bits * 2 + bit buff i) hnext (by omega)
    constructor
    · show getBitsLoop buff (i + 1) n (((bits <<< 1) + bitAt buff i) % 2 ^ 32) = _
      rw [hmod, h1, Finset.sum_range_succ']
      have hs : ∑ k in Finset.range n, bit buff (i + 1 + k) * 2 ^ (n - 1 - k)
          = ∑ k in Finset.range n, bit buff (i + (k + 1)) * 2 ^ (n + 1 - 1 - (k + 1)) := by
        apply Finset.sum_congr rfl
        intro k _
        have e1 : i + 1 + k = i + (k + 1) := by omega
        have e2 : n + 1 - 1 - (k + 1) = n - 1 - k := by omega
        rw [e1, e2]
      rw [hs]
      simp only [Nat.add_zero, Nat.add_sub_cancel, Nat.sub_zero]
      ring
    · show getBitsLoop buff (i + 1) n (((bits <<< 1) + bitAt buff i) % 2 ^ 32) < _
      rw [hmod]
      have e : j + (n + 1) = j + 1 + n := by omega
      rw [e]; exact h2

theorem specBitsLoop_eq_getBitsLoop (buff : Buffer) (n : Nat) :
    ∀ (i bits : Nat), specBitsLoop buff i n bits = getBitsLoop buff i n bits := by
  induction n with
  | zero => intro i bits; rfl
  | succ n ih =>
    intro i bits
    show specBitsLoop buff (i + 1) n _ = getBitsLoop buff (i + 1) n _
    rw [shl_or_bit bits (bitAt buff i) (by rw [bitAt_eq_bit]; exact bit_lt_two buff i)]
    exact ih _ _

/-- Eight bits read at a byte boundary are that byte. -/
theorem getBitsLoop_byte (buff : Buffer) (k j bits : Nat) (hb : bits < 2 ^ j)
    (hj : j + 8 ≤ 32) :
    getBitsLoop buff (8 * k) 8 bits = bits * 256 + buff.getD k 0 % 256 := by
  have h := (getBitsLoop_eq buff 8 (8 * k) j bits hb hj).1
  rw [h]
  have hb : ∀ t, t < 8 → bit buff (8 * k + t) = buff.getD k 0 / 2 ^ (7 - t) % 2 := by
    intro t ht
    unfold bit
    have e1 : (8 * k + t) / 8 = k := by omega
    have e2 : (8 * k + t) % 8 = t := by omega
    rw [e1, e2]
  simp only [Finset.sum_range_succ, Finset.sum_range_zero]
  rw [hb 0 (by norm_num), hb 1 (by norm_num), hb 2 (by norm_num), hb 3 (by norm_num),
    hb 4 (by norm_num), hb 5 (by norm_num), hb 6 (by norm_num), hb 7 (by norm_num)]
  norm_num
  omega

theorem getBitsLoop_add (buff : Buffer) (n m : Nat) :
    ∀ (i bits : Nat),
      getBitsLoop buff i (n + m) bits = getBitsLoop buff (i + n) m (getBitsLoop buff i n bits) := by
  induction n with
  | zero => intro i bits; simp [getBitsLoop]
  | succ n ih =>
    intro i bits
    have e : n + 1 + m = (n + m) + 1 := by omega
    rw [e]
    show getBitsLoop buff (i + 1) (n + m) _ = _
    rw [ih]
    have e2 : i + 1 + n = i + (n + 1) := by omega
    rw [e2]
    rfl

/-- The marker field: 8 bits at offset 0. -/
theorem getBitsUnsigned_0_8 (buff : Buffer) :
    getBitsUnsigned buff 0 8 = buff.getD 0 0 % 256 := by
  have h := getBitsLoop_byte buff 0 0 0 (by norm_num) (by norm_num)
  simpa [getBitsUnsigned] using h

/-- The 16 bits at offset 8: bytes 1 and 2, the first one high. -/
theorem getBitsUnsigned_8_16 (buff : Buffer) :
    getBitsUnsigned buff 8 16 = buff.getD 1 0 % 256 * 256 + buff.getD 2 0 % 256 := by
  unfold getBitsUnsigned
  have e : (16 : Nat) = 8 + 8 := by norm_num
  rw [e, getBitsLoop_add]
  have h1 := getBitsLoop_byte buff 1 0 0 (by norm_num) (by norm_num)
  simp only [Nat.mul_one, Nat.zero_mul, Nat.zero_add] at h1
  rw [h1]
  have h2 := getBitsLoop_byte buff 2 8 (buff.getD 1 0 % 256) (by norm_num; omega) (by norm_num)
  simpa using h2

/-- What line 230 decodes from a buffer: its byte 2 as the low byte and its
byte 3 as the high byte. -/
theorem decoded_length (messageBuffer : Buffer) :
    ntohs (getBitsUnsigned (messageBuffer.drop 1) 8 16)
      = messageBuffer.getD 2 0 % 256 + 256 * (messageBuffer.getD 3 0 % 256) := by
  rw [getBitsUnsigned_8_16]
  have e1 : (messageBuffer.drop 1).getD 1 0 = messageBuffer.getD 2 0 := by
    simp [List.getD_eq_getElem?_getD, List.getElem?_drop]
  have e2 : (messageBuffer.drop 1).getD 2 0 = messageBuffer.getD 3 0 := by
    simp [List.getD_eq_getElem?_getD, List.getElem?_drop]
  rw [e1, e2]
  unfold ntohs
  omega

/-! ## Theorems -/

/-- C1: for `len ≤ 32` and `pos + len ≤ 8 * |buf|`, `getBitsUnsigned buf pos len`
is the MSB-first sum of the bits `(buf[p / 8] >> (7 - p % 8)) & 1` at the
positions `p = pos .. pos+len-1`, it equals the specification's
shift-left-then-OR accumulation, and it is below `2 ^ len`. -/
theorem getBitsUnsigned_spec (buf : Buffer) (pos len : Nat)
    (hlen : len ≤ 32) (_hin : pos + len ≤ 8 * buf.length) :
    getBitsUnsigned buf pos len
        = ∑ k in Finset.range len, bitAt buf (pos + k) * 2 ^ (len - 1 - k)
      ∧ getBitsUnsigned buf pos len = extractUnsigned buf pos len
      ∧ getBitsUnsigned buf pos len < 2 ^ len := by
  obtain ⟨h1, h2⟩ := getBitsLoop_eq buf len pos 0 0 (by norm_num) (by omega)
  refine ⟨?_, ?_, ?_⟩
  · unfold getBitsUnsigned
    rw [h1]
    simp [bitAt_eq_bit]
  · unfold getBitsUnsigned extractUnsigned
    exact (specBitsLoop_eq_getBitsLoop buf len pos 0).symm
  · unfold getBitsUnsigned; simpa using h2

/-- Witness of C1: the 16 bits at offset 8 of `D3 00 06`. -/
theorem getBitsUnsigned_spec_witness :
    16 ≤ 32 ∧ 8 + 16 ≤ 8 * [0xD3, 0x00, 0x06].length
      ∧ (getBitsUnsigned [0xD3, 0x00, 0x06] 8 16
            = ∑ k in Finset.range 16, bitAt [0xD3, 0x00, 0x06] (8 + k) * 2 ^ (16 - 1 - k)
          ∧ getBitsUnsigned [0xD3, 0x00, 0x06] 8 16 = extractUnsigned [0xD3, 0x00, 0x06] 8 16
          ∧ getBitsUnsigned [0xD3, 0x00, 0x06] 8 16 < 2 ^ 16) :=
  ⟨by decide, by decide, getBitsUnsigned_spec [0xD3, 0x00, 0x06] 8 16 (by decide) (by decide)⟩

/-! ## Lemmas on `pointOneFrame` -/

theorem checksumLoop_lt (l : Buffer) :
    ∀ a b : Nat, a < 256 → b < 256 →
      (checksumLoop l a b).1 < 256 ∧ (checksumLoop l a b).2 < 256 := by
  induction l with
  | nil => intro a b ha hb; exact ⟨ha, hb⟩
  | cons x rest ih =>
    intro a b _ _
    exact ih _ _ (Nat.mod_lt _ (by norm_num)) (Nat.mod_lt _ (by norm_num))

theorem and_0xFF_of_lt (a : Nat) (h : a < 256) : a &&& 0xFF = a := by
  have e : (0xFF : Nat) = 2 ^ 8 - 1 := by norm_num
  rw [e, Nat.and_pow_two_sub_one_eq_mod]
  exact Nat.mod_eq_of_lt (by simpa using h)

/-- The index loop of the specification over a slice of a buffer is the list
loop of the source over that slice. -/
theorem foldl_checksumStep (l : Buffer) :
    ∀ (pre post : Buffer) (ab : Nat × Nat),
      (List.range' pre.length l.length).foldl (checksumStep (pre ++ l ++ post)) ab
        = checksumLoop l ab.1 ab.2 := by
  induction l with
  | nil => intro pre post ab; simp [checksumLoop]
  | cons x rest ih =>
    intro pre post ab
    have hget : (pre ++ x :: rest ++ post).getD pre.length 0 = x := by
      rw [List.getD_eq_getElem?_getD, List.append_assoc,
        List.getElem?_append_right (Nat.le_refl _)]
      simp
    have hre : pre ++ x :: rest ++ post = (pre ++ [x]) ++ rest ++ post := by simp
    have h := ih (pre ++ [x]) post (checksumStep (pre ++ x :: rest ++ post) ab pre.length)
    simp only [List.length_cons, List.range'_succ, List.foldl_cons]
    rw [List.length_append, List.length_singleton, ← hre] at h
    rw [h]
    simp only [checksumStep, hget, checksumLoop]

theorem pointOneFrame_eq (t0 t1 : Nat) (p : Buffer) :
    pointOneFrame (t0, t1) p
      = [0xB5, 0x62, t0, t1, p.length % 256, 0x00] ++ p
        ++ [(checksumLoop (t0 :: t1 :: p.length % 256 :: 0 :: p) 0 0).1,
            (checksumLoop (t0 :: t1 :: p.length % 256 :: 0 :: p) 0 0).2] := by
  obtain ⟨ha, hb⟩ := checksumLoop_lt (t0 :: t1 :: p.length % 256 :: 0 :: p) 0 0
    (by norm_num) (by norm_num)
  simp only [pointOneFrame, List.nil_append, List.cons_append, List.drop_succ_cons,
    List.drop_zero, List.append_assoc, List.singleton_append]
  rw [and_0xFF_of_lt _ ha, and_0xFF_of_lt _ hb]

/-- The two bytes of the length field, as the code writes them. -/
theorem pointOneFrame_length_field (t0 t1 : Nat) (p : Buffer) :
    (pointOneFrame (t0, t1) p).getD 4 0 = p.length % 256
      ∧ (pointOneFrame (t0, t1) p).getD 5 0 = 0 := by
  rw [pointOneFrame_eq]
  constructor <;> rfl

/-! ## Theorems on `pointOneFrame` -/

/-- C2: `pointOneFrame` returns `[0xB5, 0x62, t0, t1, |p| mod 256, 0] ++ p ++
[checkA, checkB]`, of length `|p| + 8`, where the pair is the specification's
checksum of the frame's bytes from index 2 to the end of the payload (index
`|p| + 6`, the marker bytes left out); and for type `E0 01` and payload
`"secret"` the frame begins `B5 62 E0 01 06 00`, goes on with the bytes of
`"secret"` and ends with the two checksum bytes. -/
theorem pointOneFrame_layout (t0 t1 : Nat) (p : Buffer) :
    pointOneFrame (t0, t1) p
        = [0xB5, 0x62, t0, t1, p.length % 256, 0x00] ++ p
          ++ [(computeChecksum (pointOneFrame (t0, t1) p) 2 (p.length + 6)).1,
              (computeChecksum (pointOneFrame (t0, t1) p) 2 (p.length + 6)).2]
      ∧ (pointOneFrame (t0, t1) p).length = p.length + 8
      ∧ computeChecksum (pointOneFrame (t0, t1) p) 2 (p.length + 6)
          = computeChecksum ([t0, t1, p.length % 256, 0x00] ++ p) 0 (p.length + 4)
      ∧ pointOneFrame (0xE0, 0x01) secretBytes
          = [0xB5, 0x62, 0xE0, 0x01, 0x06, 0x00] ++ secretBytes
            ++ [(computeChecksum ([0xE0, 0x01, 0x06, 0x00] ++ secretBytes) 0 10).1,
                (computeChecksum ([0xE0, 0x01, 0x06, 0x00] ++ secretBytes) 0 10).2] := by
  have hcs : computeChecksum (pointOneFrame (t0, t1) p) 2 (p.length + 6)
      = checksumLoop (t0 :: t1 :: p.length % 256 :: 0 :: p) 0 0 := by
    have h := foldl_checksumStep (t0 :: t1 :: p.length % 256 :: 0 :: p) [0xB5, 0x62]
      [(checksumLoop (t0 :: t1 :: p.length % 256 :: 0 :: p) 0 0).1,
       (checksumLoop (t0 :: t1 :: p.length % 256 :: 0 :: p) 0 0).2] (0, 0)
    rw [pointOneFrame_eq]
    unfold computeChecksum
    have e : p.length + 6 - 2 = (t0 :: t1 :: p.length % 256 :: 0 :: p).length := by
      simp
    rw [e]
    simpa using h
  have hcs0 : computeChecksum ([t0, t1, p.length % 256, 0x00] ++ p) 0 (p.length + 4)
      = checksumLoop (t0 :: t1 :: p.length % 256 :: 0 :: p) 0 0 := by
    have h := foldl_checksumStep (t0 :: t1 :: p.length % 256 :: 0 :: p) [] [] (0, 0)
    unfold computeChecksum
    simpa using h
  refine ⟨?_, ?_, ?_, ?_⟩
  · rw [hcs]; exact pointOneFrame_eq t0 t1 p
  · rw [pointOneFrame_eq]; simp
  · rw [hcs, hcs0]
  · decide

/-- C10 (the code at the failing input): for a payload of 256 bytes `0x41` the
frame's length field is `00 00`, where the little-endian 16-bit length of 256
is `00 01`. -/
theorem pointOneFrame_length_field_256 :
    (pointOneFrame (0xE0, 0x01) (List.replicate 256 0x41)).getD 4 0 = 0
      ∧ (pointOneFrame (0xE0, 0x01) (List.replicate 256 0x41)).getD 5 0 = 0
      ∧ (List.replicate 256 0x41).length % 256 = 0
      ∧ (List.replicate 256 0x41).length / 256 = 1 := by
  have h := pointOneFrame_length_field 0xE0 0x01 (List.replicate 256 0x41)
  rw [List.length_replicate] at h
  exact ⟨h.1, h.2, by rw [List.length_replicate], by rw [List.length_replicate]⟩

/-! ## Lemmas on the socket and the buffer -/

theorem read_closed (n : Nat) : read [] n = (0, [], []) := rfl

theorem read_ret (c : Conn) (n : Nat) :
    ((read c n).1 = -1 ∧ (read c n).2.1 = [])
      ∨ (read c n).1 = (((read c n).2.1.length : Nat) : Int) := by
  match c with
  | [] => right; rfl
  | Arrival.error :: rest => left; exact ⟨rfl, rfl⟩
  | Arrival.bytes data :: rest => right; rfl

theorem read_length_le (c : Conn) (n : Nat) : (read c n).2.1.length ≤ n := by
  match c with
  | [] => simp [read]
  | Arrival.error :: rest => simp [read]
  | Arrival.bytes data :: rest => simp [read, List.length_take]

theorem read_connSize_le (c : Conn) (n : Nat) : connSize (read c n).2.2 ≤ connSize c := by
  match c with
  | [] => simp [read]
  | Arrival.error :: rest => simp [read, connSize]
  | Arrival.bytes data :: rest =>
    simp only [read]
    split
    · simp [connSize]
    · simp [connSize, List.length_drop]

theorem read_one_connSize_lt (c : Conn) (h : (read c 1).1 = 1) :
    connSize (read c 1).2.2 < connSize c := by
  match c with
  | [] => simp [read] at h
  | Arrival.error :: rest => simp [read] at h
  | Arrival.bytes data :: rest =>
    simp only [read] at h ⊢
    have hl : (List.take 1 data).length = 1 := by exact_mod_cast h
    have hd : 1 ≤ data.length := by
      rw [List.length_take] at hl; omega
    split
    · simp [connSize]
    · simp [connSize, List.length_drop]; omega

theorem isBytes_take (l : Buffer) (n : Nat) (h : isBytes l) : isBytes (l.take n) :=
  fun x hx => h x (List.mem_of_mem_take hx)

theorem isBytes_drop (l : Buffer) (n : Nat) (h : isBytes l) : isBytes (l.drop n) :=
  fun x hx => h x (List.mem_of_mem_drop hx)

theorem read_connBytes (c : Conn) (n : Nat) (h : connBytes c) :
    isBytes (read c n).2.1 ∧ connBytes (read c n).2.2 := by
  match c with
  | [] => exact ⟨fun x hx => by simp [read] at hx, h⟩
  | Arrival.error :: rest => exact ⟨fun x hx => by simp [read] at hx, h⟩
  | Arrival.bytes data :: rest =>
    obtain ⟨hd, hr⟩ := h
    refine ⟨isBytes_take data n hd, ?_⟩
    simp only [read]
    split
    · exact hr
    · exact ⟨isBytes_drop data n hd, hr⟩

theorem read_one_eq (c : Conn) (h : (read c 1).1 = 1) :
    ∃ x, read c 1 = (1, [x], (read c 1).2.2) := by
  have hl := read_length_le c 1
  rcases read_ret c 1 with ⟨h', _⟩ | h'
  · rw [h] at h'; omega
  · rw [h] at h'
    have hlen : (read c 1).2.1.length = 1 := by exact_mod_cast h'.symm
    match hg : (read c 1).2.1 with
    | [] => rw [hg] at hlen; simp at hlen
    | [x] =>
      refine ⟨x, ?_⟩
      rw [← h, ← hg]
    | _ :: _ :: _ => rw [hg] at hlen; simp at hlen

theorem read_two_eq (c : Conn) (h : (read c 2).1 = 2) :
    ∃ y z, read c 2 = (2, [y, z], (read c 2).2.2) := by
  have hl := read_length_le c 2
  rcases read_ret c 2 with ⟨h', _⟩ | h'
  · rw [h] at h'; omega
  · rw [h] at h'
    have hlen : (read c 2).2.1.length = 2 := by exact_mod_cast h'.symm
    match hg : (read c 2).2.1 with
    | [] => rw [hg] at hlen; simp at hlen
    | [_] => rw [hg] at hlen; simp at hlen
    | [y, z] =>
      refine ⟨y, z, ?_⟩
      rw [← h, ← hg]
    | _ :: _ :: _ :: _ => rw [hg] at hlen; simp at hlen

theorem resize_length (v : Buffer) (n : Nat) : (resize v n).length = n := by
  simp [resize, List.length_take]; omega

theorem resize_getD (v : Buffer) (n i : Nat) (h : i < n) :
    (resize v n).getD i 0 = v.getD i 0 := by
  unfold resize
  simp only [List.getD_eq_getElem?_getD]
  by_cases hi : i < v.length
  · rw [List.getElem?_append_left (by simp; omega)]
    rw [List.getElem?_take_of_lt h]
  · rw [List.getElem?_append_right (by simp; omega)]
    rw [List.getElem?_eq_none (l := v) (by omega)]
    simp [List.getElem?_replicate]
    split <;> simp

theorem resize_cons (a : Nat) (v : Buffer) (n : Nat) :
    resize (a :: v) (n + 1) = a :: resize v n := by
  simp [resize]

theorem resize_of_length (v : Buffer) : resize v v.length = v := by
  simp [resize]

theorem writeAt_zero (v src : Buffer) : writeAt v 0 src = src ++ v.drop src.length := by
  simp [writeAt]

theorem writeAt_cons (a : Nat) (v : Buffer) (k : Nat) (src : Buffer) :
    writeAt (a :: v) (k + 1) src = a :: writeAt v k src := by
  simp only [writeAt, List.take_succ_cons, List.cons_append]
  have e : k + 1 + src.length = (k + src.length) + 1 := by omega
  rw [e, List.drop_succ_cons]

/-- The buffer at the top of an iteration: 2048 bytes, the fourth of them
the one the earlier iterations left there. -/
theorem resize_shape (v : Buffer) :
    ∃ a b c t, resize v BUFFER_SIZE = a :: b :: c :: t ∧ t.getD 0 0 = v.getD 3 0 := by
  have hl := resize_length v BUFFER_SIZE
  have hg := resize_getD v BUFFER_SIZE 3 (by decide)
  match hm : resize v BUFFER_SIZE with
  | [] => rw [hm] at hl; simp [BUFFER_SIZE] at hl
  | [_] => rw [hm] at hl; simp [BUFFER_SIZE] at hl
  | [_, _] => rw [hm] at hl; simp [BUFFER_SIZE] at hl
  | a :: b :: c :: t =>
    rw [hm] at hg
    exact ⟨a, b, c, t, rfl, by simpa using hg⟩

/-! ## Lemmas on one iteration of the read loop -/

theorem decodedLength_lt (messageBuffer : Buffer) (z : Nat) :
    decodedLength messageBuffer z < MAX_PAYLOAD_SIZE := by
  unfold decodedLength MAX_PAYLOAD_SIZE; omega

theorem iteration_marker_read {σ : Type} (block : Option (MessageReceived σ))
    (s : LoopState σ) (h1 : (read s.conn 1).1 ≠ 1) :
    iteration block s =
      { s with
        isOK := false,
        messageBuffer := writeAt (resize s.messageBuffer BUFFER_SIZE) 0 (read s.conn 1).2.1,
        conn := (read s.conn 1).2.2,
        trace := s.trace ++ [Event.read 1 (read s.conn 1).1] } := by
  simp [iteration, h1]

theorem iteration_marker_value {σ : Type} (block : Option (MessageReceived σ))
    (s : LoopState σ) (x : Nat) (c1 : Conn) (e1 : read s.conn 1 = (1, [x], c1))
    (hx : x % 256 ≠ 0xd3) :
    iteration block s =
      { s with
        isOK := false,
        messageBuffer := writeAt (resize s.messageBuffer BUFFER_SIZE) 0 [x],
        conn := c1,
        trace := s.trace ++ [Event.read 1 1] } := by
  obtain ⟨a, b, c, t, hs, ht⟩ := resize_shape s.messageBuffer
  simp [iteration, e1, hs, writeAt_zero, getBitsUnsigned_0_8, hx]

theorem iteration_length_read {σ : Type} (block : Option (MessageReceived σ))
    (s : LoopState σ) (x : Nat) (c1 : Conn) (e1 : read s.conn 1 = (1, [x], c1))
    (hx : x % 256 = 0xd3) (h2 : (read c1 2).1 ≠ 2) :
    (iteration block s).isOK = false
      ∧ (iteration block s).conn = (read c1 2).2.2
      ∧ (iteration block s).handlerState = s.handlerState
      ∧ (iteration block s).trace
          = s.trace ++ [Event.read 1 1, Event.read 2 (read c1 2).1] := by
  obtain ⟨a, b, c, t, hs, ht⟩ := resize_shape s.messageBuffer
  simp [iteration, e1, hs, writeAt_zero, getBitsUnsigned_0_8, hx, h2]

theorem iteration_length_zero {σ : Type} (block : Option (MessageReceived σ))
    (s : LoopState σ) (x y z : Nat) (c1 c2 : Conn) (e1 : read s.conn 1 = (1, [x], c1))
    (hx : x % 256 = 0xd3) (e2 : read c1 2 = (2, [y, z], c2))
    (hzero : decodedLength s.messageBuffer z = 0) :
    (iteration block s).isOK = false
      ∧ (iteration block s).conn = c2
      ∧ (iteration block s).handlerState = s.handlerState
      ∧ (iteration block s).trace = s.trace ++ [Event.read 1 1, Event.read 2 2] := by
  obtain ⟨a, b, c, t, hs, ht⟩ := resize_shape s.messageBuffer
  have hd : ntohs (getBitsUnsigned ((x :: y :: z :: t).drop 1) 8 16) = 0 := by
    rw [decoded_length]
    have e : (x :: y :: z :: t).getD 3 0 = s.messageBuffer.getD 3 0 := by rw [← ht]; rfl
    have e' : (x :: y :: z :: t).getD 2 0 = z := rfl
    rw [e, e']
    exact hzero
  simp [iteration, e1, e2, hs, writeAt_zero, writeAt_cons, getBitsUnsigned_0_8, hx] at hd ⊢
  simp [hd]

/-- An iteration whose marker and length reads succeed with a decoded length
above 0: what the body read and the test of line 249 make of it. -/
theorem iteration_body {σ : Type} (block : Option (MessageReceived σ))
    (s : LoopState σ) (x y z : Nat) (c1 c2 : Conn) (e1 : read s.conn 1 = (1, [x], c1))
    (hx : x % 256 = 0xd3) (e2 : read c1 2 = (2, [y, z], c2))
    (hpos : 0 < decodedLength s.messageBuffer z) :
    iteration block s =
      if toSizeT (read c2 (decodedLength s.messageBuffer z + 3)).1
          < decodedLength s.messageBuffer z + 6 then
        match block with
        | none =>
          { s with
            isOK := true,
            messageBuffer := dispatched s.messageBuffer x y z
              (read c2 (decodedLength s.messageBuffer z + 3)).2.1,
            conn := (read c2 (decodedLength s.messageBuffer z + 3)).2.2,
            trace := s.trace ++ [Event.read 1 1, Event.read 2 2,
              Event.read (decodedLength s.messageBuffer z + 3)
                (read c2 (decodedLength s.messageBuffer z + 3)).1] }
        | some f =>
          { isOK := true,
            isStop := (f s.handlerState (dispatched s.messageBuffer x y z
              (read c2 (decodedLength s.messageBuffer z + 3)).2.1) s.isStop).2,
            messageBuffer := dispatched s.messageBuffer x y z
              (read c2 (decodedLength s.messageBuffer z + 3)).2.1,
            conn := (read c2 (decodedLength s.messageBuffer z + 3)).2.2,
            handlerState := (f s.handlerState (dispatched s.messageBuffer x y z
              (read c2 (decodedLength s.messageBuffer z + 3)).2.1) s.isStop).1,
            trace := s.trace ++ [Event.read 1 1, Event.read 2 2,
              Event.read (decodedLength s.messageBuffer z + 3)
                (read c2 (decodedLength s.messageBuffer z + 3)).1,
              Event.call (decodedLength s.messageBuffer z)
                (dispatched s.messageBuffer x y z
                  (read c2 (decodedLength s.messageBuffer z + 3)).2.1)
                (f s.handlerState (dispatched s.messageBuffer x y z
                  (read c2 (decodedLength s.messageBuffer z + 3)).2.1) s.isStop).2] }
      else
        { s with
          isOK := false,
          messageBuffer := dispatched s.messageBuffer x y z
            (read c2 (decodedLength s.messageBuffer z + 3)).2.1,
          conn := (read c2 (decodedLength s.messageBuffer z + 3)).2.2,
          trace := s.trace ++ [Event.read 1 1, Event.read 2 2,
            Event.read (decodedLength s.messageBuffer z + 3)
              (read c2 (decodedLength s.messageBuffer z + 3)).1] } := by
  obtain ⟨a, b, c, t, hs, ht⟩ := resize_shape s.messageBuffer
  have hlt := decodedLength_lt s.messageBuffer z
  have hd : ntohs (getBitsUnsigned (y :: z :: t) 8 16) = decodedLength s.messageBuffer z := by
    have h := decoded_length (x :: y :: z :: t)
    have e : (x :: y :: z :: t).getD 3 0 = s.messageBuffer.getD 3 0 := by rw [← ht]; rfl
    have e' : (x :: y :: z :: t).getD 2 0 = z := rfl
    rw [e, e'] at h
    exact h
  generalize hN : decodedLength s.messageBuffer z = N at *
  have e3 : 3 + N + 3 = (N + 3) + 1 + 1 + 1 := by omega
  have hlen : (resize t (N + 3)).length = N + 3 := resize_length _ _
  have hw : writeAt (b :: c :: t) 0 [y, z] = y :: z :: t := by
    simp [writeAt_zero]
  have hr3 := read_length_le c2 (N + 3)
  have hl2 : (((read c2 (N + 3)).2.1
      ++ List.drop (read c2 (N + 3)).2.1.length (resize t (N + 3))).length) = N + 3 := by
    rw [List.length_append, List.length_drop, hlen]; omega
  have e4 : N + 3 + 1 + 1 + 1 - 3 = N + 3 := by omega
  unfold dispatched
  rw [hN, hs]
  by_cases h3 : toSizeT (read c2 (N + 3)).1 < N + 6
  · have h3' : toSizeT (read c2 (N + 3)).1 < N + 3 + 1 + 1 + 1 := by omega
    rw [if_pos h3]
    cases block
    all_goals
      simp only [iteration, e1, hs, writeAt_zero, getBitsUnsigned_0_8, hx]
      simp only [List.drop_zero, List.length_singleton, List.drop_succ_cons,
        List.singleton_append, List.getD_cons_zero, ne_eq, not_true_eq_false, ↓reduceIte, e2,
        writeAt_cons, hw, hd, Nat.mod_mod]
      simp only [e3, resize_cons, List.length_cons, hlen, writeAt_cons, writeAt_zero,
        Nat.add_sub_cancel, hl2]
      simp [e4, hl2, h3', hpos, hlt, hx]
  · have h3' : ¬ toSizeT (read c2 (N + 3)).1 < N + 3 + 1 + 1 + 1 := by omega
    rw [if_neg h3]
    cases block
    all_goals
      simp only [iteration, e1, hs, writeAt_zero, getBitsUnsigned_0_8, hx]
      simp only [List.drop_zero, List.length_singleton, List.drop_succ_cons,
        List.singleton_append, List.getD_cons_zero, ne_eq, not_true_eq_false, ↓reduceIte, e2,
        writeAt_cons, hw, hd, Nat.mod_mod]
      simp only [e3, resize_cons, List.length_cons, hlen, writeAt_cons, writeAt_zero,
        Nat.add_sub_cancel, hl2]
      simp [e4, hl2, h3', hpos, hlt, hx]

theorem iteration_dispatch {σ : Type} (block : MessageReceived σ)
    (s : LoopState σ) (x y z : Nat) (c1 c2 : Conn) (e1 : read s.conn 1 = (1, [x], c1))
    (hx : x % 256 = 0xd3) (e2 : read c1 2 = (2, [y, z], c2))
    (hpos : 0 < decodedLength s.messageBuffer z)
    (h3 : toSizeT (read c2 (decodedLength s.messageBuffer z + 3)).1
      < decodedLength s.messageBuffer z + 6) :
    iteration (some block) s =
      { isOK := true,
        isStop := (block s.handlerState (dispatched s.messageBuffer x y z
          (read c2 (decodedLength s.messageBuffer z + 3)).2.1) s.isStop).2,
        messageBuffer := dispatched s.messageBuffer x y z
          (read c2 (decodedLength s.messageBuffer z + 3)).2.1,
        conn := (read c2 (decodedLength s.messageBuffer z + 3)).2.2,
        handlerState := (block s.handlerState (dispatched s.messageBuffer x y z
          (read c2 (decodedLength s.messageBuffer z + 3)).2.1) s.isStop).1,
        trace := s.trace ++ [Event.read 1 1, Event.read 2 2,
          Event.read (decodedLength s.messageBuffer z + 3)
            (read c2 (decodedLength s.messageBuffer z + 3)).1,
          Event.call (decodedLength s.messageBuffer z)
            (dispatched s.messageBuffer x y z
              (read c2 (decodedLength s.messageBuffer z + 3)).2.1)
            (block s.handlerState (dispatched s.messageBuffer x y z
              (read c2 (decodedLength s.messageBuffer z + 3)).2.1) s.isStop).2] } := by
  rw [iteration_body (some block) s x y z c1 c2 e1 hx e2 hpos, if_pos h3]

/-- An iteration that leaves `isOK` true has taken the marker byte from the
stream. -/
theorem iteration_connSize {σ : Type} (block : Option (MessageReceived σ))
    (s : LoopState σ) (h : (iteration block s).isOK = true) :
    connSize (iteration block s).conn < connSize s.conn := by
  by_cases h1 : (read s.conn 1).1 = 1
  · have k1 := read_one_connSize_lt s.conn h1
    have k2 := read_connSize_le (read s.conn 1).2.2 2
    have k3 : ∀ n, connSize (read (read (read s.conn 1).2.2 2).2.2 n).2.2
        ≤ connSize (read (read s.conn 1).2.2 2).2.2 := fun n => read_connSize_le _ n
    revert h
    cases block <;> simp only [iteration] <;> split_ifs <;> simp <;>
      exact lt_of_le_of_lt (le_trans (k3 _) k2) k1
  · rw [iteration_marker_read block s h1] at h
    simp at h

/-! ## Lemmas on the loop -/

theorem fuelFor_iteration {σ : Type} (block : Option (MessageReceived σ)) (s : LoopState σ)
    (f : Nat) (hgo : (s.isOK && !s.isStop) = true) (hf : fuelFor s ≤ f + 1) :
    fuelFor (iteration block s) ≤ f := by
  have hs : fuelFor s = connSize s.conn + 2 := by simp [fuelFor, hgo]
  unfold fuelFor
  split
  · rename_i h
    have hok : (iteration block s).isOK = true := by
      simp only [Bool.and_eq_true] at h; exact h.1
    have := iteration_connSize block s hok
    omega
  · omega

/-- With enough fuel the result does not depend on the fuel. -/
theorem readLoop_fuel {σ : Type} (block : Option (MessageReceived σ)) (f : Nat) :
    ∀ (g : Nat) (s : LoopState σ), fuelFor s ≤ f → fuelFor s ≤ g →
      readLoop block f s = readLoop block g s := by
  induction f with
  | zero =>
    intro g s hf _
    have : 1 ≤ fuelFor s := by unfold fuelFor; split <;> omega
    omega
  | succ f ih =>
    intro g s hf hg
    match g with
    | 0 =>
      have : 1 ≤ fuelFor s := by unfold fuelFor; split <;> omega
      omega
    | g + 1 =>
      by_cases hgo : (s.isOK && !s.isStop) = true
      · simp only [readLoop, hgo, ↓reduceIte]
        exact ih g _ (fuelFor_iteration block s f hgo hf) (fuelFor_iteration block s g hgo hg)
      · simp only [readLoop, hgo]
        rfl

theorem runLoop_step {σ : Type} (block : Option (MessageReceived σ)) (s : LoopState σ)
    (hok : s.isOK = true) (hstop : s.isStop = false) :
    runLoop block s = runLoop block (iteration block s) := by
  have hgo : (s.isOK && !s.isStop) = true := by simp [hok, hstop]
  have hs : fuelFor s = connSize s.conn + 2 := by simp [fuelFor, hgo]
  have h1 : fuelFor (iteration block s) ≤ connSize s.conn + 1 :=
    fuelFor_iteration block s _ hgo (by omega)
  have h2 : fuelFor (iteration block s) ≤ connSize (iteration block s).conn + 2 := by
    unfold fuelFor; split <;> omega
  unfold runLoop
  show readLoop block (connSize s.conn + 1 + 1) s = _
  simp only [readLoop, hgo, ↓reduceIte]
  exact readLoop_fuel block _ _ _ h1 h2

theorem runLoop_stop {σ : Type} (block : Option (MessageReceived σ)) (s : LoopState σ)
    (h : s.isOK = false ∨ s.isStop = true) : runLoop block s = some s := by
  have hgo : (s.isOK && !s.isStop) = false := by
    rcases h with h | h <;> simp [h]
  unfold runLoop
  show readLoop block (connSize s.conn + 1 + 1) s = _
  simp [readLoop, hgo]

/-- On a finite stream the loop ends: `runLoop` returns a state, in it the
loop's condition is false, and it satisfies every invariant of the
iterations. -/
theorem runLoop_invariant {σ : Type} (block : Option (MessageReceived σ))
    (inv : LoopState σ → Prop)
    (hstep : ∀ s, s.isOK = true → s.isStop = false → inv s → inv (iteration block s))
    (n : Nat) :
    ∀ s : LoopState σ, connSize s.conn ≤ n → inv s →
      ∃ r, runLoop block s = some r ∧ (r.isOK = false ∨ r.isStop = true) ∧ inv r := by
  induction n with
  | zero =>
    intro s hn hi
    by_cases hgo : s.isOK = true ∧ s.isStop = false
    · rw [runLoop_step block s hgo.1 hgo.2]
      have hbad : (iteration block s).isOK = false := by
        by_contra hc
        have := iteration_connSize block s (by simpa using hc)
        omega
      exact ⟨_, runLoop_stop block _ (Or.inl hbad), Or.inl hbad, hstep s hgo.1 hgo.2 hi⟩
    · have hb : s.isOK = false ∨ s.isStop = true := by
        cases h1 : s.isOK <;> cases h2 : s.isStop <;> simp_all
      exact ⟨s, runLoop_stop block s hb, hb, hi⟩
  | succ n ih =>
    intro s hn hi
    by_cases hgo : s.isOK = true ∧ s.isStop = false
    · rw [runLoop_step block s hgo.1 hgo.2]
      by_cases hok : (iteration block s).isOK = true
      · have := iteration_connSize block s hok
        exact ih _ (by omega) (hstep s hgo.1 hgo.2 hi)
      · have hbad : (iteration block s).isOK = false := by simpa using hok
        exact ⟨_, runLoop_stop block _ (Or.inl hbad), Or.inl hbad, hstep s hgo.1 hgo.2 hi⟩
    · have hb : s.isOK = false ∨ s.isStop = true := by
        cases h1 : s.isOK <;> cases h2 : s.isStop <;> simp_all
      exact ⟨s, runLoop_stop block s hb, hb, hi⟩

/-- On a finite stream the loop returns. -/
theorem runLoop_returns {σ : Type} (block : Option (MessageReceived σ)) (s : LoopState σ) :
    ∃ r, runLoop block s = some r ∧ (r.isOK = false ∨ r.isStop = true) := by
  obtain ⟨r, h1, h2, _⟩ := runLoop_invariant block (fun _ => True) (fun _ _ _ _ => trivial)
    (connSize s.conn) s (Nat.le_refl _) trivial
  exact ⟨r, h1, h2⟩

/-- The loop's result is the result from the state after `k` iterations. -/
theorem runLoop_iterationStart {σ : Type} (block : Option (MessageReceived σ)) (k : Nat) :
    ∀ (s t : LoopState σ), iterationStart block k s = some t →
      runLoop block s = runLoop block t := by
  induction k with
  | zero =>
    intro s t h
    simp only [iterationStart, Option.some.injEq] at h
    rw [h]
  | succ k ih =>
    intro s t h
    by_cases hgo : (s.isOK && !s.isStop) = true
    · simp only [iterationStart, hgo, ↓reduceIte] at h
      have hok : s.isOK = true := by simp only [Bool.and_eq_true] at hgo; exact hgo.1
      have hstop : s.isStop = false := by
        simp only [Bool.and_eq_true, Bool.not_eq_true'] at hgo; exact hgo.2
      rw [runLoop_step block s hok hstop]
      exact ih _ _ h
    · simp [iterationStart, hgo] at h

/-! ## Lemmas on the session -/

theorem sendBuffer_all (sent buffer : Buffer) (h : buffer ≠ []) :
    sendBuffer { writes := [], sent := sent } buffer
      = Outcome.returned (true, { writes := [], sent := sent ++ buffer }) := by
  have hl : 0 < buffer.length := List.length_pos.mpr h
  have hl' : (0 : Int) < (buffer.length : Int) := by exact_mod_cast hl
  have h1 : ¬ ((buffer.length : Int) < 0) := by omega
  have h2 : ¬ ((buffer.length : Int) = 0) := by omega
  simp [sendBuffer, sendLoop, write, hl', h1, h2, h]

theorem pointOneFrame_ne_nil (t : Nat × Nat) (p : Buffer) : pointOneFrame t p ≠ [] := by
  obtain ⟨t0, t1⟩ := t
  rw [pointOneFrame_eq]
  simp

theorem getRequest_ne_nil (stationId : Buffer) : getRequest stationId ≠ [] := by
  have h : ascii "GET /" = [71, 69, 84, 32, 47] := by decide
  simp [getRequest, h]

/-- When every system call succeeds and every `write` accepts all it is
offered, the handshake returns `true`. -/
theorem handshake_okNet (conn : Conn) (stationId stationToken : Buffer) (latDeg lonDeg : ℚ) :
    handshake (okNet conn) stationId stationToken latDeg lonDeg
      = Outcome.returned (true,
          { writes := [],
            sent := getRequest stationId ++ pointOneFrame (0xE0, 0x01) stationToken
              ++ pointOneFrame (0xE0, 0x04) (locationPayload latDeg lonDeg) }) := by
  simp [handshake, okNet, sendStep, sendBuffer_all, getRequest_ne_nil, pointOneFrame_ne_nil]

/-- After a handshake that returned `true`, the session is the read loop from
the start state. -/
theorem connectToStation_loop {σ : Type} (net : Net) (stationId stationToken : Buffer)
    (latDeg lonDeg : ℚ) (block : Option (MessageReceived σ)) (st0 : σ) (w : Sender)
    (r : LoopState σ)
    (hhs : handshake net stationId stationToken latDeg lonDeg = Outcome.returned (true, w))
    (hr : runLoop block (startState true net.conn st0) = some r) :
    connectToStation net stationId stationToken latDeg lonDeg block st0
      = Outcome.returned
          { isOK := r.isOK, sent := w.sent, closed := net.socketOK, loop := r } := by
  simp [connectToStation, hhs, hr]

theorem resize_replicate (m n : Nat) :
    resize (List.replicate m 0) n = List.replicate n 0 := by
  unfold resize
  rw [List.take_replicate, List.length_replicate, ← List.replicate_add]
  congr 1
  omega

theorem decodedLength_fresh (z : Nat) :
    decodedLength (List.replicate BUFFER_SIZE 0) z = z % 256 := by
  have h : ∀ m : Nat, (List.replicate m 0).getD 3 0 = 0 := by
    intro m
    rw [List.getD_eq_getElem?_getD, List.getElem?_replicate]
    split <;> rfl
  simp [decodedLength, h]

/-- On a zeroed buffer the message handed over is the header, the body read,
and zero bytes up to the decoded size. -/
theorem dispatched_fresh (x y z : Nat) (body : Buffer) :
    dispatched (List.replicate BUFFER_SIZE 0) x y z body
      = x :: y :: z :: (body ++ List.replicate (z % 256 + 3 - body.length) 0) := by
  unfold dispatched
  rw [resize_replicate, decodedLength_fresh, List.drop_replicate, resize_replicate,
    List.drop_replicate]

/-- A body read that fills the buffer leaves nothing of the old contents. -/
theorem dispatched_full (messageBuffer : Buffer) (x y z : Nat) (body : Buffer)
    (h : body.length = decodedLength messageBuffer z + 3) :
    dispatched messageBuffer x y z body = x :: y :: z :: body := by
  unfold dispatched
  rw [List.drop_eq_nil_of_le (by rw [resize_length]; omega)]
  simp

theorem dispatched_length (messageBuffer : Buffer) (x y z : Nat) (body : Buffer)
    (h : body.length ≤ decodedLength messageBuffer z + 3) :
    (dispatched messageBuffer x y z body).length = 3 + decodedLength messageBuffer z + 3 := by
  unfold dispatched
  simp only [List.length_cons, List.length_append, List.length_drop, resize_length]
  omega

/-- An iteration keeps the stream well formed and adds good events only. -/
theorem iteration_goodCall {σ : Type} (block : Option (MessageReceived σ)) (s : LoopState σ)
    (hc : connBytes s.conn) (ht : ∀ e ∈ s.trace, goodCall e) :
    connBytes (iteration block s).conn ∧ ∀ e ∈ (iteration block s).trace, goodCall e := by
  by_cases h1 : (read s.conn 1).1 = 1
  · obtain ⟨x, e1⟩ := read_one_eq s.conn h1
    have b1 := read_connBytes s.conn 1 hc
    have hx256 : x < 256 := b1.1 x (by rw [e1]; simp)
    by_cases hx : x % 256 = 0xd3
    · by_cases h2 : (read (read s.conn 1).2.2 2).1 = 2
      · obtain ⟨y, z, e2⟩ := read_two_eq _ h2
        have b2 := read_connBytes (read s.conn 1).2.2 2 b1.2
        by_cases hz : decodedLength s.messageBuffer z = 0
        · obtain ⟨_, k2, _, k4⟩ := iteration_length_zero block s x y z _ _ e1 hx e2 hz
          rw [k2, k4]
          refine ⟨b2.2, ?_⟩
          intro e he
          simp only [List.mem_append, List.mem_cons, List.mem_singleton, List.not_mem_nil,
            or_false] at he
          rcases he with he | he | he
          · exact ht e he
          · rw [he]; trivial
          · rw [he]; trivial
        · have hpos : 0 < decodedLength s.messageBuffer z := Nat.pos_of_ne_zero hz
          have b3 := read_connBytes (read (read s.conn 1).2.2 2).2.2
            (decodedLength s.messageBuffer z + 3) b2.2
          have hl := read_length_le (read (read s.conn 1).2.2 2).2.2
            (decodedLength s.messageBuffer z + 3)
          have hlt := decodedLength_lt s.messageBuffer z
          rw [iteration_body block s x y z _ _ e1 hx e2 hpos]
          split
          · cases block with
            | none =>
              refine ⟨b3.2, ?_⟩
              intro e he
              simp only [List.mem_append, List.mem_cons, List.mem_singleton, List.not_mem_nil,
                or_false] at he
              rcases he with he | he | he | he
              · exact ht e he
              · rw [he]; trivial
              · rw [he]; trivial
              · rw [he]; trivial
            | some f =>
              refine ⟨b3.2, ?_⟩
              intro e he
              simp only [List.mem_append, List.mem_cons, List.mem_singleton, List.not_mem_nil,
                or_false] at he
              rcases he with he | he | he | he | he
              · exact ht e he
              · rw [he]; trivial
              · rw [he]; trivial
              · rw [he]; trivial
              · rw [he]
                refine ⟨dispatched_length _ _ _ _ _ hl, hpos, ?_, ?_⟩
                · simpa [MAX_PAYLOAD_SIZE] using hlt
                · have : x = 0xD3 := by omega
                  rw [this]; rfl
          · refine ⟨b3.2, ?_⟩
            intro e he
            simp only [List.mem_append, List.mem_cons, List.mem_singleton, List.not_mem_nil,
              or_false] at he
            rcases he with he | he | he | he
            · exact ht e he
            · rw [he]; trivial
            · rw [he]; trivial
            · rw [he]; trivial
      · have e1' : read s.conn 1 = (1, [x], (read s.conn 1).2.2) := e1
        obtain ⟨_, k2, _, k4⟩ := iteration_length_read block s x _ e1' hx h2
        have b2 := read_connBytes (read s.conn 1).2.2 2 b1.2
        rw [k2, k4]
        refine ⟨b2.2, ?_⟩
        intro e he
        simp only [List.mem_append, List.mem_cons, List.mem_singleton, List.not_mem_nil,
          or_false] at he
        rcases he with he | he | he
        · exact ht e he
        · rw [he]; trivial
        · rw [he]; trivial
    · rw [iteration_marker_value block s x _ e1 hx]
      refine ⟨b1.2, ?_⟩
      intro e he
      simp only [List.mem_append, List.mem_singleton] at he
      rcases he with he | he
      · exact ht e he
      · rw [he]; trivial
  · rw [iteration_marker_read block s h1]
    refine ⟨(read_connBytes s.conn 1 hc).2, ?_⟩
    intro e he
    simp only [List.mem_append, List.mem_singleton] at he
    rcases he with he | he
    · exact ht e he
    · rw [he]; trivial

/-- A fresh session whose stream holds one message header and a body read
that empties the stream: the message is handed over whatever the body read
returned short of an error, and the session ends by the stop flag or by the
next marker read. -/
theorem fresh_one_message {σ : Type} (net : Net) (stationId stationToken : Buffer)
    (latDeg lonDeg : ℚ) (block : MessageReceived σ) (st0 : σ) (w : Sender)
    (x y z : Nat) (c1 c2 : Conn) (ret : Int) (body : Buffer)
    (hhs : handshake net stationId stationToken latDeg lonDeg = Outcome.returned (true, w))
    (e1 : read net.conn 1 = (1, [x], c1)) (hx : x % 256 = 0xd3)
    (e2 : read c1 2 = (2, [y, z], c2)) (hz : 0 < z % 256)
    (e3 : read c2 (z % 256 + 3) = (ret, body, []))
    (hret : toSizeT ret < z % 256 + 6) :
    summary (connectToStation net stationId stationToken latDeg lonDeg (some block) st0)
      = some
          ((block st0 (x :: y :: z :: (body ++ List.replicate (z % 256 + 3 - body.length) 0))
              false).2,
            [Event.read 1 1, Event.read 2 2, Event.read (z % 256 + 3) ret,
              Event.call (z % 256)
                (x :: y :: z :: (body ++ List.replicate (z % 256 + 3 - body.length) 0))
                (block st0
                  (x :: y :: z :: (body ++ List.replicate (z % 256 + 3 - body.length) 0))
                  false).2]
            ++ if (block st0
                  (x :: y :: z :: (body ++ List.replicate (z % 256 + 3 - body.length) 0))
                  false).2 = true then [] else [Event.read 1 0]) := by
  have hdec := decodedLength_fresh z
  have hit := iteration_dispatch block (startState true net.conn st0) x y z c1 c2 e1 hx e2
    (by simp only [startState]; rw [hdec]; exact hz)
    (by simp only [startState]; rw [hdec, e3]; exact hret)
  have hmb : (startState true net.conn st0).messageBuffer = List.replicate BUFFER_SIZE 0 := rfl
  rw [hmb, hdec, e3, dispatched_fresh] at hit
  simp only [] at hit
  generalize x :: y :: z :: (body ++ List.replicate (z % 256 + 3 - body.length) 0) = msg at *
  simp only [connectToStation, hhs]
  rw [runLoop_step _ _ rfl rfl, hit]
  cases hs : (block (startState true net.conn st0).handlerState msg
      (startState true net.conn st0).isStop).2 with
  | true =>
    have hs' : (block st0 msg false).2 = true := hs
    rw [runLoop_stop _ _ (Or.inr rfl)]
    simp [summary, hs', startState]
  | false =>
    have hs' : (block st0 msg false).2 = false := hs
    rw [runLoop_step _ _ rfl rfl, iteration_marker_read _ _ (by simp [read_closed])]
    rw [runLoop_stop _ _ (Or.inl rfl)]
    simp [summary, hs', read_closed, startState]

theorem resize_append_replicate (l : Buffer) (m n : Nat) (h : l.length ≤ n) :
    resize (l ++ List.replicate m 0) n = l ++ List.replicate (n - l.length) 0 := by
  unfold resize
  rw [List.take_append_eq_append_take, List.take_of_length_le h, List.take_replicate,
    List.length_append, List.length_replicate, List.append_assoc, ← List.replicate_add]
  congr 2
  omega

/-- When the peer has closed before the body read, the message handed over is
the new header, the old contents of the buffer from byte 3 on, and zero bytes
up to the decoded size. -/
theorem dispatched_closed (messageBuffer : Buffer) (x y z : Nat)
    (h1 : 3 ≤ messageBuffer.length) (h2 : messageBuffer.length ≤ BUFFER_SIZE)
    (h3 : messageBuffer.length ≤ decodedLength messageBuffer z + 6) :
    dispatched messageBuffer x y z []
      = x :: y :: z :: (messageBuffer.drop 3
          ++ List.replicate (decodedLength messageBuffer z + 6 - messageBuffer.length) 0) := by
  unfold dispatched
  have e1 : resize messageBuffer BUFFER_SIZE
      = messageBuffer ++ List.replicate (BUFFER_SIZE - messageBuffer.length) 0 := by
    unfold resize
    rw [List.take_of_length_le h2]
  have e2 : (messageBuffer ++ List.replicate (BUFFER_SIZE - messageBuffer.length) 0).drop 3
      = messageBuffer.drop 3 ++ List.replicate (BUFFER_SIZE - messageBuffer.length) 0 := by
    rw [List.drop_append_eq_append_drop]
    have : 3 - messageBuffer.length = 0 := by omega
    rw [this, List.drop_zero]
  rw [e1, e2, resize_append_replicate _ _ _ (by rw [List.length_drop]; omega)]
  simp only [List.nil_append, List.length_nil, List.drop_zero, List.length_drop]
  congr 5
  omega

/-! ## Theorems on the read loop -/

/-- C7: on a fresh session whose handshake succeeded, when the peer sends
`D3 00 N`, `N` payload bytes (`1 ≤ N ≤ 255`) and 3 trailer bytes in one run and
then closes, and the handler does not ask to stop, the three reads are
satisfied in full, the handler is invoked exactly once, with the `N + 6` bytes
sent, the next marker read returns 0, and `connectToStation` returns `false`. -/
theorem single_message_session {σ : Type} (net : Net) (stationId stationToken : Buffer)
    (latDeg lonDeg : ℚ) (block : MessageReceived σ) (st0 : σ) (w : Sender)
    (N : Nat) (payload trailer : Buffer)
    (hhs : handshake net stationId stationToken latDeg lonDeg = Outcome.returned (true, w))
    (hN1 : 1 ≤ N) (hN2 : N ≤ 255) (hp : payload.length = N) (ht : trailer.length = 3)
    (hconn : net.conn = [Arrival.bytes (0xD3 :: 0x00 :: N :: (payload ++ trailer))])
    (hgo : (block st0 (0xD3 :: 0x00 :: N :: (payload ++ trailer)) false).2 = false) :
    summary (connectToStation net stationId stationToken latDeg lonDeg (some block) st0)
        = some (false,
            [Event.read 1 1, Event.read 2 2, Event.read (N + 3) ((N + 3 : Nat) : Int),
             Event.call N (0xD3 :: 0x00 :: N :: (payload ++ trailer)) false,
             Event.read 1 0])
      ∧ (0xD3 :: 0x00 :: N :: (payload ++ trailer)).length = N + 6 := by
  have hlen : (payload ++ trailer).length = N + 3 := by
    rw [List.length_append, hp, ht]
  have hne : payload ++ trailer ≠ [] := by
    intro h; rw [h] at hlen; simp at hlen
  have hdec : decodedLength (List.replicate BUFFER_SIZE 0) N = N := by
    rw [decodedLength_fresh]; omega
  -- the first iteration
  have e1 : read (startState true net.conn st0).conn 1
      = (1, [0xD3], [Arrival.bytes (0x00 :: N :: (payload ++ trailer))]) := by
    simp [startState, hconn, read]
  have e2 : read [Arrival.bytes (0x00 :: N :: (payload ++ trailer))] 2
      = (2, [0x00, N], [Arrival.bytes (payload ++ trailer)]) := by
    simp [read, hne]
  have e3 : read [Arrival.bytes (payload ++ trailer)] (N + 3)
      = (((N + 3 : Nat) : Int), payload ++ trailer, []) := by
    have ht : List.take (N + 3) (payload ++ trailer) = payload ++ trailer :=
      List.take_of_length_le (by omega)
    have hd : List.drop (N + 3) (payload ++ trailer) = [] :=
      List.drop_eq_nil_of_le (by omega)
    simp only [read, ht, hd, hlen, ↓reduceIte]
  have hsz : toSizeT ((N + 3 : Nat) : Int) < N + 6 := by
    unfold toSizeT; omega
  have hit := iteration_dispatch block (startState true net.conn st0) 0xD3 0x00 N _ _ e1
    (by norm_num) e2 (by simp only [startState]; rw [hdec]; omega)
    (by simp only [startState]; rw [hdec, e3]; exact hsz)
  simp only [startState] at hit
  rw [hdec, e3] at hit
  simp only [dispatched_full (List.replicate BUFFER_SIZE 0) 0xD3 0x00 N (payload ++ trailer)
    (by rw [hdec, hlen]), hgo] at hit
  -- the second iteration
  have hrun : runLoop (some block) (startState true net.conn st0)
      = some
          { isOK := false, isStop := false,
            messageBuffer := writeAt (resize (0xD3 :: 0x00 :: N :: (payload ++ trailer))
              BUFFER_SIZE) 0 [],
            conn := [],
            handlerState := (block st0 (0xD3 :: 0x00 :: N :: (payload ++ trailer)) false).1,
            trace := [Event.read 1 1, Event.read 2 2, Event.read (N + 3) ((N + 3 : Nat) : Int),
              Event.call N (0xD3 :: 0x00 :: N :: (payload ++ trailer)) false, Event.read 1 0] } := by
    rw [runLoop_step _ _ rfl rfl]
    simp only [startState]
    rw [hit, runLoop_step _ _ rfl rfl, iteration_marker_read _ _ (by simp [read_closed])]
    rw [runLoop_stop _ _ (Or.inl rfl)]
    simp [read_closed]
  constructor
  · rw [connectToStation_loop net stationId stationToken latDeg lonDeg (some block) st0 w _
      hhs hrun]
    rfl
  · simp [hlen]

/-- Witness of C7: `N = 4`, one invocation with a 10-byte buffer, and overall
failure. -/
theorem single_message_session_witness :
    summary (connectToStation
        (okNet [Arrival.bytes [0xD3, 0x00, 4, 0x11, 0x22, 0x33, 0x44, 0xAA, 0xBB, 0xCC]])
        [] [] 0 0 (some keepGoing) ())
        = some (false,
            [Event.read 1 1, Event.read 2 2, Event.read 7 7,
             Event.call 4 [0xD3, 0x00, 4, 0x11, 0x22, 0x33, 0x44, 0xAA, 0xBB, 0xCC] false,
             Event.read 1 0])
      ∧ [0xD3, 0x00, 4, 0x11, 0x22, 0x33, 0x44, 0xAA, 0xBB, 0xCC].length = 4 + 6 :=
  single_message_session
    (okNet [Arrival.bytes [0xD3, 0x00, 4, 0x11, 0x22, 0x33, 0x44, 0xAA, 0xBB, 0xCC]])
    [] [] 0 0 keepGoing () _ 4 [0x11, 0x22, 0x33, 0x44] [0xAA, 0xBB, 0xCC]
    (handshake_okNet _ [] [] 0 0) (by decide) (by decide) rfl rfl rfl rfl

/-- C5: at the start of any iteration (the `k`-th of a session whose handshake
succeeded), when the 1-byte read does not return 1, or the byte it stored is
not `0xD3`, `connectToStation` returns `false`, that read is the last event
(no later read, no handler call, the handler's state untouched), and the
connection has lost what that one read took, at most one byte. -/
theorem marker_failure {σ : Type} (net : Net) (stationId stationToken : Buffer)
    (latDeg lonDeg : ℚ) (block : Option (MessageReceived σ)) (st0 : σ) (w : Sender)
    (k : Nat) (s : LoopState σ)
    (hhs : handshake net stationId stationToken latDeg lonDeg = Outcome.returned (true, w))
    (hk : iterationStart block k (startState true net.conn st0) = some s)
    (hok : s.isOK = true) (hstop : s.isStop = false)
    (hbad : (read s.conn 1).1 ≠ 1
      ∨ ∃ x, (read s.conn 1).2.1 = [x] ∧ x < 256 ∧ x ≠ 0xD3) :
    ∃ r, connectToStation net stationId stationToken latDeg lonDeg block st0
          = Outcome.returned r
      ∧ r.isOK = false
      ∧ r.loop.trace = s.trace ++ [Event.read 1 (read s.conn 1).1]
      ∧ r.loop.conn = (read s.conn 1).2.2
      ∧ r.loop.handlerState = s.handlerState
      ∧ (read s.conn 1).2.1.length ≤ 1 := by
  have hrun := runLoop_iterationStart block k _ _ hk
  rw [runLoop_step block s hok hstop] at hrun
  by_cases h1 : (read s.conn 1).1 = 1
  · obtain ⟨x, e1⟩ := read_one_eq s.conn h1
    have hx : x % 256 ≠ 0xd3 := by
      rcases hbad with hbad | ⟨x', hx1, hx2, hx3⟩
      · exact absurd h1 hbad
      · rw [e1] at hx1
        simp only [List.cons.injEq, and_true] at hx1
        subst hx1
        omega
    have hit := iteration_marker_value block s x _ e1 hx
    rw [runLoop_stop block (iteration block s) (Or.inl (by rw [hit])), hit] at hrun
    refine ⟨_, connectToStation_loop net stationId stationToken latDeg lonDeg block st0 w _
      hhs hrun, rfl, ?_, rfl, rfl, read_length_le _ _⟩
    rw [h1]
  · have hit := iteration_marker_read block s h1
    rw [runLoop_stop block (iteration block s) (Or.inl (by rw [hit])), hit] at hrun
    exact ⟨_, connectToStation_loop net stationId stationToken latDeg lonDeg block st0 w _
      hhs hrun, rfl, rfl, rfl, rfl, read_length_le _ _⟩

/-- Witness of C5: a stream whose first byte is `0x42`. -/
theorem marker_failure_witness :
    ∃ r, connectToStation (okNet [Arrival.bytes [0x42, 0xD3, 0x00, 0x01]]) [] [] 0 0
          (some keepGoing) () = Outcome.returned r
      ∧ r.isOK = false
      ∧ r.loop.trace = [] ++ [Event.read 1 1]
      ∧ r.loop.conn = [Arrival.bytes [0xD3, 0x00, 0x01]]
      ∧ r.loop.handlerState = ()
      ∧ [0x42].length ≤ 1 :=
  marker_failure (okNet [Arrival.bytes [0x42, 0xD3, 0x00, 0x01]]) [] [] 0 0
    (some keepGoing) () _ 0 _ (handshake_okNet _ [] [] 0 0) rfl rfl rfl
    (Or.inr ⟨0x42, rfl, by decide, by decide⟩)

/-- C8: every message passed to the handler, in any iteration and on any
stream of bytes, has `3 + N + 3` bytes, where `N` is the length decoded in that
iteration and `1 ≤ N < 200 * 1024`, and its first byte is `0xD3`; and the
session returns whenever the handshake does. -/
theorem handler_buffers {σ : Type} (net : Net) (stationId stationToken : Buffer)
    (latDeg lonDeg : ℚ) (block : Option (MessageReceived σ)) (st0 : σ)
    (hb : connBytes net.conn) :
    (∀ st, handshake net stationId stationToken latDeg lonDeg = Outcome.returned st →
        ∃ r, connectToStation net stationId stationToken latDeg lonDeg block st0
          = Outcome.returned r)
      ∧ ∀ r, connectToStation net stationId stationToken latDeg lonDeg block st0
          = Outcome.returned r →
        ∀ N message stop, Event.call N message stop ∈ r.loop.trace →
          message.length = 3 + N + 3 ∧ 1 ≤ N ∧ N < 200 * 1024
            ∧ message.head? = some 0xD3 := by
  have key : ∀ isOK : Bool, ∃ r, runLoop block (startState isOK net.conn st0) = some r
      ∧ ∀ e ∈ r.trace, goodCall e := by
    intro isOK
    obtain ⟨r, h1, _, h3⟩ := runLoop_invariant block
      (fun s => connBytes s.conn ∧ ∀ e ∈ s.trace, goodCall e)
      (fun s _ _ hi => iteration_goodCall block s hi.1 hi.2)
      (connSize net.conn) (startState isOK net.conn st0) (Nat.le_refl _)
      ⟨hb, fun e he => by simp [startState] at he⟩
    exact ⟨r, h1, h3.2⟩
  constructor
  · intro st hst
    obtain ⟨r, hr, _⟩ := key st.1
    simp only [connectToStation, hst, hr]
    exact ⟨_, rfl⟩
  · intro r hr N message stop hmem
    unfold connectToStation at hr
    match hst : handshake net stationId stationToken latDeg lonDeg with
    | Outcome.aborted => rw [hst] at hr; simp at hr
    | Outcome.noFuel => rw [hst] at hr; simp at hr
    | Outcome.returned st =>
      rw [hst] at hr
      obtain ⟨r', hr', hgood⟩ := key st.1
      simp only [hr', Outcome.returned.injEq] at hr
      rw [← hr] at hmem
      exact hgood _ hmem

/-- Witness of C8: a stream of one message. -/
theorem handler_buffers_witness :
    connBytes [Arrival.bytes [0xD3, 0x00, 1, 0x11, 0xAA, 0xBB, 0xCC]]
      ∧ ((∀ st, handshake (okNet [Arrival.bytes [0xD3, 0x00, 1, 0x11, 0xAA, 0xBB, 0xCC]])
              [] [] 0 0 = Outcome.returned st →
            ∃ r, connectToStation (okNet [Arrival.bytes [0xD3, 0x00, 1, 0x11, 0xAA, 0xBB, 0xCC]])
              [] [] 0 0 (some keepGoing) () = Outcome.returned r)
        ∧ ∀ r, connectToStation (okNet [Arrival.bytes [0xD3, 0x00, 1, 0x11, 0xAA, 0xBB, 0xCC]])
              [] [] 0 0 (some keepGoing) () = Outcome.returned r →
            ∀ N message stop, Event.call N message stop ∈ r.loop.trace →
              message.length = 3 + N + 3 ∧ 1 ≤ N ∧ N < 200 * 1024
                ∧ message.head? = some 0xD3) :=
  ⟨⟨by decide, trivial⟩,
    handler_buffers (okNet [Arrival.bytes [0xD3, 0x00, 1, 0x11, 0xAA, 0xBB, 0xCC]])
      [] [] 0 0 (some keepGoing) () ⟨by decide, trivial⟩⟩

/-- C3 (the code at the failing input): the length bytes `01 02` of the first
message, big-endian 258, are decoded as 2: the body read asks for 5 bytes and
the handler gets an 8-byte message. -/
theorem decoded_length_01_02 :
    summary (connectToStation
        (okNet [Arrival.bytes [0xD3, 0x01, 0x02, 0xA1, 0xA2, 0xA3, 0xA4, 0xA5]])
        [] [] 0 0 (some keepGoing) ())
      = some (false,
          [Event.read 1 1, Event.read 2 2, Event.read 5 5,
           Event.call 2 [0xD3, 0x01, 0x02, 0xA1, 0xA2, 0xA3, 0xA4, 0xA5] false,
           Event.read 1 0])
      ∧ 256 * 0x01 + 0x02 = 258 :=
  ⟨fresh_one_message (okNet [Arrival.bytes [0xD3, 0x01, 0x02, 0xA1, 0xA2, 0xA3, 0xA4, 0xA5]])
    [] [] 0 0 keepGoing () _ 0xD3 0x01 0x02 _ _ 5 [0xA1, 0xA2, 0xA3, 0xA4, 0xA5]
    (handshake_okNet _ [] [] 0 0) rfl (by decide) rfl (by decide) rfl (by decide), rfl⟩

/-- C4 (the code at the failing input): the header `D3 00 04` is followed by 2
of the 7 bytes the body read asks for, then the peer closes; the handler is
invoked all the same, with the 5 missing bytes zero. -/
theorem short_body_read_dispatched :
    summary (connectToStation (okNet [Arrival.bytes [0xD3, 0x00, 0x04, 0x11, 0x22]])
        [] [] 0 0 (some keepGoing) ())
      = some (false,
          [Event.read 1 1, Event.read 2 2, Event.read 7 2,
           Event.call 4 [0xD3, 0x00, 0x04, 0x11, 0x22, 0, 0, 0, 0, 0] false,
           Event.read 1 0]) :=
  fresh_one_message (okNet [Arrival.bytes [0xD3, 0x00, 0x04, 0x11, 0x22]])
    [] [] 0 0 keepGoing () _ 0xD3 0x00 0x04 _ _ 2 [0x11, 0x22]
    (handshake_okNet _ [] [] 0 0) rfl (by decide) rfl (by decide) rfl (by decide)

/-- C9 (the code at the failing input): the peer closes right after the header
`D3 00 04`, the body read returns 0, and the handler is invoked after that
anomaly; as it sets the stop flag, `connectToStation` returns `true`. -/
theorem closed_body_read_then_stop :
    summary (connectToStation (okNet [Arrival.bytes [0xD3, 0x00, 0x04]])
        [] [] 0 0 (some stopNow) ())
      = some (true,
          [Event.read 1 1, Event.read 2 2, Event.read 7 0,
           Event.call 4 [0xD3, 0x00, 0x04, 0, 0, 0, 0, 0, 0, 0] true]) :=
  fresh_one_message (okNet [Arrival.bytes [0xD3, 0x00, 0x04]])
    [] [] 0 0 stopNow () _ 0xD3 0x00 0x04 _ _ 0 []
    (handshake_okNet _ [] [] 0 0) rfl (by decide) rfl (by decide) rfl (by decide)

/-- C6 (the code at the failing input): the second message declares length 0
(`D3 00 00`); with byte 3 of the buffer still holding the first payload byte
`01` of the message before, line 230 decodes 256, the body read is issued (for
259 bytes) and the handler is invoked with a 262-byte message. -/
theorem zero_length_second_message :
    summary (connectToStation
        (okNet [Arrival.bytes [0xD3, 0x00, 0x01, 0x01, 0xAA, 0xBB, 0xCC, 0xD3, 0x00, 0x00]])
        [] [] 0 0 (some keepGoing) ())
      = some (false,
          [Event.read 1 1, Event.read 2 2, Event.read 4 4,
           Event.call 1 [0xD3, 0x00, 0x01, 0x01, 0xAA, 0xBB, 0xCC] false,
           Event.read 1 1, Event.read 2 2, Event.read 259 0,
           Event.call 256 ([0xD3, 0x00, 0x00, 0x01, 0xAA, 0xBB, 0xCC] ++ List.replicate 255 0)
             false,
           Event.read 1 0]) := by
  have hdec := decodedLength_fresh 0x01
  -- the first message
  have hit1 := iteration_dispatch keepGoing
    (startState true [Arrival.bytes [0xD3, 0x00, 0x01, 0x01, 0xAA, 0xBB, 0xCC, 0xD3, 0x00, 0x00]]
      ()) 0xD3 0x00 0x01 [Arrival.bytes [0x00, 0x01, 0x01, 0xAA, 0xBB, 0xCC, 0xD3, 0x00, 0x00]]
    [Arrival.bytes [0x01, 0xAA, 0xBB, 0xCC, 0xD3, 0x00, 0x00]] rfl (by decide) rfl
    (by rw [show (startState true _ ()).messageBuffer = List.replicate BUFFER_SIZE 0 from rfl,
      hdec]; decide)
    (by rw [show (startState true _ ()).messageBuffer = List.replicate BUFFER_SIZE 0 from rfl,
      hdec]; decide)
  rw [show (startState true _ ()).messageBuffer = List.replicate BUFFER_SIZE 0 from rfl,
    hdec] at hit1
  have e3 : read [Arrival.bytes [0x01, 0xAA, 0xBB, 0xCC, 0xD3, 0x00, 0x00]] (0x01 % 256 + 3)
      = (4, [0x01, 0xAA, 0xBB, 0xCC], [Arrival.bytes [0xD3, 0x00, 0x00]]) := rfl
  rw [e3, dispatched_full _ _ _ _ _ (by rw [hdec]; rfl)] at hit1
  -- the second message
  have hd2 : decodedLength [0xD3, 0x00, 0x01, 0x01, 0xAA, 0xBB, 0xCC] 0x00 = 256 := by decide
  have hit2 := iteration_dispatch keepGoing
    { isOK := true, isStop := false,
      messageBuffer := [0xD3, 0x00, 0x01, 0x01, 0xAA, 0xBB, 0xCC],
      conn := [Arrival.bytes [0xD3, 0x00, 0x00]], handlerState := (),
      trace := [Event.read 1 1, Event.read 2 2, Event.read 4 4,
        Event.call 1 [0xD3, 0x00, 0x01, 0x01, 0xAA, 0xBB, 0xCC] false] }
    0xD3 0x00 0x00 [Arrival.bytes [0x00, 0x00]] [] rfl (by decide) rfl
    (by rw [hd2]; decide) (by rw [hd2]; decide)
  rw [hd2, read_closed] at hit2
  have hmsg := dispatched_closed [0xD3, 0x00, 0x01, 0x01, 0xAA, 0xBB, 0xCC] 0xD3 0x00 0x00
    (by decide) (by decide) (by rw [hd2]; decide)
  rw [hd2] at hmsg
  rw [hmsg] at hit2
  have hit1' : iteration (some keepGoing)
      (startState true
        [Arrival.bytes [0xD3, 0x00, 0x01, 0x01, 0xAA, 0xBB, 0xCC, 0xD3, 0x00, 0x00]] ())
      = { isOK := true, isStop := false,
          messageBuffer := [0xD3, 0x00, 0x01, 0x01, 0xAA, 0xBB, 0xCC],
          conn := [Arrival.bytes [0xD3, 0x00, 0x00]], handlerState := (),
          trace := [Event.read 1 1, Event.read 2 2, Event.read 4 4,
            Event.call 1 [0xD3, 0x00, 0x01, 0x01, 0xAA, 0xBB, 0xCC] false] } := hit1
  have hit2' : iteration (some keepGoing)
      { isOK := true, isStop := false,
        messageBuffer := [0xD3, 0x00, 0x01, 0x01, 0xAA, 0xBB, 0xCC],
        conn := [Arrival.bytes [0xD3, 0x00, 0x00]], handlerState := (),
        trace := [Event.read 1 1, Event.read 2 2, Event.read 4 4,
          Event.call 1 [0xD3, 0x00, 0x01, 0x01, 0xAA, 0xBB, 0xCC] false] }
      = { isOK := true, isStop := false,
          messageBuffer := [0xD3, 0x00, 0x00, 0x01, 0xAA, 0xBB, 0xCC] ++ List.replicate 255 0,
          conn := [], handlerState := (),
          trace := [Event.read 1 1, Event.read 2 2, Event.read 4 4,
            Event.call 1 [0xD3, 0x00, 0x01, 0x01, 0xAA, 0xBB, 0xCC] false,
            Event.read 1 1, Event.read 2 2, Event.read 259 0,
            Event.call 256 ([0xD3, 0x00, 0x00, 0x01, 0xAA, 0xBB, 0xCC] ++ List.replicate 255 0)
              false] } := hit2
  have hrun : runLoop (some keepGoing)
      (startState true
        [Arrival.bytes [0xD3, 0x00, 0x01, 0x01, 0xAA, 0xBB, 0xCC, 0xD3, 0x00, 0x00]] ())
      = some
        { isOK := false, isStop := false,
          messageBuffer := writeAt (resize
            ([0xD3, 0x00, 0x00, 0x01, 0xAA, 0xBB, 0xCC] ++ List.replicate 255 0) BUFFER_SIZE) 0 [],
          conn := [], handlerState := (),
          trace := [Event.read 1 1, Event.read 2 2, Event.read 4 4,
            Event.call 1 [0xD3, 0x00, 0x01, 0x01, 0xAA, 0xBB, 0xCC] false,
            Event.read 1 1, Event.read 2 2, Event.read 259 0,
            Event.call 256 ([0xD3, 0x00, 0x00, 0x01, 0xAA, 0xBB, 0xCC] ++ List.replicate 255 0)
              false,
            Event.read 1 0] } := by
    rw [runLoop_step _ _ rfl rfl, hit1', runLoop_step _ _ rfl rfl, hit2',
      runLoop_step _ _ rfl rfl, iteration_marker_read _ _ (by simp [read_closed])]
    rw [runLoop_stop _ _ (Or.inl rfl)]
    rfl
  rw [connectToStation_loop _ [] [] 0 0 (some keepGoing) () _ _ (handshake_okNet _ [] [] 0 0)
    hrun]
  rfl

/-! ## The stop flag -/

theorem iteration_fail_isStop {σ : Type} (block : Option (MessageReceived σ))
    (s : LoopState σ) (h : (iteration block s).isOK = false) :
    (iteration block s).isStop = s.isStop := by
  revert h
  cases block <;> simp only [iteration] <;> split_ifs <;> simp

/-- An iteration with a handler either fails, adding reads to the record and
leaving the stop flag alone, or ends with one handler call that decides the
flag. -/
theorem iteration_some_cases {σ : Type} (f : MessageReceived σ) (s : LoopState σ) :
    ((iteration (some f) s).isOK = false ∧ (iteration (some f) s).isStop = s.isStop
        ∧ ∃ reads, (iteration (some f) s).trace = s.trace ++ reads
          ∧ ∀ e ∈ reads, isStopCall e = false)
      ∨ ((iteration (some f) s).isOK = true
        ∧ ∃ reads N message, (iteration (some f) s).trace
            = (s.trace ++ reads) ++ [Event.call N message (iteration (some f) s).isStop]
          ∧ ∀ e ∈ reads, isStopCall e = false) := by
  by_cases h1 : (read s.conn 1).1 = 1
  · obtain ⟨x, e1⟩ := read_one_eq s.conn h1
    by_cases hx : x % 256 = 0xd3
    · by_cases h2 : (read (read s.conn 1).2.2 2).1 = 2
      · obtain ⟨y, z, e2⟩ := read_two_eq _ h2
        by_cases hz : decodedLength s.messageBuffer z = 0
        · have hit := iteration_length_zero (some f) s x y z _ _ e1 hx e2 hz
          left
          exact ⟨hit.1, iteration_fail_isStop (some f) s hit.1,
            [Event.read 1 1, Event.read 2 2], hit.2.2.2, by simp [isStopCall]⟩
        · have hpos : 0 < decodedLength s.messageBuffer z := Nat.pos_of_ne_zero hz
          rw [iteration_body (some f) s x y z _ _ e1 hx e2 hpos]
          split
          · right
            exact ⟨rfl, [Event.read 1 1, Event.read 2 2, Event.read _ _], _, _,
              by rw [List.append_assoc]; rfl, by simp [isStopCall]⟩
          · left
            exact ⟨rfl, rfl, [Event.read 1 1, Event.read 2 2, Event.read _ _], rfl,
              by simp [isStopCall]⟩
      · have e1' : read s.conn 1 = (1, [x], (read s.conn 1).2.2) := e1
        have hit := iteration_length_read (some f) s x _ e1' hx h2
        left
        exact ⟨hit.1, iteration_fail_isStop (some f) s hit.1,
          [Event.read 1 1, Event.read 2 _], hit.2.2.2, by simp [isStopCall]⟩
    · rw [iteration_marker_value (some f) s x _ e1 hx]
      left
      exact ⟨rfl, rfl, [Event.read 1 1], rfl, by simp [isStopCall]⟩
  · rw [iteration_marker_read (some f) s h1]
    left
    exact ⟨rfl, rfl, [Event.read 1 _], rfl, by simp [isStopCall]⟩

theorem iteration_stopRecorded {σ : Type} (f : MessageReceived σ) (s : LoopState σ)
    (hstop : s.isStop = false) (hs : stopRecorded s) :
    stopRecorded (iteration (some f) s) := by
  have hold := hs.2 hstop
  rcases iteration_some_cases f s with ⟨h1, h2, reads, h3, h4⟩ | ⟨h1, reads, N, msg, h3, h4⟩
  · refine ⟨fun h => ?_, fun _ => ?_⟩
    · rw [h2, hstop] at h; simp at h
    · intro e he
      rw [h3, List.mem_append] at he
      rcases he with he | he
      · exact hold e he
      · exact h4 e he
  · have hpre : ∀ e ∈ s.trace ++ reads, isStopCall e = false := by
      intro e he
      rw [List.mem_append] at he
      rcases he with he | he
      · exact hold e he
      · exact h4 e he
    refine ⟨fun h => ⟨h1, _, _, h3, by simp [isStopCall, h], hpre⟩, fun h => ?_⟩
    intro e he
    rw [h3, List.mem_append, List.mem_singleton] at he
    rcases he with he | he
    · exact hpre e he
    · rw [he]; simp [isStopCall, h]

/-- After a successful handshake and with a handler, `connectToStation`
returns; its result is `true` exactly when the stop flag is set, which is
exactly when the last event is a handler call that set it; and a handler call
that set the flag has no event after it: no further read, no further call. -/
theorem stop_flag_result {σ : Type} (net : Net) (stationId stationToken : Buffer)
    (latDeg lonDeg : ℚ) (f : MessageReceived σ) (st0 : σ) (w : Sender)
    (hhs : handshake net stationId stationToken latDeg lonDeg = Outcome.returned (true, w)) :
    ∃ r, connectToStation net stationId stationToken latDeg lonDeg (some f) st0
          = Outcome.returned r
      ∧ (r.isOK = true ↔ r.loop.isStop = true)
      ∧ (r.isOK = true ↔
          ∃ before last, r.loop.trace = before ++ [last] ∧ isStopCall last = true)
      ∧ ∀ before e after, r.loop.trace = before ++ e :: after → isStopCall e = true →
          after = [] := by
  obtain ⟨r, hr, hend, hinv⟩ := runLoop_invariant (some f) stopRecorded
    (fun s _ hstop hi => iteration_stopRecorded f s hstop hi)
    (connSize net.conn) (startState true net.conn st0) (Nat.le_refl _)
    ⟨fun h => by simp [startState] at h, fun _ e he => by simp [startState] at he⟩
  refine ⟨_, connectToStation_loop net stationId stationToken latDeg lonDeg (some f) st0 w r
    hhs hr, ?_, ?_, ?_⟩
  · show r.isOK = true ↔ r.isStop = true
    constructor
    · intro h
      rcases hend with h' | h'
      · rw [h] at h'; simp at h'
      · exact h'
    · intro h; exact (hinv.1 h).1
  · show r.isOK = true ↔ _
    constructor
    · intro h
      have hst : r.isStop = true := by
        rcases hend with h' | h'
        · rw [h] at h'; simp at h'
        · exact h'
      obtain ⟨_, before, last, h1, h2, _⟩ := hinv.1 hst
      exact ⟨before, last, h1, h2⟩
    · rintro ⟨before, last, h1, h2⟩
      cases hst : r.isStop with
      | true => exact (hinv.1 hst).1
      | false =>
        have := hinv.2 hst last (by rw [h1]; simp)
        rw [h2] at this; simp at this
  · intro before e after htr he
    show after = []
    cases hst : r.isStop with
    | false =>
      have := hinv.2 hst e (by rw [htr]; simp)
      rw [he] at this; simp at this
    | true =>
      obtain ⟨_, b, l, h1, _, h3⟩ := hinv.1 hst
      rw [htr] at h1
      by_contra hne
      obtain ⟨a', l', hal⟩ : ∃ a' l', after = a' ++ [l'] := by
        rcases List.eq_nil_or_concat after with h | ⟨a', l', h⟩
        · exact absurd h hne
        · exact ⟨a', l', by simpa using h⟩
      rw [hal] at h1
      have h1' : (before ++ e :: a') ++ [l'] = b ++ [l] := by simpa using h1
      have hb := (List.append_inj' h1' rfl).1
      have := h3 e (by rw [← hb]; simp)
      rw [he] at this; simp at this

/-! ## The checksum in closed form -/

theorem byteSum_cons (x : Nat) (rest : Buffer) : byteSum (x :: rest) = x + byteSum rest := by
  unfold byteSum
  rw [List.length_cons, Finset.sum_range_succ']
  simp only [List.getD_cons_succ, List.getD_cons_zero]
  omega

theorem weightedSum_cons (x : Nat) (rest : Buffer) :
    weightedSum (x :: rest) = (rest.length + 1) * x + weightedSum rest := by
  unfold weightedSum
  rw [List.length_cons, Finset.sum_range_succ']
  simp only [List.getD_cons_succ, List.getD_cons_zero, Nat.add_sub_add_right, Nat.sub_zero]
  omega

theorem checksumLoop_closed (l : Buffer) :
    ∀ a b : Nat, a < 256 → b < 256 → checksumLoop l a b
      = ((a + byteSum l) % 256, (b + l.length * a + weightedSum l) % 256) := by
  induction l with
  | nil =>
    intro a b ha hb
    simp [checksumLoop, byteSum, weightedSum, Nat.mod_eq_of_lt ha, Nat.mod_eq_of_lt hb]
  | cons x rest ih =>
    intro a b _ _
    show checksumLoop rest ((a + x) % 256) ((b + (a + x) % 256) % 256) = _
    rw [ih _ _ (Nat.mod_lt _ (by norm_num)) (Nat.mod_lt _ (by norm_num)), byteSum_cons,
      weightedSum_cons, List.length_cons]
    have h1 : (a + x) % 256 ≡ a + x [MOD 256] := Nat.mod_modEq _ _
    have h2 : (b + (a + x) % 256) % 256 ≡ b + (a + x) [MOD 256] :=
      (Nat.mod_modEq _ _).trans (Nat.ModEq.add_left b h1)
    have e1 : ((a + x) % 256 + byteSum rest) % 256 = (a + (x + byteSum rest)) % 256 := by
      have := Nat.ModEq.add_right (byteSum rest) h1
      rw [Nat.add_assoc] at this
      exact this
    have e2 : ((b + (a + x) % 256) % 256 + rest.length * ((a + x) % 256) + weightedSum rest) % 256
        = (b + (rest.length + 1) * a + ((rest.length + 1) * x + weightedSum rest)) % 256 := by
      have h3 := Nat.ModEq.add_right (weightedSum rest)
        (Nat.ModEq.add h2 (Nat.ModEq.mul_left rest.length h1))
      have e : b + (a + x) + rest.length * (a + x) + weightedSum rest
          = b + (rest.length + 1) * a + ((rest.length + 1) * x + weightedSum rest) := by ring
      rw [e] at h3
      exact h3
    rw [e1, e2]

/-- C16: the running-sum loop from `(0, 0)` gives `(Σ b_i mod 256,
Σ (n - i) * b_i mod 256)`; the checksum of an empty range is `(0, 0)`; and the
two bytes `pointOneFrame` appends are this pair for the frame's bytes from
index 2 to the end of the payload. -/
theorem checksum_closed_form (l : Buffer) (k : Nat) (t0 t1 : Nat) (p : Buffer) :
    checksumLoop l 0 0
        = ((∑ i in Finset.range l.length, l.getD i 0) % 256,
           (∑ i in Finset.range l.length, (l.length - i) * l.getD i 0) % 256)
      ∧ computeChecksum l 0 l.length = checksumLoop l 0 0
      ∧ checksumLoop [] 0 0 = (0, 0)
      ∧ computeChecksum l k k = (0, 0)
      ∧ pointOneFrame (t0, t1) p
          = [0xB5, 0x62, t0, t1, p.length % 256, 0x00] ++ p
            ++ [byteSum ((pointOneFrame (t0, t1) p).drop 2 |>.take (p.length + 4)) % 256,
                weightedSum ((pointOneFrame (t0, t1) p).drop 2 |>.take (p.length + 4)) % 256]
      ∧ ((pointOneFrame (t0, t1) p).drop 2).take (p.length + 4)
          = [t0, t1, p.length % 256, 0x00] ++ p := by
  have hcov : ((pointOneFrame (t0, t1) p).drop 2).take (p.length + 4)
      = [t0, t1, p.length % 256, 0x00] ++ p := by
    rw [pointOneFrame_eq]
    simp
  refine ⟨?_, ?_, rfl, ?_, ?_, hcov⟩
  · have h := checksumLoop_closed l 0 0 (by norm_num) (by norm_num)
    simpa [byteSum, weightedSum] using h
  · have h := foldl_checksumStep l [] [] (0, 0)
    unfold computeChecksum
    simpa using h
  · simp [computeChecksum]
  · rw [hcov]
    have h := checksumLoop_closed ([t0, t1, p.length % 256, 0x00] ++ p) 0 0
      (by norm_num) (by norm_num)
    simp only [Nat.zero_add, Nat.mul_zero, Nat.add_zero] at h
    rw [pointOneFrame_eq]
    simp only [List.cons_append, List.nil_append] at h ⊢
    rw [h]

/-! ## The checksum under a swap -/

theorem getD_set (l : Buffer) (i k v : Nat) (hi : i < l.length) :
    (l.set i v).getD k 0 = if k = i then v else l.getD k 0 := by
  simp only [List.getD_eq_getElem?_getD, List.getElem?_set]
  by_cases h : i = k
  · subst h; simp [hi]
  · have h' : ¬ k = i := fun e => h e.symm
    simp [h, h']

/-- Storing `v` at index `i` changes a weighted sum by the weight of `i` times
the change of the byte. -/
theorem sum_set (w : Nat → Nat) (l : Buffer) (i v : Nat) (hi : i < l.length) :
    (∑ k in Finset.range l.length, w k * (l.set i v).getD k 0) + w i * l.getD i 0
      = (∑ k in Finset.range l.length, w k * l.getD k 0) + w i * v := by
  have hmem : i ∈ Finset.range l.length := Finset.mem_range.mpr hi
  rw [← Finset.add_sum_erase _ _ hmem, ← Finset.add_sum_erase _ (fun k => w k * l.getD k 0) hmem]
  have hrest : ∑ k in (Finset.range l.length).erase i, w k * (l.set i v).getD k 0
      = ∑ k in (Finset.range l.length).erase i, w k * l.getD k 0 := by
    apply Finset.sum_congr rfl
    intro k hk
    have hne : k ≠ i := (Finset.mem_erase.mp hk).1
    rw [getD_set l i k v hi, if_neg hne]
  rw [hrest, getD_set l i i v hi, if_pos rfl]
  ring

theorem sum_swap (w : Nat → Nat) (l : Buffer) (i j : Nat) (hij : i < j) (hj : j < l.length) :
    (∑ k in Finset.range l.length, w k * (swapBytes l i j).getD k 0)
        + w i * l.getD i 0 + w j * l.getD j 0
      = (∑ k in Finset.range l.length, w k * l.getD k 0)
        + w i * l.getD j 0 + w j * l.getD i 0 := by
  have hi : i < l.length := by omega
  have h1 := sum_set w l i (l.getD j 0) hi
  have hj' : j < (l.set i (l.getD j 0)).length := by rw [List.length_set]; exact hj
  have h2 := sum_set w (l.set i (l.getD j 0)) j (l.getD i 0) hj'
  rw [List.length_set] at h2
  have hg : (l.set i (l.getD j 0)).getD j 0 = l.getD j 0 := by
    rw [getD_set l i j _ hi, if_neg (by omega)]
  rw [hg] at h2
  unfold swapBytes
  omega

theorem swapBytes_length (l : Buffer) (i j : Nat) : (swapBytes l i j).length = l.length := by
  simp [swapBytes]

/-- C17: exchanging the bytes at `i < j` never changes `checkA`, and changes
`checkB` exactly when 256 does not divide `(j - i) * (b_i - b_j)`; so
exchanging two unequal adjacent bytes changes the checksum pair. -/
theorem checksum_swap (l : Buffer) (i j : Nat) (hij : i < j) (hj : j < l.length)
    (hb : isBytes l) :
    (checksumLoop (swapBytes l i j) 0 0).1 = (checksumLoop l 0 0).1
      ∧ ((checksumLoop (swapBytes l i j) 0 0).2 ≠ (checksumLoop l 0 0).2
          ↔ ¬ (256 : Int) ∣ ((j : Int) - (i : Int)) * ((l.getD i 0 : Int) - (l.getD j 0 : Int)))
      ∧ (j = i + 1 → l.getD i 0 ≠ l.getD j 0 →
          checksumLoop (swapBytes l i j) 0 0 ≠ checksumLoop l 0 0) := by
  have hS := sum_swap (fun _ => 1) l i j hij hj
  have hW := sum_swap (fun k => l.length - k) l i j hij hj
  simp only [Nat.one_mul] at hS
  have c1 := checksumLoop_closed (swapBytes l i j) 0 0 (by norm_num) (by norm_num)
  have c2 := checksumLoop_closed l 0 0 (by norm_num) (by norm_num)
  simp only [Nat.zero_add, Nat.mul_zero, Nat.add_zero] at c1 c2
  have eS : byteSum (swapBytes l i j) = byteSum l := by
    unfold byteSum
    rw [swapBytes_length]
    omega
  have eW : (weightedSum (swapBytes l i j) : Int) - (weightedSum l : Int)
      = -(((j : Int) - (i : Int)) * ((l.getD i 0 : Int) - (l.getD j 0 : Int))) := by
    unfold weightedSum
    rw [swapBytes_length]
    have hi' : i ≤ l.length := by omega
    have hj' : j ≤ l.length := by omega
    have hWz : ((∑ k in Finset.range l.length, (l.length - k) * (swapBytes l i j).getD k 0 : Nat) : Int)
        + ((l.length : Int) - i) * (l.getD i 0 : Int) + ((l.length : Int) - j) * (l.getD j 0 : Int)
        = ((∑ k in Finset.range l.length, (l.length - k) * l.getD k 0 : Nat) : Int)
        + ((l.length : Int) - i) * (l.getD j 0 : Int) + ((l.length : Int) - j) * (l.getD i 0 : Int) := by
      have := congrArg (fun n : Nat => (n : Int)) hW
      simp only [Nat.cast_add, Nat.cast_mul, Nat.cast_sub hi', Nat.cast_sub hj'] at this
      exact this
    linear_combination hWz
  have hB : (checksumLoop (swapBytes l i j) 0 0).2 ≠ (checksumLoop l 0 0).2
      ↔ ¬ (256 : Int) ∣ ((j : Int) - (i : Int)) * ((l.getD i 0 : Int) - (l.getD j 0 : Int)) := by
    rw [c1, c2]
    show ¬ (weightedSum (swapBytes l i j) % 256 = weightedSum l % 256) ↔ _
    have key : weightedSum (swapBytes l i j) % 256 = weightedSum l % 256
        ↔ (256 : Int) ∣ ((j : Int) - (i : Int)) * ((l.getD i 0 : Int) - (l.getD j 0 : Int)) := by
      have h := Nat.modEq_iff_dvd (n := 256) (a := weightedSum l) (b := weightedSum (swapBytes l i j))
      have h' : weightedSum (swapBytes l i j) % 256 = weightedSum l % 256
          ↔ weightedSum l ≡ weightedSum (swapBytes l i j) [MOD 256] :=
        ⟨fun e => e.symm, fun e => e.symm⟩
      rw [h', h, eW, Int.dvd_neg]
      rfl
    rw [key]
  refine ⟨?_, hB, ?_⟩
  · rw [c1, c2, eS]
  · intro hadj hne heq
    have h2 : (checksumLoop (swapBytes l i j) 0 0).2 = (checksumLoop l 0 0).2 := by rw [heq]
    have hdvd : (256 : Int) ∣ ((j : Int) - (i : Int)) * ((l.getD i 0 : Int) - (l.getD j 0 : Int)) := by
      by_contra hc
      exact (hB.mpr hc) h2
    have hbi : l.getD i 0 < 256 := by
      have hi : i < l.length := by omega
      rw [List.getD_eq_getElem _ _ hi]
      exact hb _ (List.getElem_mem _)
    have hbj : l.getD j 0 < 256 := by
      rw [List.getD_eq_getElem _ _ hj]
      exact hb _ (List.getElem_mem _)
    have e1 : (j : Int) - (i : Int) = 1 := by omega
    rw [e1, one_mul] at hdvd
    omega

/-- Witness of C17: the bytes `01 02 03` with the first two exchanged. -/
theorem checksum_swap_witness :
    (checksumLoop (swapBytes [1, 2, 3] 0 1) 0 0).1 = (checksumLoop [1, 2, 3] 0 0).1
      ∧ ((checksumLoop (swapBytes [1, 2, 3] 0 1) 0 0).2 ≠ (checksumLoop [1, 2, 3] 0 0).2
          ↔ ¬ (256 : Int) ∣ (((1 : Nat) : Int) - ((0 : Nat) : Int))
              * ((([1, 2, 3] : Buffer).getD 0 0 : Int) - (([1, 2, 3] : Buffer).getD 1 0 : Int)))
      ∧ (1 = 0 + 1 → ([1, 2, 3] : Buffer).getD 0 0 ≠ ([1, 2, 3] : Buffer).getD 1 0 →
          checksumLoop (swapBytes [1, 2, 3] 0 1) 0 0 ≠ checksumLoop [1, 2, 3] 0 0) :=
  checksum_swap [1, 2, 3] 0 1 (by decide) (by decide) (by decide)

/-! ## The length check -/

theorem writeAt_length (dst : Buffer) (offset : Nat) (src : Buffer)
    (h : offset + src.length ≤ dst.length) : (writeAt dst offset src).length = dst.length := by
  unfold writeAt
  simp only [List.length_append, List.length_take, List.length_drop]
  omega

theorem ntohs_lt (x : Nat) : ntohs x < 65536 := by
  unfold ntohs; omega

/-- Whatever the buffer was, after an iteration it has `BUFFER_SIZE` bytes or
`3 + N + 3` bytes for a 16-bit `N`. -/
theorem iteration_buffer_length {σ : Type} (block : Option (MessageReceived σ))
    (s : LoopState σ) : (iteration block s).messageBuffer.length ≤ 65541 := by
  have g1 := read_length_le s.conn 1
  have g2 := read_length_le (read s.conn 1).2.2 2
  have l0 : (resize s.messageBuffer BUFFER_SIZE).length = 2048 := resize_length _ _
  have l1 : (writeAt (resize s.messageBuffer BUFFER_SIZE) 0 (read s.conn 1).2.1).length = 2048 := by
    rw [writeAt_length _ _ _ (by omega), l0]
  have l2 : (writeAt (writeAt (resize s.messageBuffer BUFFER_SIZE) 0 (read s.conn 1).2.1) 1
      (read (read s.conn 1).2.2 2).2.1).length = 2048 := by
    rw [writeAt_length _ _ _ (by omega), l1]
  have l4 : ∀ (b : Buffer) (n : Nat) (c : Conn),
      (writeAt (resize b (3 + n + 3)) 3 (read c ((resize b (3 + n + 3)).length - 3)).2.1).length
        = 3 + n + 3 := by
    intro b n c
    have g3 := read_length_le c ((resize b (3 + n + 3)).length - 3)
    rw [resize_length] at g3
    rw [writeAt_length _ _ _ (by rw [resize_length]; omega), resize_length]
  have hn := ntohs_lt (getBitsUnsigned
    ((writeAt (writeAt (resize s.messageBuffer BUFFER_SIZE) 0 (read s.conn 1).2.1) 1
      (read (read s.conn 1).2.2 2).2.1).drop 1) 8 16)
  cases block <;> simp only [iteration] <;> split_ifs <;> simp only [l1, l2, l4] <;> omega

/-- C20: the decoded length is a 16-bit value, so it is below
`MAX_PAYLOAD_SIZE = 204800` for every input, the check of line 238 is the
test `numBytesToRead != 0`, and both sizes the buffer is resized to, and so
the buffer after any iteration and at the end of the session, stay within
`65535 + 6 = 65541` bytes. -/
theorem length_check_upper_bound {σ : Type} (messageBuffer : Buffer)
    (block : Option (MessageReceived σ)) (s : LoopState σ)
    (net : Net) (stationId stationToken : Buffer) (latDeg lonDeg : ℚ) (st0 : σ) :
    ntohs (getBitsUnsigned (messageBuffer.drop 1) 8 16) ≤ 65535
      ∧ MAX_PAYLOAD_SIZE = 204800
      ∧ ntohs (getBitsUnsigned (messageBuffer.drop 1) 8 16) < MAX_PAYLOAD_SIZE
      ∧ ((ntohs (getBitsUnsigned (messageBuffer.drop 1) 8 16) > 0
            ∧ ntohs (getBitsUnsigned (messageBuffer.drop 1) 8 16) < MAX_PAYLOAD_SIZE)
          ↔ ntohs (getBitsUnsigned (messageBuffer.drop 1) 8 16) ≠ 0)
      ∧ BUFFER_SIZE ≤ 65535 + 6
      ∧ 3 + ntohs (getBitsUnsigned (messageBuffer.drop 1) 8 16) + 3 ≤ 65535 + 6
      ∧ (iteration block s).messageBuffer.length ≤ 65535 + 6
      ∧ ∀ r, connectToStation net stationId stationToken latDeg lonDeg block st0
            = Outcome.returned r →
          r.loop.messageBuffer.length ≤ 65535 + 6 := by
  have hn := ntohs_lt (getBitsUnsigned (messageBuffer.drop 1) 8 16)
  have hmax : MAX_PAYLOAD_SIZE = 204800 := by decide
  refine ⟨by omega, hmax, by omega, ⟨fun h => by omega, fun h => ⟨by omega, by omega⟩⟩,
    by decide, by omega, iteration_buffer_length block s, ?_⟩
  intro r hr
  unfold connectToStation at hr
  match hst : handshake net stationId stationToken latDeg lonDeg with
  | Outcome.aborted => rw [hst] at hr; simp at hr
  | Outcome.noFuel => rw [hst] at hr; simp at hr
  | Outcome.returned st =>
    rw [hst] at hr
    obtain ⟨r', hr', _, hinv⟩ := runLoop_invariant block
      (fun s => s.messageBuffer.length ≤ 65535 + 6)
      (fun s _ _ _ => iteration_buffer_length block s)
      (connSize net.conn) (startState st.1 net.conn st0) (Nat.le_refl _)
      (by simp only [startState, List.length_replicate]; decide)
    simp only [hr', Outcome.returned.injEq] at hr
    rw [← hr]
    exact hinv

/-! ## Lemmas and theorems on the classifier -/

theorem bit_of_byte (m : Buffer) (k t : Nat) (ht : t < 8) :
    bit m (8 * k + t) = m.getD k 0 / 2 ^ (7 - t) % 2 := by
  unfold bit
  have e1 : (8 * k + t) / 8 = k := by omega
  have e2 : (8 * k + t) % 8 = t := by omega
  rw [e1, e2]

/-- The message number: byte 3 and the high half of byte 4. -/
theorem getBitsUnsigned_24_12 (m : Buffer) (hb3 : m.getD 3 0 < 256) (hb4 : m.getD 4 0 < 256) :
    getBitsUnsigned m 24 12 = 16 * m.getD 3 0 + m.getD 4 0 / 16 := by
  have h1 : getBitsLoop m 24 8 0 = 0 * 256 + m.getD 3 0 % 256 :=
    getBitsLoop_byte m 3 0 0 (by norm_num) (by norm_num)
  have h2 : getBitsLoop m (24 + 8) 4 (0 * 256 + m.getD 3 0 % 256)
      = (0 * 256 + m.getD 3 0 % 256) * 2 ^ 4
        + ∑ k in Finset.range 4, bit m (32 + k) * 2 ^ (4 - 1 - k) :=
    (getBitsLoop_eq m 4 32 8 (0 * 256 + m.getD 3 0 % 256) (by norm_num; omega)
      (by norm_num)).1
  have b0 : bit m (32 + 0) = m.getD 4 0 / 128 % 2 := bit_of_byte m 4 0 (by norm_num)
  have b1 : bit m (32 + 1) = m.getD 4 0 / 64 % 2 := bit_of_byte m 4 1 (by norm_num)
  have b2 : bit m (32 + 2) = m.getD 4 0 / 32 % 2 := bit_of_byte m 4 2 (by norm_num)
  have b3 : bit m (32 + 3) = m.getD 4 0 / 16 % 2 := bit_of_byte m 4 3 (by norm_num)
  have e : getBitsUnsigned m 24 12 = getBitsLoop m (24 + 8) 4 (getBitsLoop m 24 8 0) :=
    getBitsLoop_add m 8 4 24 0
  rw [e, h1, h2]
  simp only [Finset.sum_range_succ, Finset.sum_range_zero, b0, b1, b2, b3]
  generalize m.getD 3 0 = x3 at *
  generalize m.getD 4 0 = x4 at *
  norm_num
  omega

/-- The station id: the low half of byte 4 and byte 5. -/
theorem getBitsUnsigned_36_12 (m : Buffer) (hb5 : m.getD 5 0 < 256) :
    getBitsUnsigned m 36 12 = 256 * (m.getD 4 0 % 16) + m.getD 5 0 := by
  have h1 : getBitsLoop m 36 4 0
      = 0 * 2 ^ 4 + ∑ k in Finset.range 4, bit m (36 + k) * 2 ^ (4 - 1 - k) :=
    (getBitsLoop_eq m 4 36 0 0 (by norm_num) (by norm_num)).1
  have b0 : bit m (36 + 0) = m.getD 4 0 / 8 % 2 := bit_of_byte m 4 4 (by norm_num)
  have b1 : bit m (36 + 1) = m.getD 4 0 / 4 % 2 := bit_of_byte m 4 5 (by norm_num)
  have b2 : bit m (36 + 2) = m.getD 4 0 / 2 % 2 := bit_of_byte m 4 6 (by norm_num)
  have b3 : bit m (36 + 3) = m.getD 4 0 / 1 % 2 := bit_of_byte m 4 7 (by norm_num)
  have h1' : getBitsLoop m 36 4 0 = m.getD 4 0 % 16 := by
    rw [h1]
    simp only [Finset.sum_range_succ, Finset.sum_range_zero, b0, b1, b2, b3]
    generalize m.getD 4 0 = x4 at *
    norm_num
    omega
  have h2 : getBitsLoop m (36 + 4) 8 (m.getD 4 0 % 16)
      = m.getD 4 0 % 16 * 256 + m.getD 5 0 % 256 :=
    getBitsLoop_byte m 5 4 (m.getD 4 0 % 16) (by norm_num; omega) (by norm_num)
  have e : getBitsUnsigned m 36 12 = getBitsLoop m (36 + 4) 8 (getBitsLoop m 36 4 0) :=
    getBitsLoop_add m 4 8 36 0
  rw [e, h1', h2]
  omega

theorem isBytes_getD (m : Buffer) (hb : isBytes m) (i : Nat) : m.getD i 0 < 256 := by
  by_cases hi : i < m.length
  · rw [List.getD_eq_getElem _ _ hi]
    exact hb _ (List.getElem_mem _)
  · rw [List.getD_eq_default _ _ (by omega)]
    norm_num

/-- C12: on a message `m` of at least 10 bytes the classifier reads the
message number `16 * m[3] + m[4] / 16` (12 bits at offset 24) and the station
id `256 * (m[4] % 16) + m[5]` (12 bits at offset 36), and a time of week at
offset 48 of 30 bits when the number is in `[1001, 1004]`, of 27 bits when it
is in `[1009, 1012]`, and not at all otherwise: so 1000, 1005, 1008 and 1013
read the station id only, 1001 and 1004 read 30 bits, 1009 and 1012 read 27;
and for `D3 00 06 3B A0 00 00 00 00 AA BB` the number is `0x3BA = 954` and
only the station id is read. -/
theorem classifier_fields (m : Buffer) (hlen : 10 ≤ m.length) (hb : isBytes m) :
    onMessageReceived m
        = [⟨24, 12, 16 * m.getD 3 0 + m.getD 4 0 / 16⟩,
           ⟨36, 12, 256 * (m.getD 4 0 % 16) + m.getD 5 0⟩]
          ++ (if 1001 ≤ 16 * m.getD 3 0 + m.getD 4 0 / 16
                ∧ 16 * m.getD 3 0 + m.getD 4 0 / 16 ≤ 1004 then
              [⟨48, 30, getBitsUnsigned m 48 30⟩]
            else if 1009 ≤ 16 * m.getD 3 0 + m.getD 4 0 / 16
                ∧ 16 * m.getD 3 0 + m.getD 4 0 / 16 ≤ 1012 then
              [⟨48, 27, getBitsUnsigned m 48 27⟩]
            else [])
      ∧ (16 * m.getD 3 0 + m.getD 4 0 / 16 ∈ [1000, 1005, 1008, 1013] →
          (onMessageReceived m).map (fun r => (r.pos, r.len)) = [(24, 12), (36, 12)])
      ∧ (16 * m.getD 3 0 + m.getD 4 0 / 16 ∈ [1001, 1004] →
          (onMessageReceived m).map (fun r => (r.pos, r.len)) = [(24, 12), (36, 12), (48, 30)])
      ∧ (16 * m.getD 3 0 + m.getD 4 0 / 16 ∈ [1009, 1012] →
          (onMessageReceived m).map (fun r => (r.pos, r.len)) = [(24, 12), (36, 12), (48, 27)])
      ∧ 48 + 30 ≤ 8 * m.length
      ∧ onMessageReceived [0xD3, 0x00, 0x06, 0x3B, 0xA0, 0x00, 0x00, 0x00, 0x00, 0xAA, 0xBB]
          = [⟨24, 12, 954⟩, ⟨36, 12, 0⟩] := by
  have e1 := getBitsUnsigned_24_12 m (isBytes_getD m hb 3) (isBytes_getD m hb 4)
  have e2 := getBitsUnsigned_36_12 m (isBytes_getD m hb 5)
  have main : onMessageReceived m
      = [⟨24, 12, 16 * m.getD 3 0 + m.getD 4 0 / 16⟩,
         ⟨36, 12, 256 * (m.getD 4 0 % 16) + m.getD 5 0⟩]
        ++ (if 1001 ≤ 16 * m.getD 3 0 + m.getD 4 0 / 16
              ∧ 16 * m.getD 3 0 + m.getD 4 0 / 16 ≤ 1004 then
            [⟨48, 30, getBitsUnsigned m 48 30⟩]
          else if 1009 ≤ 16 * m.getD 3 0 + m.getD 4 0 / 16
              ∧ 16 * m.getD 3 0 + m.getD 4 0 / 16 ≤ 1012 then
            [⟨48, 27, getBitsUnsigned m 48 27⟩]
          else []) := by
    unfold onMessageReceived
    simp only [Nat.add_zero, Nat.reduceAdd, e1, e2, ge_iff_le]
    split_ifs <;> rfl
  refine ⟨main, ?_, ?_, ?_, by omega, by decide⟩
  · intro h
    rw [main]
    simp only [List.mem_cons, List.mem_singleton, List.not_mem_nil, or_false] at h
    rcases h with h | h | h | h <;> rw [h] <;> rfl
  · intro h
    rw [main]
    simp only [List.mem_cons, List.mem_singleton, List.not_mem_nil, or_false] at h
    rcases h with h | h <;> rw [h] <;> rfl
  · intro h
    rw [main]
    simp only [List.mem_cons, List.mem_singleton, List.not_mem_nil, or_false] at h
    rcases h with h | h <;> rw [h] <;> rfl

/-- Witness of C12: a message of type 1004. -/
theorem classifier_fields_witness :
    onMessageReceived [0xD3, 0x00, 0x06, 0x3E, 0xC0, 0x07, 0x00, 0x00, 0x00, 0x01, 0xAA, 0xBB]
        = [⟨24, 12, 16 * 0x3E + 0xC0 / 16⟩, ⟨36, 12, 256 * (0xC0 % 16) + 0x07⟩,
           ⟨48, 30, 0⟩] :=
  ((classifier_fields
    [0xD3, 0x00, 0x06, 0x3E, 0xC0, 0x07, 0x00, 0x00, 0x00, 0x01, 0xAA, 0xBB]
    (by decide) (by decide)).1).trans (by decide)

/-- C19 (the code at the failing input): the peer sends `D3 00 01 3E 90 00 00`,
a message of length 1 whose bytes 3-4 read as message number 1001; the handler
gets the 7-byte message and reads 30 bits at offset 48, up to bit 78 of a
buffer of 56 bits. -/
theorem classifier_reads_past_buffer :
    summary (connectToStation (okNet [Arrival.bytes [0xD3, 0x00, 0x01, 0x3E, 0x90, 0x00, 0x00]])
        [] [] 0 0 (some mainHandler) [])
      = some (false,
          [Event.read 1 1, Event.read 2 2, Event.read 4 4,
           Event.call 1 [0xD3, 0x00, 0x01, 0x3E, 0x90, 0x00, 0x00] false,
           Event.read 1 0])
      ∧ onMessageReceived [0xD3, 0x00, 0x01, 0x3E, 0x90, 0x00, 0x00]
          = [⟨24, 12, 1001⟩, ⟨36, 12, 0⟩, ⟨48, 30, 0⟩]
      ∧ 8 * [0xD3, 0x00, 0x01, 0x3E, 0x90, 0x00, 0x00].length = 56
      ∧ ¬ (48 + 30 ≤ 56) :=
  ⟨fresh_one_message (okNet [Arrival.bytes [0xD3, 0x00, 0x01, 0x3E, 0x90, 0x00, 0x00]])
    [] [] 0 0 mainHandler [] _ 0xD3 0x00 0x01 _ _ 4 [0x3E, 0x90, 0x00, 0x00]
    (handshake_okNet _ [] [] 0 0) rfl (by decide) rfl (by decide) rfl (by decide),
   by decide, by decide, by decide⟩

/-! ## The location frame -/

/-- Thirty-two bits read at a byte boundary: four bytes, the first one
highest. -/
theorem getBitsUnsigned_word (buff : Buffer) (k : Nat) :
    getBitsUnsigned buff (8 * k) 32
      = buff.getD k 0 % 256 * 2 ^ 24 + buff.getD (k + 1) 0 % 256 * 2 ^ 16
        + buff.getD (k + 2) 0 % 256 * 2 ^ 8 + buff.getD (k + 3) 0 % 256 := by
  generalize hb0 : buff.getD k 0 % 256 = b0
  generalize hb1 : buff.getD (k + 1) 0 % 256 = b1
  generalize hb2 : buff.getD (k + 2) 0 % 256 = b2
  generalize hb3 : buff.getD (k + 3) 0 % 256 = b3
  have l0 : b0 < 256 := by omega
  have l1 : b1 < 256 := by omega
  have l2 : b2 < 256 := by omega
  have l3 : b3 < 256 := by omega
  have h0 : getBitsLoop buff (8 * k) 8 0 = b0 := by
    rw [getBitsLoop_byte buff k 0 0 (by norm_num) (by norm_num), hb0]; omega
  have h1 : getBitsLoop buff (8 * k + 8) 8 b0 = b0 * 256 + b1 := by
    have e : 8 * k + 8 = 8 * (k + 1) := by omega
    rw [e, getBitsLoop_byte buff (k + 1) 8 b0 (by norm_num; omega) (by norm_num), hb1]
  have h2 : getBitsLoop buff (8 * k + 8 + 8) 8 (b0 * 256 + b1) = (b0 * 256 + b1) * 256 + b2 := by
    have e : 8 * k + 8 + 8 = 8 * (k + 2) := by omega
    rw [e, getBitsLoop_byte buff (k + 2) 16 _ (by norm_num; omega) (by norm_num), hb2]
  have h3 : getBitsLoop buff (8 * k + 8 + 8 + 8) 8 ((b0 * 256 + b1) * 256 + b2)
      = ((b0 * 256 + b1) * 256 + b2) * 256 + b3 := by
    have e : 8 * k + 8 + 8 + 8 = 8 * (k + 3) := by omega
    rw [e, getBitsLoop_byte buff (k + 3) 24 _ (by norm_num; omega) (by norm_num), hb3]
  have e : getBitsUnsigned buff (8 * k) 32
      = getBitsLoop buff (8 * k + 8 + 8 + 8) 8
          (getBitsLoop buff (8 * k + 8 + 8) 8
            (getBitsLoop buff (8 * k + 8) 8 (getBitsLoop buff (8 * k) 8 0))) := by
    unfold getBitsUnsigned
    rw [← getBitsLoop_add, ← getBitsLoop_add, ← getBitsLoop_add]
  rw [e, h0, h1, h2, h3]
  omega

theorem int32Bytes_getD (v : Int) :
    (int32Bytes v).getD 0 0 = (v % 2 ^ 32).toNat % 256
      ∧ (int32Bytes v).getD 1 0 = (v % 2 ^ 32).toNat / 2 ^ 8 % 256
      ∧ (int32Bytes v).getD 2 0 = (v % 2 ^ 32).toNat / 2 ^ 16 % 256
      ∧ (int32Bytes v).getD 3 0 = (v % 2 ^ 32).toNat / 2 ^ 24 % 256 :=
  ⟨rfl, rfl, rfl, rfl⟩

/-- The word read back from the `k`-th integer of a location frame. -/
theorem location_word (v0 v1 v2 : Int) (k : Nat) (hk : k < 3) :
    getBitsUnsigned (pointOneFrame (0xE0, 0x04) (int32Bytes v0 ++ int32Bytes v1 ++ int32Bytes v2))
        (8 * (6 + 4 * k)) 32
      = byteSwap32 (([v0, v1, v2].getD k 0 % 2 ^ 32).toNat) := by
  rw [getBitsUnsigned_word, pointOneFrame_eq]
  have hk' : k = 0 ∨ k = 1 ∨ k = 2 := by omega
  rcases hk' with h | h | h <;> subst h <;>
    simp only [int32Bytes, byteSwap32] <;>
    simp only [List.cons_append, List.nil_append, Nat.mul_zero, Nat.mul_one, Nat.add_zero,
      Nat.reduceMul, Nat.reduceAdd, List.getD_cons_succ, List.getD_cons_zero, Nat.mod_mod]

/-- The cast of line 116 truncates towards zero: the floor of a value that is
not negative, the ceiling of a negative one. -/
theorem toInt32_eq (x : ℚ) : toInt32 x = if 0 ≤ x then ⌊x⌋ else ⌈x⌉ := by
  unfold toInt32
  have hden : (0 : Int) ≤ (x.den : Int) := Int.ofNat_nonneg _
  split
  · rename_i h
    have hnum : 0 ≤ x.num := Rat.num_nonneg.mpr h
    rw [Int.tdiv_eq_ediv hnum hden, Rat.floor_def]
  · rename_i h
    have hnum : x.num < 0 := Rat.num_neg.mpr (not_le.mp h)
    have hc : ⌈x⌉ = -⌊-x⌋ := by rw [Int.floor_neg, neg_neg]
    rw [hc, Rat.floor_def, Rat.neg_num, Rat.neg_den]
    have e : x.num = -(-x.num) := by ring
    rw [e, Int.neg_tdiv, Int.tdiv_eq_ediv (by omega) hden, neg_neg]

theorem toInt32_intCast (n : Int) : toInt32 (n : ℚ) = n := by
  simp [toInt32]

/-! ### The `double` products -/

theorem roundHalfEven_eq (q : ℚ) (m : Int) (h1 : (m : ℚ) - 1 / 2 < q) (h2 : q < m + 1 / 2) :
    roundHalfEven q = m := by
  unfold roundHalfEven
  have hf1 : (⌊q⌋ : ℚ) ≤ q := Int.floor_le q
  have hf2 : q < ⌊q⌋ + 1 := Int.lt_floor_add_one q
  have c1 : m - 1 < ⌊q⌋ + 1 := by
    have : ((m - 1 : Int) : ℚ) < ((⌊q⌋ + 1 : Int) : ℚ) := by push_cast; linarith
    exact_mod_cast this
  have c2 : ⌊q⌋ < m + 1 := by
    have : ((⌊q⌋ : Int) : ℚ) < ((m + 1 : Int) : ℚ) := by push_cast; linarith
    exact_mod_cast this
  have hcase : ⌊q⌋ = m ∨ ⌊q⌋ = m - 1 := by omega
  rcases hcase with h | h
  · have hq : q - ⌊q⌋ < 1 / 2 := by rw [h]; linarith
    rw [if_pos hq, h]
  · have hq : 1 / 2 < q - ⌊q⌋ := by rw [h]; push_cast; linarith
    rw [if_neg (by linarith), if_pos hq, h]
    ring

theorem log_two_eq (x : ℚ) (n : Int) (hx : 0 < x) (h1 : (2 : ℚ) ^ n ≤ x)
    (h2 : x < (2 : ℚ) ^ (n + 1)) : Int.log 2 x = n := by
  have a : n ≤ Int.log 2 x :=
    (Int.zpow_le_iff_le_log (by norm_num) hx).mp (by exact_mod_cast h1)
  have b : Int.log 2 x < n + 1 :=
    (Int.lt_zpow_iff_log_lt (by norm_num) hx).mp (by exact_mod_cast h2)
  omega

/-- The rounding computed: `x` lies in the binade of `2 ^ (e + 52)` and `m` is
the integer that `x / 2 ^ e` is rounded to. -/
theorem roundToDouble_eq (x : ℚ) (e m : Int) (he : -1074 ≤ e)
    (h1 : (2 : ℚ) ^ (e + 52) ≤ |x|) (h2 : |x| < (2 : ℚ) ^ (e + 52 + 1))
    (hm : roundHalfEven (x / 2 ^ e) = m) :
    roundToDouble x = (m : ℚ) * 2 ^ e := by
  have hpos : 0 < |x| := lt_of_lt_of_le (by positivity) h1
  have hx : x ≠ 0 := abs_pos.mp hpos
  have hl := log_two_eq |x| (e + 52) hpos h1 h2
  unfold roundToDouble
  rw [if_neg hx]
  simp only [hl]
  have : max (e + 52 - 52) (-1074) = e := by omega
  rw [this, hm]

theorem mulDouble_zero (y : ℚ) : mulDouble 0 y = 0 := by
  simp [mulDouble, roundToDouble]

/-- The product for the default latitude is exactly 373900000. -/
theorem mulDouble_FLAGS_lat : mulDouble FLAGS_lat 10000000 = 373900000 := by
  unfold mulDouble FLAGS_lat
  rw [roundToDouble_eq _ (-24) 6273001062400000 (by norm_num)
    (by rw [abs_of_pos (by norm_num)]; norm_num) (by rw [abs_of_pos (by norm_num)]; norm_num)
    (roundHalfEven_eq _ _ (by norm_num) (by norm_num))]
  norm_num

/-- The product for the default longitude is exactly -1221500000. -/
theorem mulDouble_FLAGS_lon : mulDouble FLAGS_lon 10000000 = -1221500000 := by
  unfold mulDouble FLAGS_lon
  rw [roundToDouble_eq _ (-22) (-5123342336000000) (by norm_num)
    (by rw [abs_of_neg (by norm_num)]; norm_num) (by rw [abs_of_neg (by norm_num)]; norm_num)
    (roundHalfEven_eq _ _ (by norm_num) (by norm_num))]
  norm_num

/-- C11 (the claim fails): for the default latitude 37.39 the integer written is
373900000 = `0x164942E0`, stored as `E0 42 49 16`; the 32 bits read back at
offset 48 are `0xE0424916`. -/
theorem location_round_trip_fails :
    getBitsUnsigned (pointOneFrame (0xE0, 0x04) (locationPayload FLAGS_lat FLAGS_lon))
        (8 * (6 + 4 * 0)) 32 = 0xE0424916
      ∧ ((toInt32 (mulDouble FLAGS_lat 10000000)) % 2 ^ 32).toNat = 0x164942E0
      ∧ getBitsUnsigned
          (pointOneFrame (0xE0, 0x04) (locationPayload FLAGS_lat FLAGS_lon))
          (8 * (6 + 4 * 0)) 32
        ≠ ((toInt32 (mulDouble FLAGS_lat 10000000)) % 2 ^ 32).toNat := by
  have h1 : toInt32 (mulDouble FLAGS_lat 10000000) = 373900000 := by
    rw [mulDouble_FLAGS_lat]
    exact toInt32_intCast 373900000
  have hw := location_word (toInt32 (mulDouble FLAGS_lat 10000000))
    (toInt32 (mulDouble FLAGS_lon 10000000)) (toInt32 (mulDouble 0 10000000)) 0 (by norm_num)
  have hv : getBitsUnsigned
      (pointOneFrame (0xE0, 0x04) (locationPayload FLAGS_lat FLAGS_lon))
      (8 * (6 + 4 * 0)) 32 = 0xE0424916 := by
    unfold locationPayload
    rw [hw]
    simp only [List.getD_cons_zero, h1]
    decide
  refine ⟨hv, by rw [h1]; decide, ?_⟩
  rw [hv, h1]
  decide

/-- The reversed pattern is the pattern itself exactly for a pattern that
reads the same in both byte orders. -/
theorem byteSwap32_eq_self (u : Nat) (hu : u < 2 ^ 32) :
    byteSwap32 u = u ↔ u % 256 = u / 2 ^ 24 % 256 ∧ u / 2 ^ 8 % 256 = u / 2 ^ 16 % 256 := by
  unfold byteSwap32
  have hdec : u = u % 256 + 256 * (u / 2 ^ 8 % 256) + 65536 * (u / 2 ^ 16 % 256)
      + 16777216 * (u / 2 ^ 24 % 256) := by
    norm_num at hu ⊢
    omega
  generalize u % 256 = b0 at *
  generalize u / 2 ^ 8 % 256 = b1 at *
  generalize u / 2 ^ 16 % 256 = b2 at *
  generalize u / 2 ^ 24 % 256 = b3 at *
  norm_num
  omega

theorem int32_pattern_lt (v : Int) : (v % 2 ^ 32).toNat < 2 ^ 32 := by
  have h1 : 0 ≤ v % 2 ^ 32 := Int.emod_nonneg _ (by norm_num)
  have h2 : v % 2 ^ 32 < 2 ^ 32 := Int.emod_lt_of_pos _ (by norm_num)
  omega

/-- C11, amended: the 32 bits read back at offset `8 * (6 + 4 * k)` of a location
frame are the bit pattern of the `k`-th integer with its four bytes in reverse
order; that is the pattern itself exactly when the pattern reads the same in
both byte orders.  The frame `connectToStation` sends is such a frame. -/
theorem location_round_trip_swapped (v0 v1 v2 : Int) (latDeg lonDeg : ℚ) :
    getBitsUnsigned
        (pointOneFrame (0xE0, 0x04) (int32Bytes v0 ++ int32Bytes v1 ++ int32Bytes v2))
        (8 * (6 + 4 * 0)) 32 = byteSwap32 ((v0 % 2 ^ 32).toNat)
      ∧ getBitsUnsigned
          (pointOneFrame (0xE0, 0x04) (int32Bytes v0 ++ int32Bytes v1 ++ int32Bytes v2))
          (8 * (6 + 4 * 1)) 32 = byteSwap32 ((v1 % 2 ^ 32).toNat)
      ∧ getBitsUnsigned
          (pointOneFrame (0xE0, 0x04) (int32Bytes v0 ++ int32Bytes v1 ++ int32Bytes v2))
          (8 * (6 + 4 * 2)) 32 = byteSwap32 ((v2 % 2 ^ 32).toNat)
      ∧ (byteSwap32 ((v0 % 2 ^ 32).toNat) = (v0 % 2 ^ 32).toNat
          ↔ (v0 % 2 ^ 32).toNat % 256 = (v0 % 2 ^ 32).toNat / 2 ^ 24 % 256
            ∧ (v0 % 2 ^ 32).toNat / 2 ^ 8 % 256 = (v0 % 2 ^ 32).toNat / 2 ^ 16 % 256)
      ∧ locationPayload latDeg lonDeg
          = int32Bytes (toInt32 (mulDouble latDeg 10000000))
            ++ int32Bytes (toInt32 (mulDouble lonDeg 10000000))
            ++ int32Bytes (toInt32 (mulDouble 0 10000000)) :=
  ⟨location_word v0 v1 v2 0 (by norm_num), location_word v0 v1 v2 1 (by norm_num),
    location_word v0 v1 v2 2 (by norm_num),
    byteSwap32_eq_self _ (int32_pattern_lt v0), rfl⟩

theorem int32OfBytes_int32Bytes (v : Int) (h1 : -2 ^ 31 ≤ v) (h2 : v < 2 ^ 31) :
    int32OfBytes (int32Bytes v) = v := by
  have hlt := int32_pattern_lt v
  have hu : ((v % 2 ^ 32).toNat : Int) = v % 2 ^ 32 :=
    Int.toNat_of_nonneg (Int.emod_nonneg _ (by norm_num))
  unfold int32OfBytes int32Bytes
  simp only [List.getD_cons_zero, List.getD_cons_succ]
  generalize (v % 2 ^ 32).toNat = u at *
  have hsum : u % 256 + 2 ^ 8 * (u / 2 ^ 8 % 256) + 2 ^ 16 * (u / 2 ^ 16 % 256)
      + 2 ^ 24 * (u / 2 ^ 24 % 256) = u := by
    norm_num at hlt ⊢
    omega
  rw [hsum]
  norm_num at h1 h2 hlt hu ⊢
  split <;> omega

theorem isBytes_int32Bytes (v : Int) : isBytes (int32Bytes v) := by
  intro x hx
  simp only [int32Bytes, List.mem_cons, List.mem_singleton, List.not_mem_nil, or_false] at hx
  rcases hx with h | h | h | h <;> rw [h] <;> exact Nat.mod_lt _ (by norm_num)

theorem toInt32_range (x : ℚ) (h1 : -2 ^ 31 ≤ x) (h2 : x < 2 ^ 31) :
    -2 ^ 31 ≤ toInt32 x ∧ toInt32 x < 2 ^ 31 := by
  rw [toInt32_eq]
  split
  · rename_i h
    constructor
    · have : (0 : Int) ≤ ⌊x⌋ := Int.floor_nonneg.mpr h
      omega
    · exact Int.floor_lt.mpr (by exact_mod_cast h2)
  · rename_i h
    constructor
    · have hle : ((-2 ^ 31 : Int) : ℚ) ≤ x := by exact_mod_cast h1
      have := Int.le_ceil x
      have h3 : ((-2 ^ 31 : Int) : ℚ) ≤ ((⌈x⌉ : Int) : ℚ) := le_trans hle this
      exact_mod_cast h3
    · have : ⌈x⌉ ≤ 0 := Int.ceil_le.mpr (by exact_mod_cast le_of_lt (not_le.mp h))
      omega

/-- C14 (the claim fails): the latitude `2 ^ -24` degrees is a `double`, and its
product with 1e7 is the `double` 0.59604644775390625 exactly, which rounds to
1; the payload holds 0. -/
theorem location_payload_not_rounded :
    mulDouble (1 / 16777216) 10000000 = (1 / 16777216 : ℚ) * 10000000
      ∧ round ((1 / 16777216 : ℚ) * 10000000) = 1
      ∧ int32OfBytes ((locationPayload (1 / 16777216) 0).take 4) = 0
      ∧ locationPayload (1 / 16777216) 0
        ≠ int32Bytes (round ((1 / 16777216 : ℚ) * 10000000))
          ++ int32Bytes (round ((0 : ℚ) * 10000000)) ++ int32Bytes 0 := by
  have e : (1 / 16777216 : ℚ) * 10000000 = 78125 / 131072 := by norm_num
  have hm : mulDouble (1 / 16777216) 10000000 = 78125 / 131072 := by
    unfold mulDouble
    rw [e, roundToDouble_eq _ (-53) 5368709120000000 (by norm_num)
      (by rw [abs_of_pos (by norm_num)]; norm_num) (by rw [abs_of_pos (by norm_num)]; norm_num)
      (roundHalfEven_eq _ _ (by norm_num) (by norm_num))]
    norm_num
  have hr : round ((1 / 16777216 : ℚ) * 10000000) = 1 := by
    rw [e]; norm_num [round_eq]
  have ht : toInt32 (mulDouble (1 / 16777216) 10000000) = 0 := by
    rw [hm, toInt32_eq, if_pos (by norm_num)]
    rw [Int.floor_eq_iff]
    norm_num
  have hz : toInt32 (mulDouble 0 10000000) = 0 := by
    rw [mulDouble_zero]; exact toInt32_intCast 0
  have hp : locationPayload (1 / 16777216) 0 = [0, 0, 0, 0, 0, 0, 0, 0, 0, 0, 0, 0] := by
    unfold locationPayload
    rw [ht, hz]
    decide
  refine ⟨by rw [hm, e], hr, by rw [hp]; decide, ?_⟩
  rw [hp, hr]
  decide

/-- The `double` nearest to 0.41, times 1e7, is the `double` just below
4100000. -/
theorem mulDouble_041 :
    mulDouble (7385903388887613 / 18014398509481984) 10000000
      = 8804682956799999 / 2147483648 := by
  unfold mulDouble
  rw [roundToDouble_eq _ (-31) 8804682956799999 (by norm_num)
    (by rw [abs_of_pos (by norm_num)]; norm_num) (by rw [abs_of_pos (by norm_num)]; norm_num)
    (roundHalfEven_eq _ _ (by norm_num) (by norm_num))]
  norm_num

/-- The `double` nearest to 0.03, times 1e7, is the `double` 300000, above the
exact product. -/
theorem mulDouble_003 :
    mulDouble (1080863910568919 / 36028797018963968) 10000000 = 300000 := by
  unfold mulDouble
  rw [roundToDouble_eq _ (-34) 5153960755200000 (by norm_num)
    (by rw [abs_of_pos (by norm_num)]; norm_num) (by rw [abs_of_pos (by norm_num)]; norm_num)
    (roundHalfEven_eq _ _ (by norm_num) (by norm_num))]
  norm_num

theorem locationPayload_take (latDeg lonDeg : ℚ) :
    (locationPayload latDeg lonDeg).take 4 = int32Bytes (toInt32 (mulDouble latDeg 10000000)) := by
  simp [locationPayload, int32Bytes]

/-- C14, amended: for a latitude and a longitude whose `double` products with
1e7 lie within the `int32` range, the payload of the location frame is 12
bytes: the little-endian signed 32-bit integers that are the two `double`
products (the exact product rounded to the nearest `double`) truncated towards
zero (the floor of a value that is not negative, the ceiling of a negative
one), and 0.  So the `double` nearest to 0.41 sends 4099999, and the `double`
nearest to 0.03 sends 300000, where its exact product has the integer part
299999. -/
theorem location_payload_truncated (latDeg lonDeg : ℚ)
    (hlat1 : -2 ^ 31 ≤ mulDouble latDeg 10000000) (hlat2 : mulDouble latDeg 10000000 < 2 ^ 31)
    (hlon1 : -2 ^ 31 ≤ mulDouble lonDeg 10000000) (hlon2 : mulDouble lonDeg 10000000 < 2 ^ 31) :
    (locationPayload latDeg lonDeg).length = 12
      ∧ isBytes (locationPayload latDeg lonDeg)
      ∧ int32OfBytes ((locationPayload latDeg lonDeg).take 4)
          = (if 0 ≤ mulDouble latDeg 10000000 then ⌊mulDouble latDeg 10000000⌋
              else ⌈mulDouble latDeg 10000000⌉)
      ∧ int32OfBytes (((locationPayload latDeg lonDeg).drop 4).take 4)
          = (if 0 ≤ mulDouble lonDeg 10000000 then ⌊mulDouble lonDeg 10000000⌋
              else ⌈mulDouble lonDeg 10000000⌉)
      ∧ int32OfBytes ((locationPayload latDeg lonDeg).drop 8) = 0
      ∧ int32OfBytes ((locationPayload (7385903388887613 / 18014398509481984) 0).take 4)
          = 4099999
      ∧ int32OfBytes ((locationPayload (1080863910568919 / 36028797018963968) 0).take 4)
          = 300000
      ∧ ⌊(1080863910568919 / 36028797018963968 : ℚ) * 10000000⌋ = 299999 := by
  have hz : toInt32 (mulDouble 0 10000000) = 0 := by
    rw [mulDouble_zero]; exact toInt32_intCast 0
  have r1 := toInt32_range _ hlat1 hlat2
  have r2 := toInt32_range _ hlon1 hlon2
  have t1 := locationPayload_take latDeg lonDeg
  have t2 : (((locationPayload latDeg lonDeg).drop 4).take 4)
      = int32Bytes (toInt32 (mulDouble lonDeg 10000000)) := by
    simp [locationPayload, int32Bytes]
  have t3 : ((locationPayload latDeg lonDeg).drop 8)
      = int32Bytes (toInt32 (mulDouble 0 10000000)) := by
    simp [locationPayload, int32Bytes]
  have v1 : toInt32 (8804682956799999 / 2147483648 : ℚ) = 4099999 := by
    rw [toInt32_eq, if_pos (by norm_num), Int.floor_eq_iff]
    norm_num
  have v2 : toInt32 (300000 : ℚ) = 300000 := toInt32_intCast 300000
  refine ⟨by simp [locationPayload, int32Bytes], ?_, ?_, ?_, ?_, ?_, ?_, ?_⟩
  · intro x hx
    simp only [locationPayload, List.mem_append] at hx
    rcases hx with (hx | hx) | hx
    · exact isBytes_int32Bytes _ x hx
    · exact isBytes_int32Bytes _ x hx
    · exact isBytes_int32Bytes _ x hx
  · rw [t1, int32OfBytes_int32Bytes _ r1.1 r1.2, toInt32_eq]
  · rw [t2, int32OfBytes_int32Bytes _ r2.1 r2.2, toInt32_eq]
  · rw [t3, hz]
    decide
  · rw [locationPayload_take, mulDouble_041, v1]
    decide
  · rw [locationPayload_take, mulDouble_003, v2]
    decide
  · rw [Int.floor_eq_iff]
    norm_num

/-- Witness of C14, amended: the default coordinates 37.39 and -122.15. -/
theorem location_payload_truncated_witness :
    (locationPayload FLAGS_lat FLAGS_lon).length = 12
      ∧ isBytes (locationPayload FLAGS_lat FLAGS_lon)
      ∧ int32OfBytes ((locationPayload FLAGS_lat FLAGS_lon).take 4)
          = (if 0 ≤ mulDouble FLAGS_lat 10000000 then ⌊mulDouble FLAGS_lat 10000000⌋
              else ⌈mulDouble FLAGS_lat 10000000⌉)
      ∧ int32OfBytes (((locationPayload FLAGS_lat FLAGS_lon).drop 4).take 4)
          = (if 0 ≤ mulDouble FLAGS_lon 10000000 then ⌊mulDouble FLAGS_lon 10000000⌋
              else ⌈mulDouble FLAGS_lon 10000000⌉)
      ∧ int32OfBytes ((locationPayload FLAGS_lat FLAGS_lon).drop 8) = 0
      ∧ int32OfBytes ((locationPayload (7385903388887613 / 18014398509481984) 0).take 4)
          = 4099999
      ∧ int32OfBytes ((locationPayload (1080863910568919 / 36028797018963968) 0).take 4)
          = 300000
      ∧ ⌊(1080863910568919 / 36028797018963968 : ℚ) * 10000000⌋ = 299999 :=
  location_payload_truncated FLAGS_lat FLAGS_lon
    (by rw [mulDouble_FLAGS_lat]; norm_num) (by rw [mulDouble_FLAGS_lat]; norm_num)
    (by rw [mulDouble_FLAGS_lon]; norm_num) (by rw [mulDouble_FLAGS_lon]; norm_num)

/-! ## The handshake -/

/-- When every `write` accepts at least one byte, the loop of `sendBuffer`
sends the rest of the buffer, however short the writes are. -/
theorem sendLoop_complete (buffer : Buffer) (fuel : Nat) :
    ∀ (offset : Nat) (w : Sender), writesAccept w → offset < buffer.length →
      buffer.length - offset ≤ fuel →
      ∃ w', sendLoop buffer fuel offset w = Outcome.returned (true, w')
        ∧ w'.sent = w.sent ++ buffer.drop offset ∧ writesAccept w' := by
  induction fuel with
  | zero => intro offset w _ h1 h2; omega
  | succ fuel ih =>
    intro offset w hw hoff hfuel
    have hdl : (buffer.drop offset).length = buffer.length - offset := List.length_drop _ _
    match hws : w.writes with
    | [] =>
      have hwr : write w (buffer.drop offset)
          = ((((buffer.drop offset).length : Nat) : Int),
              ({ writes := [], sent := w.sent ++ buffer.drop offset } : Sender)) := by
        simp [write, hws]
      refine ⟨{ writes := [], sent := w.sent ++ buffer.drop offset }, ?_, rfl, ?_⟩
      · have hpos : (0 : Int) < ((buffer.drop offset).length : Nat) := by
          rw [hdl]; omega
        have h1 : ¬ (((buffer.drop offset).length : Nat) : Int) < 0 := by omega
        have h2 : ¬ (((buffer.drop offset).length : Nat) : Int) = 0 := by omega
        have h3 : ¬ (offset + (buffer.drop offset).length < buffer.length) := by
          rw [hdl]; omega
        simp only [sendLoop, hwr, gt_iff_lt, hpos, not_true_eq_false, ↓reduceIte, h1, h2,
          Int.toNat_ofNat, h3]
      · intro x hx; simp at hx
    | none :: rest =>
      obtain ⟨k, hk, _⟩ := hw none (by rw [hws]; simp)
      simp at hk
    | some k :: rest =>
      obtain ⟨k', hk', hk1⟩ := hw (some k) (by rw [hws]; simp)
      have hkk : k' = k := by simpa using hk'.symm
      subst hkk
      have hrest : writesAccept { writes := rest, sent := w.sent ++ (buffer.drop offset).take k' } := by
        intro x hx
        exact hw x (by rw [hws]; exact List.mem_cons_of_mem _ hx)
      have hwr : write w (buffer.drop offset)
          = (((((buffer.drop offset).take k').length : Nat) : Int),
              ({ writes := rest, sent := w.sent ++ (buffer.drop offset).take k' } : Sender)) := by
        simp [write, hws]
      have htl : ((buffer.drop offset).take k').length = min k' (buffer.length - offset) := by
        rw [List.length_take, hdl]
      have hpos : (0 : Int) < (((buffer.drop offset).take k').length : Nat) := by
        rw [htl]; omega
      have h1 : ¬ ((((buffer.drop offset).take k').length : Nat) : Int) < 0 := by omega
      have h2 : ¬ ((((buffer.drop offset).take k').length : Nat) : Int) = 0 := by omega
      by_cases hmore : offset + ((buffer.drop offset).take k').length < buffer.length
      · obtain ⟨w', e1, e2, e3⟩ := ih (offset + ((buffer.drop offset).take k').length) _ hrest
          hmore (by rw [htl] at hmore ⊢; omega)
        refine ⟨w', ?_, ?_, e3⟩
        · simp only [sendLoop, hwr, gt_iff_lt, hpos, not_true_eq_false, ↓reduceIte, h1, h2,
            Int.toNat_ofNat, hmore]
          exact e1
        · rw [e2]
          simp only []
          rw [List.append_assoc]
          congr 1
          have hk'' : ((buffer.drop offset).take k').length = k' := by
            rw [htl] at hmore ⊢; omega
          rw [hk'', ← List.drop_drop, List.take_append_drop]
      · refine ⟨_, ?_, ?_, hrest⟩
        · simp only [sendLoop, hwr, gt_iff_lt, hpos, not_true_eq_false, ↓reduceIte, h1, h2,
            Int.toNat_ofNat, hmore]
        · simp only []
          congr 1
          exact List.take_of_length_le (by rw [htl] at hmore; rw [hdl]; omega)

theorem sendBuffer_complete (w : Sender) (buffer : Buffer) (hw : writesAccept w)
    (hne : buffer ≠ []) :
    ∃ w', sendBuffer w buffer = Outcome.returned (true, w')
      ∧ w'.sent = w.sent ++ buffer ∧ writesAccept w' := by
  have hl : 0 < buffer.length := List.length_pos.mpr hne
  obtain ⟨w', h1, h2, h3⟩ := sendLoop_complete buffer (buffer.length + 1) 0 w hw hl (by omega)
  exact ⟨w', h1, by simpa using h2, h3⟩

theorem getRequest_text (stationId : Buffer) :
    getRequest stationId
      = ascii "GET /" ++ stationId
        ++ ascii (" HTTP/1.0\r\n\r\nUser-Agent: NTRIP\r\nContent-Type: text/event-stream\r\n"
          ++ "Connection: keep-alive\r\n\r\n") := by
  have h : ascii (" HTTP/1.0\r\n\r\nUser-Agent: NTRIP\r\nContent-Type: text/event-stream\r\n"
        ++ "Connection: keep-alive\r\n\r\n")
      = ascii " HTTP/1.0\r\n" ++ ascii "\r\n" ++ ascii "User-Agent: NTRIP\r\n"
        ++ ascii "Content-Type: text/event-stream\r\n" ++ ascii "Connection: keep-alive\r\n"
        ++ ascii "\r\n" := by decide
  rw [h]
  simp only [getRequest, List.append_assoc]

/-- C13: when the socket is set up and every `write` accepts at least one byte
(possibly fewer than offered), the handshake returns `true` and the bytes sent,
which are all the bytes `connectToStation` sends, are the request text with the
station id, then the frame `E0 01` of the token, then the frame `E0 04` of the
12-byte location payload, a frame of 20 bytes with length byte `0x0C`. -/
theorem handshake_bytes {σ : Type} (net : Net) (stationId stationToken : Buffer)
    (latDeg lonDeg : ℚ) (block : Option (MessageReceived σ)) (st0 : σ)
    (hsock : net.socketOK = true) (hopt : net.setsockoptOK = true)
    (hhost : net.gethostbynameOK = true) (hconn : net.connectOK = true)
    (hw : writesAccept net.sender) (hfresh : net.sender.sent = []) :
    (∃ w, handshake net stationId stationToken latDeg lonDeg = Outcome.returned (true, w)
        ∧ w.sent = ascii "GET /" ++ stationId
            ++ ascii (" HTTP/1.0\r\n\r\nUser-Agent: NTRIP\r\nContent-Type: text/event-stream\r\n"
              ++ "Connection: keep-alive\r\n\r\n")
            ++ pointOneFrame (0xE0, 0x01) stationToken
            ++ pointOneFrame (0xE0, 0x04) (locationPayload latDeg lonDeg))
      ∧ (∃ r, connectToStation net stationId stationToken latDeg lonDeg block st0
            = Outcome.returned r
          ∧ r.sent = ascii "GET /" ++ stationId
            ++ ascii (" HTTP/1.0\r\n\r\nUser-Agent: NTRIP\r\nContent-Type: text/event-stream\r\n"
              ++ "Connection: keep-alive\r\n\r\n")
            ++ pointOneFrame (0xE0, 0x01) stationToken
            ++ pointOneFrame (0xE0, 0x04) (locationPayload latDeg lonDeg))
      ∧ (locationPayload latDeg lonDeg).length = 12
      ∧ (pointOneFrame (0xE0, 0x04) (locationPayload latDeg lonDeg)).length = 20
      ∧ (pointOneFrame (0xE0, 0x04) (locationPayload latDeg lonDeg)).getD 4 0 = 0x0C := by
  obtain ⟨w1, a1, b1, c1⟩ := sendBuffer_complete net.sender (getRequest stationId) hw
    (getRequest_ne_nil stationId)
  obtain ⟨w2, a2, b2, c2⟩ := sendBuffer_complete w1 (pointOneFrame (0xE0, 0x01) stationToken) c1
    (pointOneFrame_ne_nil _ _)
  obtain ⟨w3, a3, b3, _⟩ := sendBuffer_complete w2
    (pointOneFrame (0xE0, 0x04) (locationPayload latDeg lonDeg)) c2 (pointOneFrame_ne_nil _ _)
  have hs : handshake net stationId stationToken latDeg lonDeg = Outcome.returned (true, w3) := by
    simp [handshake, hsock, hopt, hhost, hconn, sendStep, a1, a2, a3]
  have hsent : w3.sent = ascii "GET /" ++ stationId
      ++ ascii (" HTTP/1.0\r\n\r\nUser-Agent: NTRIP\r\nContent-Type: text/event-stream\r\n"
        ++ "Connection: keep-alive\r\n\r\n")
      ++ pointOneFrame (0xE0, 0x01) stationToken
      ++ pointOneFrame (0xE0, 0x04) (locationPayload latDeg lonDeg) := by
    rw [b3, b2, b1, hfresh, getRequest_text, List.nil_append]
  have hlen : (locationPayload latDeg lonDeg).length = 12 := by
    simp [locationPayload, int32Bytes]
  refine ⟨⟨w3, hs, hsent⟩, ?_, hlen, ?_, ?_⟩
  · obtain ⟨r, hr, _⟩ := runLoop_returns block (startState true net.conn st0)
    exact ⟨_, connectToStation_loop net stationId stationToken latDeg lonDeg block st0 w3 r
      hs hr, hsent⟩
  · rw [pointOneFrame_eq]
    simp [hlen]
  · rw [(pointOneFrame_length_field 0xE0 0x04 _).1, hlen]

/-- Witness of C13: writes that accept 1, 3 and 1000 bytes, then everything. -/
theorem handshake_bytes_witness :
    (∃ w, handshake
          { socketOK := true, setsockoptOK := true, gethostbynameOK := true, connectOK := true,
            sender := { writes := [some 1, some 3, some 1000], sent := [] }, conn := [] }
          [0x61] [0x62] 0 0 = Outcome.returned (true, w)
        ∧ w.sent = ascii "GET /" ++ [0x61]
            ++ ascii (" HTTP/1.0\r\n\r\nUser-Agent: NTRIP\r\nContent-Type: text/event-stream\r\n"
              ++ "Connection: keep-alive\r\n\r\n")
            ++ pointOneFrame (0xE0, 0x01) [0x62]
            ++ pointOneFrame (0xE0, 0x04) (locationPayload 0 0)) :=
  (handshake_bytes
    { socketOK := true, setsockoptOK := true, gethostbynameOK := true, connectOK := true,
      sender := { writes := [some 1, some 3, some 1000], sent := [] }, conn := [] }
    [0x61] [0x62] 0 0 (none : Option (MessageReceived Unit)) () rfl rfl rfl rfl
    (by intro x hx
        simp only [List.mem_cons, List.mem_singleton, List.not_mem_nil, or_false] at hx
        rcases hx with h | h | h
        · exact ⟨1, h, by norm_num⟩
        · exact ⟨3, h, by norm_num⟩
        · exact ⟨1000, h, by norm_num⟩)
    rfl).1

/-! ## Old bytes in the message buffer -/

theorem replicate_ne_nil (n a : Nat) (h : 0 < n) : List.replicate n a ≠ [] := by
  intro e
  have := congrArg List.length e
  rw [List.length_replicate] at this
  simp at this
  omega

theorem read_first (x y : Nat) (l : Buffer) (rest : Conn) :
    read (Arrival.bytes (x :: y :: l) :: rest) 1 = (1, [x], Arrival.bytes (y :: l) :: rest) := by
  simp [read]

theorem read_two (y z : Nat) (l : Buffer) (rest : Conn) (h : l ≠ []) :
    read (Arrival.bytes (y :: z :: l) :: rest) 2 = (2, [y, z], Arrival.bytes l :: rest) := by
  simp [read, h]

theorem read_all (l : Buffer) (rest : Conn) :
    read (Arrival.bytes l :: rest) l.length = (((l.length : Nat) : Int), l, rest) := by
  simp [read]

theorem read_replicate (n k a : Nat) (h : k < n) (rest : Conn) :
    read (Arrival.bytes (List.replicate n a) :: rest) k
      = (((k : Nat) : Int), List.replicate k a, Arrival.bytes (List.replicate (n - k) a) :: rest) := by
  have hne : List.replicate (n - k) a ≠ [] := replicate_ne_nil _ _ (by omega)
  have hmin : min k n = k := by omega
  simp only [read, List.take_replicate, List.drop_replicate, List.length_replicate, hmin, hne,
    ↓reduceIte]

/-- C15 (the code at the failing input): the same stream, `D3 00 01` and 260
bytes `55`, read in full, from two contents of the buffer.  On the zeroed
buffer the decoded length is 1 and the handler gets 7 bytes; on the buffer the
message `D3 00 01 01 AA BB CC` left, whose byte 3 is `01`, the decoded length
is 257 and the handler gets 263 bytes. -/
theorem stale_byte_changes_iteration :
    (iteration (some keepGoing)
        { isOK := true, isStop := false, messageBuffer := List.replicate BUFFER_SIZE 0,
          conn := [Arrival.bytes (0xD3 :: 0x00 :: 0x01 :: List.replicate 260 0x55)],
          handlerState := (), trace := [] }).trace
        = [Event.read 1 1, Event.read 2 2, Event.read 4 4,
           Event.call 1 (0xD3 :: 0x00 :: 0x01 :: List.replicate 4 0x55) false]
      ∧ (iteration (some keepGoing)
          { isOK := true, isStop := false,
            messageBuffer := [0xD3, 0x00, 0x01, 0x01, 0xAA, 0xBB, 0xCC],
            conn := [Arrival.bytes (0xD3 :: 0x00 :: 0x01 :: List.replicate 260 0x55)],
            handlerState := (), trace := [] }).trace
        = [Event.read 1 1, Event.read 2 2, Event.read 260 260,
           Event.call 257 (0xD3 :: 0x00 :: 0x01 :: List.replicate 260 0x55) false] := by
  have hne : List.replicate 260 0x55 ≠ [] := replicate_ne_nil _ _ (by norm_num)
  have e1 : read [Arrival.bytes (0xD3 :: 0x00 :: 0x01 :: List.replicate 260 0x55)] 1
      = (1, [0xD3], [Arrival.bytes (0x00 :: 0x01 :: List.replicate 260 0x55)]) :=
    read_first _ _ _ _
  have e2 : read [Arrival.bytes (0x00 :: 0x01 :: List.replicate 260 0x55)] 2
      = (2, [0x00, 0x01], [Arrival.bytes (List.replicate 260 0x55)]) :=
    read_two _ _ _ _ hne
  have e3 : read [Arrival.bytes (List.replicate 260 0x55)] 4
      = (4, List.replicate 4 0x55, [Arrival.bytes (List.replicate 256 0x55)]) :=
    read_replicate 260 4 0x55 (by norm_num) []
  have e4 : read [Arrival.bytes (List.replicate 260 0x55)] 260
      = (260, List.replicate 260 0x55, []) := by
    have h := read_all (List.replicate 260 0x55) []
    rw [List.length_replicate] at h
    exact h
  have d1 : decodedLength (List.replicate BUFFER_SIZE 0) 0x01 = 1 := by
    rw [decodedLength_fresh]
  have d2 : decodedLength [0xD3, 0x00, 0x01, 0x01, 0xAA, 0xBB, 0xCC] 0x01 = 257 := by decide
  constructor
  · have hit := iteration_dispatch keepGoing
      { isOK := true, isStop := false, messageBuffer := List.replicate BUFFER_SIZE 0,
        conn := [Arrival.bytes (0xD3 :: 0x00 :: 0x01 :: List.replicate 260 0x55)],
        handlerState := (), trace := [] } 0xD3 0x00 0x01 _ _ e1 (by decide) e2
      (by simp only []; rw [d1]; norm_num)
      (by simp only []; rw [d1, e3]; decide)
    simp only [] at hit
    rw [d1, e3] at hit
    simp only [] at hit
    rw [dispatched_full _ _ _ _ _ (by rw [d1, List.length_replicate])] at hit
    rw [hit]
    rfl
  · have hit := iteration_dispatch keepGoing
      { isOK := true, isStop := false,
        messageBuffer := [0xD3, 0x00, 0x01, 0x01, 0xAA, 0xBB, 0xCC],
        conn := [Arrival.bytes (0xD3 :: 0x00 :: 0x01 :: List.replicate 260 0x55)],
        handlerState := (), trace := [] } 0xD3 0x00 0x01 _ _ e1 (by decide) e2
      (by simp only []; rw [d2]; norm_num)
      (by simp only []; rw [d2, e4]; decide)
    simp only [] at hit
    rw [d2, e4] at hit
    simp only [] at hit
    rw [dispatched_full _ _ _ _ _ (by rw [d2, List.length_replicate])] at hit
    rw [hit]
    rfl

/-! ## The trailer -/

theorem agreeOutside_refl (p : Nat) (a : Buffer) : agreeOutside p a a := fun _ _ => rfl

theorem sameDecision_refl (p : Nat) (e : Event) : sameDecision p e e := by
  cases e with
  | read c r => exact ⟨rfl, rfl⟩
  | call n m s => exact ⟨rfl, rfl, rfl, agreeOutside_refl p m⟩

theorem sameDecisions_refl (p : Nat) (t : List Event) :
    List.Forall₂ (sameDecision p) t t := by
  induction t with
  | nil => exact List.Forall₂.nil
  | cons e t ih => exact List.Forall₂.cons (sameDecision_refl p e) ih

theorem sameDecisions_append (p : Nat) (t1 t2 reads : List Event)
    (h : List.Forall₂ (sameDecision p) t1 t2) :
    List.Forall₂ (sameDecision p) (t1 ++ reads) (t2 ++ reads) :=
  List.rel_append h (sameDecisions_refl p reads)

theorem getD_append_left (a b : Buffer) (i : Nat) (h : i < a.length) :
    (a ++ b).getD i 0 = a.getD i 0 := by
  simp only [List.getD_eq_getElem?_getD]
  rw [List.getElem?_append_left h]

theorem getD_append_right (a b : Buffer) (i : Nat) (h : a.length ≤ i) :
    (a ++ b).getD i 0 = b.getD (i - a.length) 0 := by
  simp only [List.getD_eq_getElem?_getD]
  rw [List.getElem?_append_right h]

theorem getD_drop (a : Buffer) (n i : Nat) : (a.drop n).getD i 0 = a.getD (n + i) 0 := by
  simp only [List.getD_eq_getElem?_getD, List.getElem?_drop]

theorem resize_getD_ge (v : Buffer) (n i : Nat) (h : n ≤ i) : (resize v n).getD i 0 = 0 := by
  rw [List.getD_eq_default _ _ (by rw [resize_length]; exact h)]

/-- The bytes of the message handed over, index by index. -/
theorem dispatched_getD (mb : Buffer) (x y z : Nat) (got : Buffer) (i : Nat) :
    (dispatched mb x y z got).getD (i + 3) 0
      = if i < got.length then got.getD i 0
        else if i < decodedLength mb z + 3 ∧ i + 3 < BUFFER_SIZE then mb.getD (i + 3) 0
        else 0 := by
  unfold dispatched
  simp only [List.getD_cons_succ]
  split
  · rename_i h
    exact getD_append_left _ _ _ h
  · rename_i h
    rw [getD_append_right _ _ _ (by omega), getD_drop]
    have e : got.length + (i - got.length) = i := by omega
    rw [e]
    split
    · rename_i h2
      rw [resize_getD _ _ _ h2.1, getD_drop, resize_getD _ _ _ (by omega)]
      congr 1
      omega
    · rename_i h2
      by_cases h3 : i < decodedLength mb z + 3
      · have h4 : BUFFER_SIZE ≤ 3 + i := by omega
        rw [resize_getD _ _ _ h3, getD_drop, resize_getD_ge _ _ _ h4]
      · exact resize_getD_ge _ _ _ (by omega)

theorem decodedLength_agree (p : Nat) (a b : Buffer) (z : Nat) (hp : 3 < p)
    (h : agreeOutside p a b) : decodedLength a z = decodedLength b z := by
  unfold decodedLength
  rw [h 3 (Or.inl hp)]

theorem dispatched_agree (p : Nat) (a b : Buffer) (x y z : Nat) (got : Buffer) (hp : 3 < p)
    (h : agreeOutside p a b) :
    agreeOutside p (dispatched a x y z got) (dispatched b x y z got) := by
  intro i hi
  have hd := decodedLength_agree p a b z hp h
  match i with
  | 0 => rfl
  | 1 => rfl
  | 2 => rfl
  | j + 3 =>
    rw [dispatched_getD, dispatched_getD, hd, h (j + 3) hi]

/-- One iteration keeps two runs at the same point. -/
theorem iteration_sameRun {σ : Type} (p : Nat) (rel : σ → σ → Prop)
    (block : Option (MessageReceived σ)) (hp : 3 < p)
    (hblock : ∀ f, block = some f → handlerIgnores p rel f)
    (s1 s2 : LoopState σ) (hok : s1.isOK = true) (h : sameRun p rel s1 s2) :
    sameRun p rel (iteration block s1) (iteration block s2) := by
  obtain ⟨_, hstop, htr, hrest⟩ := h
  obtain ⟨hconn, hbuf, hrel⟩ := hrest hok
  have hfail : ∀ reads : List Event,
      (iteration block s1).isOK = false → (iteration block s2).isOK = false →
      (iteration block s1).trace = s1.trace ++ reads →
      (iteration block s2).trace = s2.trace ++ reads →
      sameRun p rel (iteration block s1) (iteration block s2) := by
    intro reads a1 a2 t1 t2
    refine ⟨by rw [a1, a2], ?_, ?_, ?_⟩
    · rw [iteration_fail_isStop block s1 a1, iteration_fail_isStop block s2 a2, hstop]
    · rw [t1, t2]; exact sameDecisions_append p _ _ reads htr
    · intro hc; rw [a1] at hc; simp at hc
  by_cases h1 : (read s1.conn 1).1 = 1
  · obtain ⟨x, e1⟩ := read_one_eq s1.conn h1
    have e1' : read s2.conn 1 = (1, [x], (read s1.conn 1).2.2) := by rw [← hconn]; exact e1
    by_cases hx : x % 256 = 0xd3
    · by_cases h2 : (read (read s1.conn 1).2.2 2).1 = 2
      · obtain ⟨y, z, e2⟩ := read_two_eq _ h2
        have hd := decodedLength_agree p _ _ z hp hbuf
        by_cases hz : decodedLength s1.messageBuffer z = 0
        · have k1 := iteration_length_zero block s1 x y z _ _ e1 hx e2 hz
          have k2 := iteration_length_zero block s2 x y z _ _ e1' hx e2 (by rw [← hd]; exact hz)
          exact hfail _ k1.1 k2.1 k1.2.2.2 k2.2.2.2
        · have hpos : 0 < decodedLength s1.messageBuffer z := Nat.pos_of_ne_zero hz
          have hl := read_length_le (read (read s1.conn 1).2.2 2).2.2
            (decodedLength s1.messageBuffer z + 3)
          have b1 := iteration_body block s1 x y z _ _ e1 hx e2 hpos
          have b2 := iteration_body block s2 x y z _ _ e1' hx e2 (by rw [← hd]; exact hpos)
          rw [← hd] at b2
          by_cases h3 : toSizeT (read (read (read s1.conn 1).2.2 2).2.2
              (decodedLength s1.messageBuffer z + 3)).1 < decodedLength s1.messageBuffer z + 6
          · rw [if_pos h3] at b1 b2
            have hag := dispatched_agree p s1.messageBuffer s2.messageBuffer x y z
              (read (read (read s1.conn 1).2.2 2).2.2
                (decodedLength s1.messageBuffer z + 3)).2.1 hp hbuf
            have hlen1 := dispatched_length s1.messageBuffer x y z _ hl
            have hlen2 := dispatched_length s2.messageBuffer x y z
              (read (read (read s1.conn 1).2.2 2).2.2
                (decodedLength s1.messageBuffer z + 3)).2.1 (by rw [← hd]; exact hl)
            cases block with
            | none =>
              rw [b1, b2]
              refine ⟨rfl, hstop, ?_, fun _ => ⟨rfl, hag, hrel⟩⟩
              exact sameDecisions_append p _ _ _ htr
            | some f =>
              have hf := hblock f rfl s1.handlerState s2.handlerState _ _ s1.isStop hrel
                (by rw [hlen1, hlen2, hd]) hag
              rw [b1, b2]
              refine ⟨rfl, ?_, ?_, fun _ => ⟨rfl, hag, ?_⟩⟩
              · simp only []
                rw [← hstop]; exact hf.2
              · simp only []
                have hcall : List.Forall₂ (sameDecision p)
                    [Event.call (decodedLength s1.messageBuffer z)
                      (dispatched s1.messageBuffer x y z
                        (read (read (read s1.conn 1).2.2 2).2.2
                          (decodedLength s1.messageBuffer z + 3)).2.1)
                      (f s1.handlerState (dispatched s1.messageBuffer x y z
                        (read (read (read s1.conn 1).2.2 2).2.2
                          (decodedLength s1.messageBuffer z + 3)).2.1) s1.isStop).2]
                    [Event.call (decodedLength s1.messageBuffer z)
                      (dispatched s2.messageBuffer x y z
                        (read (read (read s1.conn 1).2.2 2).2.2
                          (decodedLength s1.messageBuffer z + 3)).2.1)
                      (f s2.handlerState (dispatched s2.messageBuffer x y z
                        (read (read (read s1.conn 1).2.2 2).2.2
                          (decodedLength s1.messageBuffer z + 3)).2.1) s2.isStop).2] := by
                  refine List.Forall₂.cons ⟨rfl, ?_, ?_, hag⟩ List.Forall₂.nil
                  · rw [← hstop]; exact hf.2
                  · rw [hlen1, hlen2, hd]
                have hreads := sameDecisions_append p _ _
                  [Event.read 1 1, Event.read 2 2,
                    Event.read (decodedLength s1.messageBuffer z + 3)
                      (read (read (read s1.conn 1).2.2 2).2.2
                        (decodedLength s1.messageBuffer z + 3)).1] htr
                have := List.rel_append hreads hcall
                simpa [List.append_assoc] using this
              · simp only []
                rw [← hstop]; exact hf.1
          · rw [if_neg h3] at b1 b2
            rw [b1, b2]
            refine ⟨rfl, hstop, ?_, fun hc => by simp at hc⟩
            exact sameDecisions_append p _ _ _ htr
      · have k1 := iteration_length_read block s1 x _ e1 hx h2
        have k2 := iteration_length_read block s2 x _ e1' hx h2
        exact hfail _ k1.1 k2.1 k1.2.2.2 k2.2.2.2
    · have k1 := iteration_marker_value block s1 x _ e1 hx
      have k2 := iteration_marker_value block s2 x _ e1' hx
      exact hfail [Event.read 1 1] (by rw [k1]) (by rw [k2]) (by rw [k1]) (by rw [k2])
  · have h1' : (read s2.conn 1).1 ≠ 1 := by rw [← hconn]; exact h1
    have k1 := iteration_marker_read block s1 h1
    have k2 := iteration_marker_read block s2 h1'
    exact hfail [Event.read 1 (read s1.conn 1).1] (by rw [k1]) (by rw [k2]) (by rw [k1])
      (by rw [k2, ← hconn])

theorem loop_ended {σ : Type} (s : LoopState σ) (h : ¬ (s.isOK = true ∧ s.isStop = false)) :
    s.isOK = false ∨ s.isStop = true := by
  cases h1 : s.isOK with
  | false => exact Or.inl rfl
  | true =>
    cases h2 : s.isStop with
    | true => exact Or.inr rfl
    | false => exact absurd ⟨h1, h2⟩ h

/-- Two runs that stand at the same point end at the same point. -/
theorem runLoop_sameRun {σ : Type} (p : Nat) (rel : σ → σ → Prop)
    (block : Option (MessageReceived σ)) (hp : 3 < p)
    (hblock : ∀ f, block = some f → handlerIgnores p rel f) (n : Nat) :
    ∀ s1 s2 : LoopState σ, connSize s1.conn ≤ n → sameRun p rel s1 s2 →
      ∃ r1 r2, runLoop block s1 = some r1 ∧ runLoop block s2 = some r2
        ∧ sameRun p rel r1 r2 := by
  induction n with
  | zero =>
    intro s1 s2 hn h
    by_cases hgo : s1.isOK = true ∧ s1.isStop = false
    · have hgo2 : s2.isOK = true ∧ s2.isStop = false := by
        rw [← h.1, ← h.2.1]; exact hgo
      have hs := iteration_sameRun p rel block hp hblock s1 s2 hgo.1 h
      have hbad : (iteration block s1).isOK = false := by
        by_contra hc
        have := iteration_connSize block s1 (by simpa using hc)
        omega
      rw [runLoop_step block s1 hgo.1 hgo.2, runLoop_step block s2 hgo2.1 hgo2.2]
      exact ⟨_, _, runLoop_stop block _ (Or.inl hbad),
        runLoop_stop block _ (Or.inl (by rw [← hs.1]; exact hbad)), hs⟩
    · have hb : s1.isOK = false ∨ s1.isStop = true := loop_ended s1 hgo
      have hb2 : s2.isOK = false ∨ s2.isStop = true := by
        rw [← h.1, ← h.2.1]; exact hb
      exact ⟨s1, s2, runLoop_stop block s1 hb, runLoop_stop block s2 hb2, h⟩
  | succ n ih =>
    intro s1 s2 hn h
    by_cases hgo : s1.isOK = true ∧ s1.isStop = false
    · have hgo2 : s2.isOK = true ∧ s2.isStop = false := by
        rw [← h.1, ← h.2.1]; exact hgo
      have hs := iteration_sameRun p rel block hp hblock s1 s2 hgo.1 h
      rw [runLoop_step block s1 hgo.1 hgo.2, runLoop_step block s2 hgo2.1 hgo2.2]
      by_cases hok : (iteration block s1).isOK = true
      · have := iteration_connSize block s1 hok
        exact ih _ _ (by omega) hs
      · have hbad : (iteration block s1).isOK = false := by simpa using hok
        exact ⟨_, _, runLoop_stop block _ (Or.inl hbad),
          runLoop_stop block _ (Or.inl (by rw [← hs.1]; exact hbad)), hs⟩
    · have hb : s1.isOK = false ∨ s1.isStop = true := loop_ended s1 hgo
      have hb2 : s2.isOK = false ∨ s2.isStop = true := by
        rw [← h.1, ← h.2.1]; exact hb
      exact ⟨s1, s2, runLoop_stop block s1 hb, runLoop_stop block s2 hb2, h⟩

/-- An iteration only adds to the record. -/
theorem iteration_trace_append {σ : Type} (block : Option (MessageReceived σ))
    (s : LoopState σ) : ∃ t, (iteration block s).trace = s.trace ++ t := by
  cases block <;> simp only [iteration] <;> split_ifs <;>
    simp only [List.append_assoc] <;> exact ⟨_, rfl⟩

/-- The loop only adds to the record. -/
theorem runLoop_trace_append {σ : Type} (block : Option (MessageReceived σ))
    (s r : LoopState σ) (h : runLoop block s = some r) : ∃ t, r.trace = s.trace ++ t := by
  obtain ⟨r', h1, _, h3⟩ := runLoop_invariant block (fun s' => ∃ t, s'.trace = s.trace ++ t)
    (fun s' _ _ hi => by
      obtain ⟨t, ht⟩ := hi
      obtain ⟨t', ht'⟩ := iteration_trace_append block s'
      exact ⟨t ++ t', by rw [ht', ht, List.append_assoc]⟩)
    (connSize s.conn) s (Nat.le_refl _) ⟨[], by simp⟩
  rw [h] at h1
  simp only [Option.some.injEq] at h1
  rw [h1]
  exact h3

theorem read_prefix (a post : Buffer) (more : Conn) :
    read (Arrival.bytes (a ++ post) :: more) a.length
      = (((a.length : Nat) : Int), a,
          if post = [] then more else Arrival.bytes post :: more) := by
  simp [read]

theorem toSizeT_natCast (n : Nat) : toSizeT ((n : Nat) : Int) ≤ n := by
  unfold toSizeT
  have e : (2 : Int) ^ 64 = 18446744073709551616 := by norm_num
  rw [e]
  omega

theorem message_agree (x y z : Nat) (payload t1 t2 : Buffer) (h1 : t1.length = 3)
    (h2 : t2.length = 3) :
    agreeOutside (payload.length + 3) (x :: y :: z :: (payload ++ t1))
      (x :: y :: z :: (payload ++ t2)) := by
  intro i hi
  match i with
  | 0 => rfl
  | 1 => rfl
  | 2 => rfl
  | j + 3 =>
    simp only [List.getD_cons_succ]
    rcases hi with hi | hi
    · rw [getD_append_left _ _ _ (by omega), getD_append_left _ _ _ (by omega)]
    · rw [List.getD_eq_default _ _ (by rw [List.length_append]; omega),
        List.getD_eq_default _ _ (by rw [List.length_append]; omega)]

/-- The iteration that reads one whole message. -/
theorem iteration_message {σ : Type} (block : MessageReceived σ) (s : LoopState σ)
    (x y z : Nat) (payload t post : Buffer) (more : Conn)
    (hx : x = 0xD3) (hN : payload.length = decodedLength s.messageBuffer z)
    (hpos : 0 < payload.length) (ht : t.length = 3) :
    iteration (some block)
        { s with conn := Arrival.bytes (x :: y :: z :: (payload ++ t ++ post)) :: more }
      = { isOK := true,
          isStop := (block s.handlerState (x :: y :: z :: (payload ++ t)) s.isStop).2,
          messageBuffer := x :: y :: z :: (payload ++ t),
          conn := if post = [] then more else Arrival.bytes post :: more,
          handlerState := (block s.handlerState (x :: y :: z :: (payload ++ t)) s.isStop).1,
          trace := s.trace ++ [Event.read 1 1, Event.read 2 2,
            Event.read (payload.length + 3) ((payload.length + 3 : Nat) : Int),
            Event.call payload.length (x :: y :: z :: (payload ++ t))
              (block s.handlerState (x :: y :: z :: (payload ++ t)) s.isStop).2] } := by
  have hlen : (payload ++ t).length = payload.length + 3 := by
    rw [List.length_append, ht]
  have hne : payload ++ t ++ post ≠ [] := by
    intro e
    have := congrArg List.length e
    rw [List.length_append, hlen] at this
    simp at this
  have e3 : read (Arrival.bytes (payload ++ t ++ post) :: more) (payload.length + 3)
      = (((payload.length + 3 : Nat) : Int), payload ++ t,
          if post = [] then more else Arrival.bytes post :: more) := by
    have h := read_prefix (payload ++ t) post more
    rw [hlen] at h
    exact h
  have hsz : toSizeT ((payload.length + 3 : Nat) : Int) < payload.length + 6 := by
    have := toSizeT_natCast (payload.length + 3)
    omega
  have hit := iteration_dispatch block
    { s with conn := Arrival.bytes (x :: y :: z :: (payload ++ t ++ post)) :: more }
    x y z _ _ (read_first x y (z :: (payload ++ t ++ post)) more) (by rw [hx])
    (read_two y z (payload ++ t ++ post) more hne)
    (by simp only []; rw [← hN]; exact hpos)
    (by simp only []; rw [← hN, e3]; exact hsz)
  simp only [] at hit
  rw [← hN, e3] at hit
  simp only [] at hit
  rw [dispatched_full _ _ _ _ _ (by rw [← hN, hlen])] at hit
  exact hit

/-- The handler of `main` satisfies the assumption made on the handler: it
never changes the stop flag. -/
theorem mainHandler_ignores (p : Nat) : handlerIgnores p (fun _ _ => True) mainHandler :=
  fun _ _ _ _ _ _ _ _ => ⟨trivial, rfl⟩

/-! ## The stream before the message -/

theorem read_within (u w : Buffer) (more : Conn) (n : Nat) (hn : n ≤ u.length) (hw : w ≠ []) :
    read (Arrival.bytes (u ++ w) :: more) n
      = (((n : Nat) : Int), u.take n, Arrival.bytes (u.drop n ++ w) :: more) := by
  have h1 : (u ++ w).take n = u.take n := List.take_append_of_le_length hn
  have h2 : (u ++ w).drop n = u.drop n ++ w := List.drop_append_of_le_length hn
  have h3 : u.drop n ++ w ≠ [] := by simp [hw]
  simp only [read, h1, h2, if_neg h3, List.length_take, min_eq_left hn]

theorem read_beyond (u w : Buffer) (more : Conn) (n : Nat) (hn : u.length < n) :
    connSize (read (Arrival.bytes (u ++ w) :: more) n).2.2
      < connSize (Arrival.bytes w :: more) := by
  have e : connSize (Arrival.bytes w :: more) = 1 + w.length + connSize more := rfl
  rw [e]
  by_cases h : (u ++ w).drop n = []
  · have e1 : (read (Arrival.bytes (u ++ w) :: more) n).2.2 = more := by
      simp only [read, if_pos h]
    rw [e1]
    omega
  · have e1 : (read (Arrival.bytes (u ++ w) :: more) n).2.2
        = Arrival.bytes ((u ++ w).drop n) :: more := by
      simp only [read, if_neg h]
    have e2 : connSize (Arrival.bytes ((u ++ w).drop n) :: more)
        = 1 + ((u ++ w).drop n).length + connSize more := rfl
    rw [e1, e2, List.length_drop, List.length_append]
    have : 0 < ((u ++ w).drop n).length := List.length_pos.mpr h
    rw [List.length_drop, List.length_append] at this
    omega

theorem iteration_conn_first {σ : Type} (block : Option (MessageReceived σ))
    (s : LoopState σ) :
    connSize (iteration block s).conn ≤ connSize (read s.conn 1).2.2 := by
  have k2 := read_connSize_le (read s.conn 1).2.2 2
  have k3 : ∀ n, connSize (read (read (read s.conn 1).2.2 2).2.2 n).2.2
      ≤ connSize (read (read s.conn 1).2.2 2).2.2 := fun n => read_connSize_le _ n
  cases block <;> simp only [iteration] <;> split_ifs <;> simp <;>
    first | exact k2 | exact le_trans (k3 _) k2

theorem iteration_conn_third {σ : Type} (block : Option (MessageReceived σ))
    (s : LoopState σ) (x y z : Nat) (c1 c2 : Conn) (e1 : read s.conn 1 = (1, [x], c1))
    (hx : x % 256 = 0xd3) (e2 : read c1 2 = (2, [y, z], c2))
    (hpos : 0 < decodedLength s.messageBuffer z) :
    (iteration block s).conn = (read c2 (decodedLength s.messageBuffer z + 3)).2.2 := by
  rw [iteration_body block s x y z c1 c2 e1 hx e2 hpos]
  split_ifs
  · cases block <;> rfl
  · rfl

theorem iteration_conn_second {σ : Type} (block : Option (MessageReceived σ))
    (s : LoopState σ) (x : Nat) (c1 : Conn) (e1 : read s.conn 1 = (1, [x], c1))
    (hx : x % 256 = 0xd3) :
    connSize (iteration block s).conn ≤ connSize (read c1 2).2.2 := by
  by_cases h2 : (read c1 2).1 = 2
  · obtain ⟨y, z, e2⟩ := read_two_eq c1 h2
    by_cases hz : decodedLength s.messageBuffer z = 0
    · rw [(iteration_length_zero block s x y z c1 _ e1 hx e2 hz).2.1]
    · rw [iteration_conn_third block s x y z c1 _ e1 hx e2 (by omega)]
      exact read_connSize_le _ _
  · rw [(iteration_length_read block s x c1 e1 hx h2).2.1]

theorem iteration_length_zero_eq {σ : Type} (block : Option (MessageReceived σ))
    (s : LoopState σ) (x y z : Nat) (c1 c2 : Conn) (e1 : read s.conn 1 = (1, [x], c1))
    (hx : x % 256 = 0xd3) (e2 : read c1 2 = (2, [y, z], c2))
    (hzero : decodedLength s.messageBuffer z = 0) :
    iteration block s =
      { s with
        isOK := false,
        messageBuffer :=
          writeAt (writeAt (resize s.messageBuffer BUFFER_SIZE) 0 [x]) 1 [y, z],
        conn := c2,
        trace := s.trace ++ [Event.read 1 1, Event.read 2 2] } := by
  obtain ⟨a, b, c, t, hs, ht⟩ := resize_shape s.messageBuffer
  have hd : ntohs (getBitsUnsigned ((x :: y :: z :: t).drop 1) 8 16) = 0 := by
    rw [decoded_length]
    have e : (x :: y :: z :: t).getD 3 0 = s.messageBuffer.getD 3 0 := by rw [← ht]; rfl
    have e' : (x :: y :: z :: t).getD 2 0 = z := rfl
    rw [e, e']
    exact hzero
  simp [iteration, e1, e2, hs, writeAt_zero, writeAt_cons, getBitsUnsigned_0_8, hx] at hd ⊢
  simp [hd]

/-- One iteration on two streams with the same first bytes `u`: either it takes
its bytes from `u` only, and then it ends in the same state on both, the rest
of the stream apart, or it reads on into what follows `u`. -/
theorem iteration_ahead {σ : Type} (block : Option (MessageReceived σ)) (s : LoopState σ)
    (u w1 w2 : Buffer) (more : Conn) (hw1 : w1 ≠ []) (hw2 : w2 ≠ []) :
    (∃ (X : LoopState σ) (v : Buffer),
        iteration block { s with conn := Arrival.bytes (u ++ w1) :: more }
          = { X with conn := Arrival.bytes (v ++ w1) :: more }
        ∧ iteration block { s with conn := Arrival.bytes (u ++ w2) :: more }
          = { X with conn := Arrival.bytes (v ++ w2) :: more })
      ∨ connSize (iteration block { s with conn := Arrival.bytes (u ++ w1) :: more }).conn
          < connSize (Arrival.bytes w1 :: more) := by
  match u with
  | [] =>
    right
    exact lt_of_le_of_lt (iteration_conn_first block _) (read_beyond [] w1 more 1 (by simp))
  | a :: u1 =>
    have e1 : ∀ w, w ≠ [] → read (Arrival.bytes (a :: u1 ++ w) :: more) 1
        = (1, [a], Arrival.bytes (u1 ++ w) :: more) := by
      intro w hw
      have h := read_within (a :: u1) w more 1 (by simp) hw
      simpa using h
    by_cases ha : a % 256 = 0xd3
    · match u1 with
      | [] =>
        right
        exact lt_of_le_of_lt
          (iteration_conn_second block
            { s with conn := Arrival.bytes ([a] ++ w1) :: more } a _ (e1 w1 hw1) ha)
          (read_beyond [] w1 more 2 (by simp))
      | [b] =>
        right
        exact lt_of_le_of_lt
          (iteration_conn_second block
            { s with conn := Arrival.bytes ([a, b] ++ w1) :: more } a _ (e1 w1 hw1) ha)
          (read_beyond [b] w1 more 2 (by simp))
      | b :: c :: v =>
        have e2 : ∀ w, w ≠ [] → read (Arrival.bytes (b :: c :: v ++ w) :: more) 2
            = (2, [b, c], Arrival.bytes (v ++ w) :: more) := by
          intro w hw
          have h := read_within (b :: c :: v) w more 2 (by simp) hw
          simpa using h
        by_cases hz : decodedLength s.messageBuffer c = 0
        · left
          exact ⟨{ s with
              isOK := false,
              messageBuffer :=
                writeAt (writeAt (resize s.messageBuffer BUFFER_SIZE) 0 [a]) 1 [b, c],
              trace := s.trace ++ [Event.read 1 1, Event.read 2 2] }, v,
            iteration_length_zero_eq block
              { s with conn := Arrival.bytes (a :: b :: c :: v ++ w1) :: more }
              a b c _ _ (e1 w1 hw1) ha (e2 w1 hw1) hz,
            iteration_length_zero_eq block
              { s with conn := Arrival.bytes (a :: b :: c :: v ++ w2) :: more }
              a b c _ _ (e1 w2 hw2) ha (e2 w2 hw2) hz⟩
        · have hpos : 0 < decodedLength s.messageBuffer c := by omega
          by_cases hN : decodedLength s.messageBuffer c + 3 ≤ v.length
          · left
            have hb1 := iteration_body block
              { s with conn := Arrival.bytes (a :: b :: c :: v ++ w1) :: more }
              a b c _ _ (e1 w1 hw1) ha (e2 w1 hw1) hpos
            have hb2 := iteration_body block
              { s with conn := Arrival.bytes (a :: b :: c :: v ++ w2) :: more }
              a b c _ _ (e1 w2 hw2) ha (e2 w2 hw2) hpos
            simp only [] at hb1 hb2
            rw [read_within v w1 more _ hN hw1] at hb1
            rw [read_within v w2 more _ hN hw2] at hb2
            refine ⟨iteration block
              { s with conn := Arrival.bytes (a :: b :: c :: v ++ w1) :: more },
              v.drop (decodedLength s.messageBuffer c + 3), ?_, ?_⟩
            · rw [hb1]
              split_ifs
              · cases block <;> rfl
              · rfl
            · rw [hb1, hb2]
              split_ifs
              · cases block <;> rfl
              · rfl
          · right
            rw [iteration_conn_third block
              { s with conn := Arrival.bytes (a :: b :: c :: v ++ w1) :: more }
              a b c _ _ (e1 w1 hw1) ha (e2 w1 hw1) hpos]
            exact read_beyond v w1 more (decodedLength s.messageBuffer c + 3) (by omega)
    · left
      exact ⟨{ s with
          isOK := false,
          messageBuffer := writeAt (resize s.messageBuffer BUFFER_SIZE) 0 [a],
          trace := s.trace ++ [Event.read 1 1] }, u1,
        iteration_marker_value block
          { s with conn := Arrival.bytes (a :: u1 ++ w1) :: more } a _ (e1 w1 hw1) ha,
        iteration_marker_value block
          { s with conn := Arrival.bytes (a :: u1 ++ w2) :: more } a _ (e1 w2 hw2) ha⟩

theorem iterationStart_connSize {σ : Type} (block : Option (MessageReceived σ)) (k : Nat) :
    ∀ (s t : LoopState σ), iterationStart block k s = some t →
      connSize t.conn ≤ connSize s.conn := by
  induction k with
  | zero =>
    intro s t h
    simp only [iterationStart, Option.some.injEq] at h
    rw [h]
  | succ k ih =>
    intro s t h
    simp only [iterationStart] at h
    split_ifs at h
    exact le_trans (ih _ _ h)
      (le_trans (iteration_conn_first block s) (read_connSize_le _ _))

/-- The iterations before a point of the stream do not depend on what the
stream holds from that point on. -/
theorem iterationStart_ahead {σ : Type} (block : Option (MessageReceived σ))
    (w1 w2 : Buffer) (more : Conn) (hw1 : w1 ≠ []) (hw2 : w2 ≠ []) (k : Nat) :
    ∀ (s t : LoopState σ) (u : Buffer),
      iterationStart block k { s with conn := Arrival.bytes (u ++ w1) :: more }
        = some { t with conn := Arrival.bytes w1 :: more } →
      iterationStart block k { s with conn := Arrival.bytes (u ++ w2) :: more }
        = some { t with conn := Arrival.bytes w2 :: more } := by
  induction k with
  | zero =>
    intro s t u h
    simp only [iterationStart, Option.some.injEq, LoopState.mk.injEq, List.cons.injEq,
      Arrival.bytes.injEq, List.append_left_eq_self, and_true] at h ⊢
    obtain ⟨h1, h2, h3, h4, h5, h6⟩ := h
    exact ⟨h1, h2, h3, h4, h5, h6⟩
  | succ k ih =>
    intro s t u h
    simp only [iterationStart] at h ⊢
    split_ifs at h ⊢ with hgo
    rcases iteration_ahead block s u w1 w2 more hw1 hw2 with ⟨X, v, a1, a2⟩ | hpast
    · rw [a1] at h
      rw [a2]
      exact ih X t v h
    · have := iterationStart_connSize block k _ _ h
      exact absurd this (by simp only []; omega)

/-- C18: two streams that differ only in the 3 trailer bytes of a message, the
message that the first session reads in full in the iteration after its `k`-th
(`hk`: after `k` iterations the stream stands at the message; `hN`: the payload
is as long as line 230 decodes).  The handler's stop flag and state do not
depend on those 3 positions of its message (`handlerIgnores`, which holds of
the handler of `main`).  Whatever the trailers are (nothing relates them to a
checksum), the message is handed over in both sessions, with buffers that
differ in the trailer bytes only; the two records show the same reads and the
same handler calls, on buffers of the same length that differ at most at those
positions; and `connectToStation` returns the same result.  In particular, for
`D3 00 01 11 00 00 00`, whose trailer is not the checksum `E5 5F` of the bytes
before it, the handler is invoked. -/
theorem trailer_not_validated {σ : Type} (rel : σ → σ → Prop) (block : MessageReceived σ)
    (net : Net) (stationId stationToken : Buffer) (latDeg lonDeg : ℚ) (st0 : σ)
    (w : Sender) (k : Nat) (s : LoopState σ) (x y z : Nat)
    (pre payload t1 t2 post : Buffer) (more : Conn)
    (hhs : handshake net stationId stationToken latDeg lonDeg = Outcome.returned (true, w))
    (hk : iterationStart (some block) k
        (startState true
          (Arrival.bytes (pre ++ x :: y :: z :: (payload ++ t1 ++ post)) :: more) st0)
      = some { s with conn := Arrival.bytes (x :: y :: z :: (payload ++ t1 ++ post)) :: more })
    (hok : s.isOK = true) (hstop : s.isStop = false) (hx : x = 0xD3)
    (hN : payload.length = decodedLength s.messageBuffer z) (hpos : 0 < payload.length)
    (ht1 : t1.length = 3) (ht2 : t2.length = 3)
    (hrel : rel s.handlerState s.handlerState)
    (hblock : handlerIgnores (payload.length + 3) rel block) :
    (∃ r1 r2 stop tail1 tail2,
        connectToStation
            { net with
              conn := Arrival.bytes (pre ++ x :: y :: z :: (payload ++ t1 ++ post)) :: more }
            stationId stationToken latDeg lonDeg (some block) st0
          = Outcome.returned r1
        ∧ connectToStation
            { net with
              conn := Arrival.bytes (pre ++ x :: y :: z :: (payload ++ t2 ++ post)) :: more }
            stationId stationToken latDeg lonDeg (some block) st0
          = Outcome.returned r2
        ∧ r1.isOK = r2.isOK
        ∧ List.Forall₂ (sameDecision (payload.length + 3)) r1.loop.trace r2.loop.trace
        ∧ r1.loop.trace = s.trace ++ [Event.read 1 1, Event.read 2 2,
            Event.read (payload.length + 3) ((payload.length + 3 : Nat) : Int),
            Event.call payload.length (x :: y :: z :: (payload ++ t1)) stop] ++ tail1
        ∧ r2.loop.trace = s.trace ++ [Event.read 1 1, Event.read 2 2,
            Event.read (payload.length + 3) ((payload.length + 3 : Nat) : Int),
            Event.call payload.length (x :: y :: z :: (payload ++ t2)) stop] ++ tail2)
      ∧ summary (connectToStation
            (okNet [Arrival.bytes [0xD3, 0x00, 0x01, 0x11, 0x00, 0x00, 0x00]])
            [] [] 0 0 (some keepGoing) ())
          = some (false,
              [Event.read 1 1, Event.read 2 2, Event.read 4 4,
               Event.call 1 [0xD3, 0x00, 0x01, 0x11, 0x00, 0x00, 0x00] false,
               Event.read 1 0])
      ∧ computeChecksum [0xD3, 0x00, 0x01, 0x11] 0 4 = (0xE5, 0x5F) := by
  refine ⟨?_, ?_, by decide⟩
  · have hk2 : iterationStart (some block) k
          (startState true
            (Arrival.bytes (pre ++ x :: y :: z :: (payload ++ t2 ++ post)) :: more) st0)
        = some { s with
            conn := Arrival.bytes (x :: y :: z :: (payload ++ t2 ++ post)) :: more } :=
      iterationStart_ahead (some block) (x :: y :: z :: (payload ++ t1 ++ post))
        (x :: y :: z :: (payload ++ t2 ++ post)) more (by simp) (by simp) k
        (startState true [] st0) s pre hk
    have i1 := iteration_message block s x y z payload t1 post more hx hN hpos ht1
    have i2 := iteration_message block s x y z payload t2 post more hx hN hpos ht2
    have hag := message_agree x y z payload t1 t2 ht1 ht2
    have hlen : (x :: y :: z :: (payload ++ t1)).length
        = (x :: y :: z :: (payload ++ t2)).length := by
      simp [ht1, ht2]
    have hf := hblock s.handlerState s.handlerState _ _ s.isStop hrel hlen hag
    have hsim : sameRun (payload.length + 3) rel
        (iteration (some block)
          { s with conn := Arrival.bytes (x :: y :: z :: (payload ++ t1 ++ post)) :: more })
        (iteration (some block)
          { s with conn := Arrival.bytes (x :: y :: z :: (payload ++ t2 ++ post)) :: more }) := by
      rw [i1, i2]
      refine ⟨rfl, hf.2, ?_, fun _ => ⟨rfl, hag, hf.1⟩⟩
      exact List.rel_append (sameDecisions_refl _ s.trace)
        (List.Forall₂.cons ⟨rfl, rfl⟩ (List.Forall₂.cons ⟨rfl, rfl⟩
          (List.Forall₂.cons ⟨rfl, rfl⟩
            (List.Forall₂.cons ⟨rfl, hf.2, hlen, hag⟩ List.Forall₂.nil))))
    obtain ⟨r1, r2, a1, a2, hres⟩ := runLoop_sameRun (payload.length + 3) rel (some block)
      (by omega) (fun f hf' => by
        have e : block = f := by simpa using hf'
        rw [← e]; exact hblock)
      _ _ _ (Nat.le_refl _) hsim
    obtain ⟨tail1, p1⟩ := runLoop_trace_append _ _ _ a1
    obtain ⟨tail2, p2⟩ := runLoop_trace_append _ _ _ a2
    have g1 : runLoop (some block)
        (startState true
          (Arrival.bytes (pre ++ x :: y :: z :: (payload ++ t1 ++ post)) :: more) st0)
        = some r1 := by
      rw [runLoop_iterationStart _ k _ _ hk,
        runLoop_step (some block)
          { s with conn := Arrival.bytes (x :: y :: z :: (payload ++ t1 ++ post)) :: more }
          hok hstop]
      exact a1
    have g2 : runLoop (some block)
        (startState true
          (Arrival.bytes (pre ++ x :: y :: z :: (payload ++ t2 ++ post)) :: more) st0)
        = some r2 := by
      rw [runLoop_iterationStart _ k _ _ hk2,
        runLoop_step (some block)
          { s with conn := Arrival.bytes (x :: y :: z :: (payload ++ t2 ++ post)) :: more }
          hok hstop]
      exact a2
    refine ⟨_, _, (block s.handlerState (x :: y :: z :: (payload ++ t1)) s.isStop).2,
      tail1, tail2,
      connectToStation_loop
        { net with
          conn := Arrival.bytes (pre ++ x :: y :: z :: (payload ++ t1 ++ post)) :: more }
        stationId stationToken latDeg lonDeg (some block) st0 w r1 hhs g1,
      connectToStation_loop
        { net with
          conn := Arrival.bytes (pre ++ x :: y :: z :: (payload ++ t2 ++ post)) :: more }
        stationId stationToken latDeg lonDeg (some block) st0 w r2 hhs g2,
      hres.1, hres.2.2.1, ?_, ?_⟩
    · show r1.trace = _
      rw [p1, i1]
    · show r2.trace = _
      rw [p2, i2, hf.2]
  · exact fresh_one_message (okNet [Arrival.bytes [0xD3, 0x00, 0x01, 0x11, 0x00, 0x00, 0x00]])
      [] [] 0 0 keepGoing () _ 0xD3 0x00 0x01 _ _ 4 [0x11, 0x00, 0x00, 0x00]
      (handshake_okNet _ [] [] 0 0) rfl (by decide) rfl (by decide) rfl (by decide)

/-- The session on `D3 00 01 00 00 00 00` followed by `D3 00 01 11` and a
trailer stands at the second message after one iteration. -/
theorem second_message_start (t : Buffer) :
    iterationStart (some keepGoing) 1
        (startState true
          [Arrival.bytes ([0xD3, 0x00, 0x01, 0x00, 0x00, 0x00, 0x00]
            ++ 0xD3 :: 0x00 :: 0x01 :: ([0x11] ++ t ++ []))] ())
      = some
          { ({ isOK := true, isStop := false,
               messageBuffer := [0xD3, 0x00, 0x01, 0x00, 0x00, 0x00, 0x00],
               conn := [], handlerState := (),
               trace := [Event.read 1 1, Event.read 2 2, Event.read 4 4,
                 Event.call 1 [0xD3, 0x00, 0x01, 0x00, 0x00, 0x00, 0x00] false] } :
              LoopState Unit) with
            conn := [Arrival.bytes (0xD3 :: 0x00 :: 0x01 :: ([0x11] ++ t ++ []))] } := by
  have h := iteration_message keepGoing (startState true [] ()) 0xD3 0x00 0x01 [0x00]
    [0x00, 0x00, 0x00] (0xD3 :: 0x00 :: 0x01 :: ([0x11] ++ t ++ [])) [] rfl
    (decodedLength_fresh 1).symm (by decide) rfl
  have e : iterationStart (some keepGoing) 1
        (startState true
          [Arrival.bytes ([0xD3, 0x00, 0x01, 0x00, 0x00, 0x00, 0x00]
            ++ 0xD3 :: 0x00 :: 0x01 :: ([0x11] ++ t ++ []))] ())
      = some (iteration (some keepGoing)
          { startState true [] () with
            conn := [Arrival.bytes (0xD3 :: 0x00 :: 0x01 :: ([0x00] ++ [0x00, 0x00, 0x00]
              ++ 0xD3 :: 0x00 :: 0x01 :: ([0x11] ++ t ++ [])))] }) := rfl
  rw [e, h]
  rfl

/-- Witness of C18: the second message of a session, with trailers `00 00 00`
and `AA BB CC`. -/
theorem trailer_not_validated_witness :
    ∃ r1 r2 stop tail1 tail2,
      connectToStation
          { okNet [] with
            conn := [Arrival.bytes ([0xD3, 0x00, 0x01, 0x00, 0x00, 0x00, 0x00]
              ++ 0xD3 :: 0x00 :: 0x01 :: ([0x11] ++ [0x00, 0x00, 0x00] ++ []))] }
          [] [] 0 0 (some keepGoing) () = Outcome.returned r1
        ∧ connectToStation
            { okNet [] with
              conn := [Arrival.bytes ([0xD3, 0x00, 0x01, 0x00, 0x00, 0x00, 0x00]
                ++ 0xD3 :: 0x00 :: 0x01 :: ([0x11] ++ [0xAA, 0xBB, 0xCC] ++ []))] }
            [] [] 0 0 (some keepGoing) () = Outcome.returned r2
        ∧ r1.isOK = r2.isOK
        ∧ List.Forall₂ (sameDecision ([0x11].length + 3)) r1.loop.trace r2.loop.trace
        ∧ r1.loop.trace
          = [Event.read 1 1, Event.read 2 2, Event.read 4 4,
              Event.call 1 [0xD3, 0x00, 0x01, 0x00, 0x00, 0x00, 0x00] false]
            ++ [Event.read 1 1, Event.read 2 2,
              Event.read ([0x11].length + 3) (([0x11].length + 3 : Nat) : Int),
              Event.call [0x11].length (0xD3 :: 0x00 :: 0x01 :: ([0x11] ++ [0x00, 0x00, 0x00]))
                stop] ++ tail1
        ∧ r2.loop.trace
          = [Event.read 1 1, Event.read 2 2, Event.read 4 4,
              Event.call 1 [0xD3, 0x00, 0x01, 0x00, 0x00, 0x00, 0x00] false]
            ++ [Event.read 1 1, Event.read 2 2,
              Event.read ([0x11].length + 3) (([0x11].length + 3 : Nat) : Int),
              Event.call [0x11].length (0xD3 :: 0x00 :: 0x01 :: ([0x11] ++ [0xAA, 0xBB, 0xCC]))
                stop] ++ tail2 :=
  (trailer_not_validated (fun _ _ => True) keepGoing (okNet []) [] [] 0 0 () _ 1
    { isOK := true, isStop := false,
      messageBuffer := [0xD3, 0x00, 0x01, 0x00, 0x00, 0x00, 0x00],
      conn := [], handlerState := (),
      trace := [Event.read 1 1, Event.read 2 2, Event.read 4 4,
        Event.call 1 [0xD3, 0x00, 0x01, 0x00, 0x00, 0x00, 0x00] false] }
    0xD3 0x00 0x01 [0xD3, 0x00, 0x01, 0x00, 0x00, 0x00, 0x00] [0x11] [0x00, 0x00, 0x00]
    [0xAA, 0xBB, 0xCC] [] []
    (handshake_okNet _ [] [] 0 0) (second_message_start [0x00, 0x00, 0x00]) rfl rfl rfl
    (by decide) (by decide) rfl rfl trivial
    (fun _ _ _ _ _ _ _ _ => ⟨trivial, rfl⟩)).1

end PointOne
